import Mathlib

/-!
# UDP switch: route table, header parser, checksum rewriter, control channel

A shallow embedding of the C sources `route.c`, `tilera.c` (`parsePacket`,
`initializeNetio`), `forward.c` (`updateUdpPacket`,
`forwardPacketOnQueueOrDrop`, `forwardPacketOnQueueOrTap`), `control.c`
(`readControlStuff`, `handleOneRoute`, `controlRoutes`), `util.c`
(`stopSwitch`), `process.c` (`processInitialize`, `processStopThreads`) and
`packets.c` (the tester's packets) of the UDP switch, followed by theorems
about the route table, the header rewrite, the control channel, the packet
counters, the bucket map, the tester and the shutdown of the worker threads.

Conventions of the embedding.

* An `unsigned char` is a `Fin 256`; an `int` is an `Int`; an `unsigned int` is
  a `Nat` below `2 ^ 32`, and every operation that can leave that range is
  reduced modulo `2 ^ 32` (`add32`, `not32`, `toUnsigned`).
* C bit operators on non-negative values are the bit operators of `Nat`.
* The bytes of one NETIO packet buffer are a function from the offset
  (counted from the packet's L2 pointer) to the byte stored there; pointers
  into the packet are such offsets.
* A function that can stop in a failed `assert` returns an `Option`; a
  function that can also loop for ever returns an `Outcome`.
* The C library calls `snprintf` and `sscanf` are functions on lists of bytes,
  for the directives `%d` and `%x` that the route format uses; conversions
  are taken without overflow.
* A descriptor open for reading is the list of what the coming calls of
  `read` find; a function that writes returns the list of its `write` calls.
* The worker threads are state machines that take their steps while `main`
  waits on the condition variable or in `pthread_join`; a schedule lists, for
  each such wait, the workers that step during it.
-/

namespace UdpSwitch

/-! ## Machine integers -/

/-- An `unsigned char`. -/
abbrev UChar := Fin 256

/-- Conversion of an integer value to `unsigned char`: the low 8 bits. -/
def toUChar (n : Nat) : UChar := ⟨n % 256, Nat.mod_lt n (by decide)⟩

/-- Conversion of an `int` to `unsigned int`: its 32-bit two's-complement
bit pattern. -/
def toUnsigned (x : Int) : Nat := (x % 4294967296).toNat

/-- The C operator `~` on a 32-bit value. -/
def not32 (x : Nat) : Nat := 4294967295 - x % 4294967296

/-- Addition of two `unsigned int` values. -/
def add32 (x y : Nat) : Nat := (x + y) % 4294967296

/-! ## Constants of `util.h` -/

def CHANNELSPERSOCKET : Nat := 16
def SOCKETSPERS2Q : Nat := 8
def R30S2QCOUNT : Nat := 30
def R30TOTALCHANNELS : Nat := R30S2QCOUNT * SOCKETSPERS2Q * CHANNELSPERSOCKET
def PORTOFFSET : Int := 50000
def CONTROLPORT : Int := PORTOFFSET + R30TOTALCHANNELS

/-! ## Data model of `route.h` -/

/-- The C struct `Endpoint`: UDP port, IPv4 address, MAC address.  The default
values are those of C zero initialisation. -/
structure Endpoint where
  port : Int := 0
  ip : Fin 4 → UChar := fun _ => 0
  mac : Fin 6 → UChar := fun _ => 0
deriving DecidableEq

/-- The C struct `Route`.  The default values are those of C zero
initialisation, which a designated initialiser gives to the fields it does not
name. -/
structure Route where
  index : Int := 0
  poa : Int := 0
  dst : Endpoint := {}
  «open» : Int := 0
deriving DecidableEq

/-- The static `routeLimit` of `route.c`: `sizeof route / sizeof route[0]`. -/
def routeLimit : Nat := R30TOTALCHANNELS

/-- The static array `route[R30TOTALCHANNELS]` of `route.c`: an array of exactly
`routeLimit` routes. -/
structure RouteTable where
  slots : Array Route
  size_eq : slots.size = routeLimit

/-- Read of one slot, `route[i]`.  The program reads a slot only behind a
bounds check; outside the bounds the model answers the zero route. -/
def RouteTable.get (t : RouteTable) (i : Nat) : Route := t.slots.getD i {}

/-- Assignment to one slot, `route[i] = r`.  The program writes a slot only
behind a bounds check; outside the bounds the model changes nothing. -/
def RouteTable.set (t : RouteTable) (i : Nat) (r : Route) : RouteTable :=
  ⟨t.slots.setD i r, by rw [Array.size_setD]; exact t.size_eq⟩

/-! ## Packet memory -/

/-- The bytes of a packet buffer, addressed by their offset from the L2
pointer. -/
abbrev Memory := Nat → UChar

/-- Assignment of one byte: `p[0] = v`. -/
def store (mem : Memory) (p : Nat) (v : UChar) : Memory :=
  fun a => if a = p then v else mem a

/-- The call `memcpy(dst, src, sizeof src)` for a source array of `n` bytes. -/
def memcpy {n : Nat} (mem : Memory) (dst : Nat) (src : Fin n → UChar) : Memory :=
  fun a => if h : dst ≤ a ∧ a < dst + n then src ⟨a - dst, by omega⟩ else mem a

/-- The call `memcmp(p, src, sizeof src) == 0` for an array of `n` bytes. -/
def memcmpEq {n : Nat} (mem : Memory) (p : Nat) (src : Fin n → UChar) : Bool :=
  decide (∀ i : Fin n, mem (p + i.val) = src i)

/-- A packet as NETIO hands it over.  The macros `NETIO_PKT_STATUS_M`,
`NETIO_PKT_L2_DATA_M`, `NETIO_PKT_L3_DATA_M`, `NETIO_PKT_L2_LENGTH_M` and
`NETIO_PKT_L3_LENGTH_M` belong to the NETIO library, so what they return is
data of the packet here: `mem` holds the bytes from the L2 pointer on,
`l3Offset` is the distance from the L2 pointer to the L3 pointer.  These are
sizes inside one packet buffer, far below `2 ^ 32`. -/
structure NetioPkt where
  status : Nat
  mem : Memory
  l3Offset : Nat
  l2Length : Nat
  l3Length : Nat

/-- The C struct `PacketInfo` of `tilera.h`, without the two NETIO handles
`pkt` and `md`; `l2Data` and `l3Data` are offsets into the packet's memory. -/
structure PacketInfo where
  isUdpForMe : Bool
  poa : Int
  status : Nat
  l2Data : Nat
  l3Data : Nat
  l2Length : Nat
  l3Length : Nat
  ipHeaderSize : Nat
  allHeadersSize : Nat

/-- The part of the C struct `Process` that the packet path reads. -/
structure Process where
  forward : Endpoint := {}
  control : Endpoint := {}
  tap : Int := 0
  routeCount : Int := 0
  packetCount : Int := 0
  threadCount : Int := 0
  netioThreadCount : Int := 0
  netioThreadIndex : Int := 0

/-! ## `parsePacket` of `tilera.c` -/

/-- The function `parsePacket`: describe the packet `pkt` for process `p`.
The cache invalidations (`netio_pkt_inv`) change no data and are left out. -/
def parsePacket (p : Process) (pkt : NetioPkt) : PacketInfo :=
  let protocolByte : Nat := 9
  let protocolUdp : Nat := 0x11
  let ipVersionByte : Nat := 0
  let ipVersionMask : Nat := 0xf0
  let ipVersionShift : Nat := 4
  let ipV4Version : Nat := 4
  let ipHeaderSizeMask : Nat := 0x0f
  let ipHeaderSizeShift : Nat := 0
  let minIpHeaderLength : Nat := 20
  let udpHeaderLength : Nat := 8
  let portOffset : Nat := 2
  let minUdpLength : Nat := minIpHeaderLength + udpHeaderLength
  let l2Data : Nat := 0
  let l3Data : Nat := pkt.l3Offset
  let ethernetHeaderLength : Nat := l3Data - l2Data
  let minHeadersLength : Nat := ethernetHeaderLength + minUdpLength
  let portByte : Nat := l3Data + minIpHeaderLength + portOffset
  let poa : Int :=
    Int.ofNat (((pkt.mem portByte).val <<< 8) ||| ((pkt.mem (portByte + 1)).val <<< 0))
  let isUdpForMe : Bool :=
    decide (pkt.l3Length > minUdpLength) &&
    decide ((pkt.mem (l3Data + protocolByte)).val = protocolUdp) &&
    decide (((ipVersionMask &&& (pkt.mem (l3Data + ipVersionByte)).val) >>> ipVersionShift)
      = ipV4Version) &&
    memcmpEq pkt.mem l2Data p.forward.mac
  if isUdpForMe then
    let ipHeaderSizeInWords : Nat :=
      (ipHeaderSizeMask &&& (pkt.mem (l3Data + ipVersionByte)).val) >>> ipHeaderSizeShift
    let ipHeaderSize : Nat := 4 * ipHeaderSizeInWords
    let allHeadersSize : Nat :=
      if ipHeaderSize > minIpHeaderLength
      then ethernetHeaderLength + ipHeaderSize + udpHeaderLength
      else minHeadersLength
    let portByte : Nat := l3Data + ipHeaderSize + portOffset
    { isUdpForMe := isUdpForMe
      poa := Int.ofNat (((pkt.mem portByte).val <<< 8) ||| ((pkt.mem (portByte + 1)).val <<< 0))
      status := pkt.status
      l2Data := l2Data
      l3Data := l3Data
      l2Length := pkt.l2Length
      l3Length := pkt.l3Length
      ipHeaderSize := ipHeaderSize
      allHeadersSize := allHeadersSize }
  else
    { isUdpForMe := isUdpForMe
      poa := poa
      status := pkt.status
      l2Data := l2Data
      l3Data := l3Data
      l2Length := pkt.l2Length
      l3Length := pkt.l3Length
      ipHeaderSize := minIpHeaderLength
      allHeadersSize := ethernetHeaderLength }

/-! ## `updateUdpPacket` of `forward.c` -/

/-- The function `updateUdpPacket`: rewrite the packet described by `pi`, which
arrived on port `poa`, for the route `rt`.  The result is the packet memory
after the writes, in the order of the source. -/
def updateUdpPacket (mem : Memory) (pi : PacketInfo) (rt : Route) (poa : Int) : Memory :=
  let ipCsumOffset : Nat := 10
  let ipAddrOffset : Nat := 16
  let macOffset : Nat := 0
  let portOffset : Nat := 2
  let udpCsumOffset : Nat := 6
  let portByte : Nat := pi.l3Data + pi.ipHeaderSize + portOffset
  let ipAddrByte : Nat := pi.l3Data + ipAddrOffset
  let ipCsumByte : Nat := pi.l3Data + ipCsumOffset
  let l4Data : Nat := pi.l3Data + pi.ipHeaderSize
  let udpCsumByte : Nat := l4Data + udpCsumOffset
  let ipCsum : Nat :=
    0xffff &&& not32 (((mem ipCsumByte).val <<< 8) ||| ((mem (ipCsumByte + 1)).val <<< 0))
  let udpCsum : Nat :=
    0xffff &&& not32 (((mem udpCsumByte).val <<< 8) ||| ((mem (udpCsumByte + 1)).val <<< 0))
  let useUdpCsum : Bool := decide (udpCsum ≠ 0xffff)
  let ipHi2Bytes : Nat := ((mem ipAddrByte).val <<< 8) ||| ((mem (ipAddrByte + 1)).val <<< 0)
  let ipLo2Bytes : Nat :=
    ((mem (ipAddrByte + 2)).val <<< 8) ||| ((mem (ipAddrByte + 3)).val <<< 0)
  let udpCsum := add32 udpCsum (0xffff &&& not32 (toUnsigned poa))
  let udpCsum := add32 udpCsum (toUnsigned rt.dst.port)
  let udpCsum := add32 udpCsum (0xffff &&& not32 ipHi2Bytes)
  let udpCsum := add32 udpCsum (0xffff &&& not32 ipLo2Bytes)
  let ipCsum := add32 ipCsum (0xffff &&& not32 ipHi2Bytes)
  let ipCsum := add32 ipCsum (0xffff &&& not32 ipLo2Bytes)
  let ipHi2Bytes : Nat := ((rt.dst.ip 0).val <<< 8) ||| ((rt.dst.ip 1).val <<< 0)
  let ipLo2Bytes : Nat := ((rt.dst.ip 2).val <<< 8) ||| ((rt.dst.ip 3).val <<< 0)
  let udpCsum := add32 udpCsum ipHi2Bytes
  let udpCsum := add32 udpCsum ipLo2Bytes
  let ipCsum := add32 ipCsum ipHi2Bytes
  let ipCsum := add32 ipCsum ipLo2Bytes
  let udpCsum := 0xffff &&& not32 (add32 (udpCsum &&& 0xffff) (udpCsum >>> 16))
  let ipCsum := 0xffff &&& not32 (add32 (ipCsum &&& 0xffff) (ipCsum >>> 16))
  let mem := store mem portByte (toUChar (toUnsigned (rt.dst.port >>> (8 : Nat)) &&& 0xff))
  let mem := store mem (portByte + 1) (toUChar (toUnsigned (rt.dst.port >>> (0 : Nat)) &&& 0xff))
  let mem := memcpy mem (pi.l3Data + ipAddrOffset) rt.dst.ip
  let mem := memcpy mem (pi.l2Data + macOffset) rt.dst.mac
  let mem :=
    if useUdpCsum then
      let mem := store mem udpCsumByte (toUChar ((0xff00 &&& udpCsum) >>> 8))
      store mem (udpCsumByte + 1) (toUChar ((0x00ff &&& udpCsum) >>> 0))
    else mem
  let mem := store mem ipCsumByte (toUChar ((0xff00 &&& ipCsum) >>> 8))
  store mem (ipCsumByte + 1) (toUChar ((0x00ff &&& ipCsum) >>> 0))

/-- The accumulator `udpCsum` of `updateUdpPacket` when the final fold is
reached: the complemented incoming UDP checksum plus the seven deltas. -/
def udpAccumulator (mem : Memory) (pi : PacketInfo) (rt : Route) (poa : Int) : Nat :=
  let ipAddrByte : Nat := pi.l3Data + 16
  let udpCsumByte : Nat := pi.l3Data + pi.ipHeaderSize + 6
  let udpCsum : Nat :=
    0xffff &&& not32 (((mem udpCsumByte).val <<< 8) ||| ((mem (udpCsumByte + 1)).val <<< 0))
  let ipHi2Bytes : Nat := ((mem ipAddrByte).val <<< 8) ||| ((mem (ipAddrByte + 1)).val <<< 0)
  let ipLo2Bytes : Nat :=
    ((mem (ipAddrByte + 2)).val <<< 8) ||| ((mem (ipAddrByte + 3)).val <<< 0)
  let udpCsum := add32 udpCsum (0xffff &&& not32 (toUnsigned poa))
  let udpCsum := add32 udpCsum (toUnsigned rt.dst.port)
  let udpCsum := add32 udpCsum (0xffff &&& not32 ipHi2Bytes)
  let udpCsum := add32 udpCsum (0xffff &&& not32 ipLo2Bytes)
  let ipHi2Bytes : Nat := ((rt.dst.ip 0).val <<< 8) ||| ((rt.dst.ip 1).val <<< 0)
  let ipLo2Bytes : Nat := ((rt.dst.ip 2).val <<< 8) ||| ((rt.dst.ip 3).val <<< 0)
  let udpCsum := add32 udpCsum ipHi2Bytes
  add32 udpCsum ipLo2Bytes

/-- The accumulator `ipCsum` of `updateUdpPacket` when the final fold is
reached: the complemented incoming IP checksum plus the four deltas. -/
def ipAccumulator (mem : Memory) (pi : PacketInfo) (rt : Route) : Nat :=
  let ipAddrByte : Nat := pi.l3Data + 16
  let ipCsumByte : Nat := pi.l3Data + 10
  let ipCsum : Nat :=
    0xffff &&& not32 (((mem ipCsumByte).val <<< 8) ||| ((mem (ipCsumByte + 1)).val <<< 0))
  let ipHi2Bytes : Nat := ((mem ipAddrByte).val <<< 8) ||| ((mem (ipAddrByte + 1)).val <<< 0)
  let ipLo2Bytes : Nat :=
    ((mem (ipAddrByte + 2)).val <<< 8) ||| ((mem (ipAddrByte + 3)).val <<< 0)
  let ipCsum := add32 ipCsum (0xffff &&& not32 ipHi2Bytes)
  let ipCsum := add32 ipCsum (0xffff &&& not32 ipLo2Bytes)
  let ipHi2Bytes : Nat := ((rt.dst.ip 0).val <<< 8) ||| ((rt.dst.ip 1).val <<< 0)
  let ipLo2Bytes : Nat := ((rt.dst.ip 2).val <<< 8) ||| ((rt.dst.ip 3).val <<< 0)
  let ipCsum := add32 ipCsum ipHi2Bytes
  add32 ipCsum ipLo2Bytes

/-- The last step of both checksum computations of `updateUdpPacket`: one fold
of the accumulator, complement, mask to 16 bits. -/
def foldOnceNot (acc : Nat) : Nat :=
  0xffff &&& not32 (add32 (acc &&& 0xffff) (acc >>> 16))

/-! ## The route table of `route.c` -/

/-- The loop of `routeInitialize` from round `n` on. -/
def routeInitializeLoop (n : Nat) (route : RouteTable) : RouteTable :=
  if n < routeLimit then
    let rtN : Route := { index := n, poa := PORTOFFSET + n }
    routeInitializeLoop (n + 1) (route.set n rtN)
  else route
termination_by routeLimit - n

/-- The function `routeInitialize`. -/
def routeInitialize (route : RouteTable) : RouteTable :=
  routeInitializeLoop 0 route

/-- The function `routeOpen`; `none` is the failed `assert`.  The subtraction
is the one of `int`, taken without overflow. -/
def routeOpen (route : RouteTable) (r : Route) : Option RouteTable :=
  let index : Int := r.poa - PORTOFFSET
  if index ≥ 0 ∧ index < routeLimit then
    let route := route.set index.toNat { route.get index.toNat with dst := r.dst }
    some (route.set index.toNat { route.get index.toNat with «open» := 1 })
  else none

/-- The function `routeClose`; `none` is the failed `assert`. -/
def routeClose (route : RouteTable) (r : Route) : Option RouteTable :=
  let index : Int := r.poa - PORTOFFSET
  let ok : Bool := decide (index ≥ 0 ∧ index < routeLimit)
  if ¬ ok then none
  else if r.poa = (route.get index.toNat).poa then
    some (route.set index.toNat { route.get index.toNat with «open» := 0 })
  else some route

/-- The function `routeFromPortOfArrival`. -/
def routeFromPortOfArrival (route : RouteTable) (poa : Int) : Route :=
  let index : Int := poa - PORTOFFSET
  let ok : Bool := decide (index ≥ 0 ∧ index < routeLimit)
  let badRoute : Route := { index := -1, poa := poa }
  if ok then
    if poa = (route.get index.toNat).poa then route.get index.toNat else badRoute
  else badRoute

/-- One call that changes the route table. -/
inductive RouteCall where
  | routeOpen (r : Route)
  | routeClose (r : Route)

/-- The route argument of a call. -/
def RouteCall.arg : RouteCall → Route
  | .routeOpen r => r
  | .routeClose r => r

/-- Run one call on the table. -/
def RouteCall.run (route : RouteTable) : RouteCall → Option RouteTable
  | .routeOpen r => UdpSwitch.routeOpen route r
  | .routeClose r => UdpSwitch.routeClose route r

/-- Run a sequence of calls, stopping at the first failed `assert`. -/
def runCalls : RouteTable → List RouteCall → Option RouteTable
  | route, [] => some route
  | route, c :: cs =>
    match c.run route with
    | none => none
    | some route => runCalls route cs

/-- The table in static storage before `routeInitialize`: all zero. -/
def zeroTable : RouteTable := ⟨mkArray routeLimit {}, Array.size_mkArray _ _⟩

/-- The invariant of the route table: slot `i` has index `i` and port of
arrival `PORTOFFSET + i`. -/
def TableInv (t : RouteTable) : Prop :=
  ∀ i, i < routeLimit → (t.get i).index = (i : Int) ∧ (t.get i).poa = PORTOFFSET + (i : Int)

/-- The port of arrival `poa` belongs to a slot of the table. -/
def InRange (poa : Int) : Prop := 0 ≤ poa - PORTOFFSET ∧ poa - PORTOFFSET < 3840

instance (poa : Int) : Decidable (InRange poa) := inferInstanceAs (Decidable (_ ∧ _))

/-! ## Checksums as the specification states them -/

/-- The 16-bit big-endian value stored at offset `a`. -/
def word16 (mem : Memory) (a : Nat) : Nat := (mem a).val * 256 + (mem (a + 1)).val

/-- End-around carry: add the carries above bit 15 back in until the value
fits 16 bits (two rounds are enough below `2 ^ 32`). -/
def foldCarries (x : Nat) : Nat :=
  let y := x % 65536 + x / 65536
  y % 65536 + y / 65536

/-- Bitwise NOT over 16 bits. -/
def not16 (x : Nat) : Nat := 65535 - x % 65536

/-- One's-complement addition over 16 bits: the sum with end-around carry. -/
def onesAdd (a b : Nat) : Nat := foldCarries (a + b)

/-- The sum of the 16-bit words of the IPv4 header of `ihl` 32-bit words at
offset `l3`, the checksum field (word 5) counted as zero. -/
def ipHeaderSum (mem : Memory) (l3 ihl : Nat) : Nat :=
  ((List.range (2 * ihl)).map (fun k => if k = 5 then 0 else word16 mem (l3 + 2 * k))).sum

/-- The RFC 1071 checksum of the IPv4 header, computed from scratch: the
one's complement of the one's-complement sum of its words. -/
def ipChecksumFromScratch (mem : Memory) (l3 ihl : Nat) : Nat :=
  not16 (foldCarries (ipHeaderSum mem l3 ihl))

/-- The checksum field of the IPv4 header at `l3` is valid. -/
def ipChecksumValid (mem : Memory) (l3 ihl : Nat) : Prop :=
  word16 mem (l3 + 10) = ipChecksumFromScratch mem l3 ihl

instance (mem : Memory) (l3 ihl : Nat) : Decidable (ipChecksumValid mem l3 ihl) :=
  inferInstanceAs (Decidable (_ = _))

/-- The rule of the specification for the outgoing UDP checksum:
`~(~udpC + ~P_old + P_new + ~hi(D_old) + ~lo(D_old) + hi(D_new) + lo(D_new))`
with one's-complement addition. -/
def udpChecksumRule (udpC pOld pNew hiOld loOld hiNew loNew : Nat) : Nat :=
  not16 (onesAdd (onesAdd (onesAdd (onesAdd (onesAdd (onesAdd
    (not16 udpC) (not16 pOld)) pNew) (not16 hiOld)) (not16 loOld)) hiNew) loNew)

/-- The value `s` is a one's-complement representative of the plain sum `S`: they differ
by a multiple of 65535, `s` fits 16 bits, and `s` is zero only if `S` is. -/
def Folds (s S : Nat) : Prop := ∃ k, S = s + 65535 * k ∧ s ≤ 65535 ∧ (s = 0 → S = 0)

/-- The sum of the words of the IPv4 header other than the checksum (word 5)
and the destination address (words 8 and 9). -/
def ipHeaderRest (mem : Memory) (l3 ihl : Nat) : Nat :=
  ((List.range (2 * ihl)).map
    (fun k => if k = 5 ∨ k = 8 ∨ k = 9 then 0 else word16 mem (l3 + 2 * k))).sum

/-! ## Concrete packets and routes -/

/-- A packet memory holding the given bytes, zero beyond them. -/
def memOfList (l : List Nat) : Memory := fun a => toUChar (l.getD a 0)

/-- A switch whose forwarding interface is 172.18.11.200 at 02:00:00:00:00:aa. -/
def exampleProcess : Process :=
  { forward := { ip := ![172, 18, 11, 200], mac := ![0x02, 0, 0, 0, 0, 0xaa] } }

/-- An Ethernet header addressed to the switch of `exampleProcess`. -/
def ethHeader : List Nat := [0x02, 0, 0, 0, 0, 0xaa, 0x02, 0, 0, 0, 0, 0xbb, 0x08, 0x00]

/-- A received frame: `ethHeader` followed by the L3 bytes `l3`. -/
def pktOfL3 (l3 : List Nat) : NetioPkt :=
  { status := 0, mem := memOfList (ethHeader ++ l3),
    l3Offset := 14, l2Length := 14 + l3.length, l3Length := l3.length }

/-- A well-formed UDP packet from 140.124.25.172:4660 to 172.18.11.200:50000
with 16 zero bytes of payload; IP checksum 0x589c and UDP checksum 0xcc36 are
both valid. -/
def goodPkt : NetioPkt :=
  pktOfL3 ([0x45, 0x00, 0x00, 0x2c, 0x44, 0x22, 0x40, 0x00, 0x80, 0x11, 0x58, 0x9c,
    0x8c, 0x7c, 0x19, 0xac, 0xac, 0x12, 0x0b, 0xc8,
    0x12, 0x34, 0xc3, 0x50, 0x00, 0x18, 0xcc, 0x36] ++ List.replicate 16 0)

/-- The packet `goodPkt` sent without a UDP checksum: the checksum field is
0x0000 (scenario S3 of the specification). -/
def zeroCsumPkt : NetioPkt :=
  pktOfL3 ([0x45, 0x00, 0x00, 0x2c, 0x44, 0x22, 0x40, 0x00, 0x80, 0x11, 0x58, 0x9c,
    0x8c, 0x7c, 0x19, 0xac, 0xac, 0x12, 0x0b, 0xc8,
    0x12, 0x34, 0xc3, 0x50, 0x00, 0x18, 0x00, 0x00] ++ List.replicate 16 0)

/-- A frame whose IPv4 header length field is 4: the UDP header then starts at
L3 offset 16, its destination port 50000 lies at L3 offsets 18 and 19. -/
def ihl4Pkt : NetioPkt :=
  pktOfL3 ([0x44, 0x00, 0x00, 0x2c, 0x44, 0x22, 0x40, 0x00, 0x80, 0x11, 0x00, 0x00,
    0x8c, 0x7c, 0x19, 0xac, 0xac, 0x12, 0xc3, 0x50] ++ List.replicate 24 0)

/-- A frame whose IPv4 header length field is 3: the UDP header then starts at
L3 offset 12, its destination port 50000 lies at L3 offsets 14 and 15 and its
checksum field, which is zero, at L3 offsets 18 and 19. -/
def ihl3Pkt : NetioPkt :=
  pktOfL3 ([0x43, 0x00, 0x00, 0x2c, 0x44, 0x22, 0x40, 0x00, 0x80, 0x11, 0x00, 0x00,
    0x8c, 0x7c, 0xc3, 0x50, 0xac, 0x12, 0x00, 0x00] ++ List.replicate 24 0)

/-- A frame whose IPv4 header length field is 1: the UDP header then starts at
L3 offset 4, its destination port 50000 lies at L3 offsets 6 and 7 and its
checksum field, which is zero, at L3 offsets 10 and 11. -/
def ihl1Pkt : NetioPkt :=
  pktOfL3 ([0x41, 0x00, 0x00, 0x2c, 0x44, 0x22, 0xc3, 0x50, 0x80, 0x11, 0x00, 0x00,
    0x8c, 0x7c, 0x19, 0xac, 0xac, 0x12, 0x0b, 0xc8] ++ List.replicate 24 0)

/-- An open route from port 50000 to `ip`:`port` at 02:00:00:00:00:01. -/
def routeTo (port : Int) (ip : Fin 4 → UChar) : Route :=
  { index := 0, poa := 50000, dst := { port := port, ip := ip, mac := ![2, 0, 0, 0, 0, 1] },
    «open» := 1 }

/-- The IPv4 header of scenario S2 of the specification behind an Ethernet
header: 4500 0030 4422 4000 8006 442E 8C7C 19AC AE24 1E2B. -/
def s2Pkt : NetioPkt :=
  pktOfL3 ([0x45, 0x00, 0x00, 0x30, 0x44, 0x22, 0x40, 0x00, 0x80, 0x06, 0x44, 0x2e,
    0x8c, 0x7c, 0x19, 0xac, 0xae, 0x24, 0x1e, 0x2b] ++ List.replicate 28 0)

/-- The description of `s2Pkt` that `updateUdpPacket` is given: a 20-byte IPv4
header behind a 14-byte Ethernet header. -/
def s2Info : PacketInfo :=
  { isUdpForMe := true, poa := 0, status := 0, l2Data := 0, l3Data := 14,
    l2Length := 62, l3Length := 48, ipHeaderSize := 20, allHeadersSize := 42 }

/-- The IPv4 header length field of a packet, in 32-bit words: the low 4 bits
of the first L3 byte. -/
def ihl (pkt : NetioPkt) : Nat := (pkt.mem pkt.l3Offset).val % 16

/-- The packet memory after the forward path has rewritten `pkt` for `rt`:
`parsePacket`, then `updateUdpPacket` with the parsed port of arrival. -/
def rewritten (p : Process) (pkt : NetioPkt) (rt : Route) : Memory :=
  updateUdpPacket pkt.mem (parsePacket p pkt) rt (parsePacket p pkt).poa

/-! ## C strings, `snprintf` and `sscanf` -/

/-- One directive of a format string: an ordinary character, `%d` or `%x`. -/
inductive Directive where
  | lit (c : UChar)
  | dec
  | hex
deriving DecidableEq, Repr

/-- The directives of a format string that uses only `%d` and `%x`. -/
def parseFormat : List UChar → List Directive
  | [] => []
  | [c] => [.lit c]
  | c :: d :: cs =>
    if c.val = 37 ∧ d.val = 100 then .dec :: parseFormat cs
    else if c.val = 37 ∧ d.val = 120 then .hex :: parseFormat cs
    else .lit c :: parseFormat (d :: cs)

/-- The bytes of a string literal. -/
def cstr (s : String) : List UChar := s.toList.map (fun c => toUChar c.toNat)

/-- The macro `IPFMT` of `util.h`. -/
def IPFMT : String := "%d.%d.%d.%d"

/-- The macro `MACSCANFMT` of `util.h`. -/
def MACSCANFMT : String := "%x:%x:%x:%x:%x:%x"

/-- The macro `JSONROUTEFMT` of `util.h`. -/
def JSONROUTEFMT : String :=
  "    \x7b \"from\" : %d ,                 \n" ++
  "      \"port\" : %d ,                 \n" ++
  "      \"ip\"   : \"" ++ IPFMT ++ "\" ,      \n" ++
  "      \"mac\"  : \"" ++ MACSCANFMT ++ "\" \x7d \n"

/-- The C predicate `isspace`: space, and the controls from tab to carriage return. -/
def isSpace (c : UChar) : Bool := decide (c.val = 32 ∨ (9 ≤ c.val ∧ c.val ≤ 13))

/-- The value of a digit in the given base, if `c` is one: `0`-`9`, `a`-`f`, `A`-`F`. -/
def digitVal (base : Nat) (c : UChar) : Option Nat :=
  let v : Option Nat :=
    if 48 ≤ c.val ∧ c.val ≤ 57 then some (c.val - 48)
    else if 97 ≤ c.val ∧ c.val ≤ 102 then some (c.val - 87)
    else if 65 ≤ c.val ∧ c.val ≤ 70 then some (c.val - 55)
    else none
  match v with
  | some d => if d < base then some d else none
  | none => none

/-- The character of a digit below 16, lower case. -/
def digitChar (d : Nat) : UChar := if d < 10 then toUChar (48 + d) else toUChar (87 + d)

/-- Digits of `n` in the given base in front of `acc`, most significant first;
`fuel` bounds the number of digits. -/
def showDigits (base : Nat) : Nat → Nat → List UChar → List UChar
  | 0, _, acc => acc
  | fuel + 1, n, acc =>
    if n < base then digitChar n :: acc
    else showDigits base fuel (n / base) (digitChar (n % base) :: acc)

/-- The text of the natural number `n` in the given base. -/
def showNat (base n : Nat) : List UChar := showDigits base (n + 1) n []

/-- The text that `%d` prints for an `int`. -/
def showInt (x : Int) : List UChar :=
  if x < 0 then toUChar 45 :: showNat 10 (-x).toNat else showNat 10 x.toNat

/-- The text that a format prints for the given arguments. -/
def sprintf : List Directive → List Int → List UChar
  | [], _ => []
  | .lit c :: ds, args => c :: sprintf ds args
  | .dec :: ds, args => showInt (args.headD 0) ++ sprintf ds args.tail
  | .hex :: ds, args => showNat 16 (toUnsigned (args.headD 0)) ++ sprintf ds args.tail

/-- The longest run of digits at the head of the input, folded into a number
that starts from `acc`, and the input behind it. -/
def scanDigits (base : Nat) : List UChar → Nat → Nat × List UChar
  | [], acc => (acc, [])
  | c :: cs, acc =>
    match digitVal base c with
    | some d => scanDigits base cs (acc * base + d)
    | none => (acc, c :: cs)

/-- A number at the head of the input: at least one digit. -/
def scanNat (base : Nat) (inp : List UChar) : Option (Nat × List UChar) :=
  match inp with
  | [] => none
  | c :: _ => if (digitVal base c).isSome then some (scanDigits base inp 0) else none

/-- The conversion `%d`: an optional sign and decimal digits.  A value outside
the range of `int` is kept as it is; the C library stores its low 32 bits. -/
def scanDec (inp : List UChar) : Option (Int × List UChar) :=
  match inp with
  | [] => none
  | c :: cs =>
    if c.val = 45 then (scanNat 10 cs).map (fun r => (-(r.1 : Int), r.2))
    else if c.val = 43 then (scanNat 10 cs).map (fun r => ((r.1 : Int), r.2))
    else (scanNat 10 inp).map (fun r => ((r.1 : Int), r.2))

/-- Skip the prefix `0x` or `0X` of a hexadecimal number when a digit follows.
With no digit behind the prefix the `0` alone is the number here and the `x`
stays in the input; the C library takes the prefix and stores 0. -/
def skipHexPrefix (inp : List UChar) : List UChar :=
  match inp with
  | a :: b :: c :: cs =>
    if a.val = 48 ∧ (b.val = 120 ∨ b.val = 88) ∧ (digitVal 16 c).isSome then c :: cs else inp
  | _ => inp

/-- The conversion `%x`: an optional sign, an optional prefix and hexadecimal
digits; the value is stored in an `unsigned int`. -/
def scanHex (inp : List UChar) : Option (Int × List UChar) :=
  match inp with
  | [] => none
  | c :: cs =>
    if c.val = 45 then
      (scanNat 16 (skipHexPrefix cs)).map (fun r => ((toUnsigned (-(r.1 : Int)) : Nat), r.2))
    else if c.val = 43 then
      (scanNat 16 (skipHexPrefix cs)).map (fun r => ((toUnsigned (r.1 : Int) : Nat), r.2))
    else (scanNat 16 (skipHexPrefix inp)).map (fun r => ((toUnsigned (r.1 : Int) : Nat), r.2))

/-- What `sscanf` returns and stores: the count of conversions, or `-1` (`EOF`)
when the input ends before the first conversion, and the converted values in
the order of the arguments. -/
structure Scanned where
  count : Int
  vals : List Int
deriving DecidableEq, Repr

/-- The result when scanning stops: at the end of the input before any
conversion the count is `EOF`. -/
def scanStop (vals : List Int) (inp : List UChar) : Scanned :=
  if vals = [] ∧ inp = [] then { count := -1, vals := vals }
  else { count := vals.length, vals := vals }

/-- The function `sscanf` for a format of ordinary characters, `%d` and `%x`;
`vals` holds the values converted so far. -/
def sscanfLoop : List Directive → List UChar → List Int → Scanned
  | [], _, vals => { count := vals.length, vals := vals }
  | .lit c :: ds, inp, vals =>
    if isSpace c then sscanfLoop ds (inp.dropWhile isSpace) vals
    else
      match inp with
      | [] => scanStop vals inp
      | x :: xs => if x = c then sscanfLoop ds xs vals else scanStop vals inp
  | .dec :: ds, inp, vals =>
    match scanDec (inp.dropWhile isSpace) with
    | some (v, rest) => sscanfLoop ds rest (vals ++ [v])
    | none => scanStop vals (inp.dropWhile isSpace)
  | .hex :: ds, inp, vals =>
    match scanHex (inp.dropWhile isSpace) with
    | some (v, rest) => sscanfLoop ds rest (vals ++ [v])
    | none => scanStop vals (inp.dropWhile isSpace)

/-- The call `sscanf(s, format, ...)`. -/
def sscanf (s : List UChar) (format : String) : Scanned :=
  sscanfLoop (parseFormat (cstr format)) s []

/-! ## The control channel: `route.c`, `util.c` and `control.c` -/

/-- The bytes of an `int` in memory, least significant first. -/
def encodeInt (x : Int) : List UChar :=
  let u := toUnsigned x
  [toUChar u, toUChar (u / 256), toUChar (u / 65536), toUChar (u / 16777216)]

/-- The `int` stored in four bytes of memory, least significant first. -/
def decodeInt (bs : List UChar) : Int :=
  let u : Nat := (bs.getD 0 0).val + 256 * (bs.getD 1 0).val + 65536 * (bs.getD 2 0).val
    + 16777216 * (bs.getD 3 0).val
  if u < 2147483648 then (u : Int) else (u : Int) - 4294967296

/-- The arguments that `routeToString` passes to `snprintf`. -/
def routeArgs (r : Route) : List Int :=
  [r.poa, r.dst.port,
   ((r.dst.ip 0).val : Int), ((r.dst.ip 1).val : Int), ((r.dst.ip 2).val : Int),
   ((r.dst.ip 3).val : Int),
   ((r.dst.mac 0).val : Int), ((r.dst.mac 1).val : Int), ((r.dst.mac 2).val : Int),
   ((r.dst.mac 3).val : Int), ((r.dst.mac 4).val : Int), ((r.dst.mac 5).val : Int)]

/-- The function `routeToString`: the returned count and the bytes of `buffer`
up to and including the terminating NUL.  The call `snprintf` stores at most
`size - 1` characters of the text and returns the length of the whole text. -/
def routeToString (r : Route) (size : Nat) : Int × List UChar :=
  let text := sprintf (parseFormat (cstr JSONROUTEFMT)) (routeArgs r)
  let count : Int := text.length
  let buffer := text.take (size - 1) ++ [0]
  let ok : Bool := decide (count > 0 ∧ count < size)
  if ok then (count + 1, buffer) else (-1, buffer)

/-- The function `routeFromString` on the characters of the C string `s`;
`none` is the failed `assert`.  The call `sscanf` stores the values it converts
through the pointers in the order of the arguments. -/
def routeFromString (s : List UChar) : Option Route :=
  let dst : Endpoint := { port := -1 }
  let result : Route := { index := -1, poa := -1, dst := dst }
  let sc := sscanf s JSONROUTEFMT
  let result : Route :=
    { result with
      poa := sc.vals.getD 0 result.poa
      dst := { result.dst with port := sc.vals.getD 1 result.dst.port } }
  if sc.count = 12 then
    some { result with
      dst := { result.dst with
        ip := fun n => toUChar (toUnsigned (sc.vals.getD (2 + n.val) 0))
        mac := fun n => toUChar (toUnsigned (sc.vals.getD (6 + n.val) 0)) } }
  else if sc.count = 1 then
    if result.poa ≥ PORTOFFSET ∧ result.poa < routeLimit then
      some { result with dst := { result.dst with port := -1 } }
    else none
  else some result

/-- The function `routeSendControl`: the `write` calls it makes on `fd`, each
with the bytes it hands over, when the first `write` takes its four bytes. -/
def routeSendControl (r : Route) : List (List UChar) :=
  let (size, buffer) := routeToString r 999
  if size > 0 then [encodeInt size, buffer.take size.toNat] else []

/-- The function `stopSwitch`: the `write` calls it makes on `fd`. -/
def stopSwitch : List (List UChar) := [encodeInt 0, []]

/-- What one `read` call finds on a descriptor: some bytes, or an error. -/
inductive ReadEvent where
  | data (bytes : List UChar)
  | error
deriving DecidableEq, Repr

/-- A descriptor open for reading: what the coming `read` calls find, in
order; at the end of the list is the end of the stream. -/
abbrev ReadFd := List ReadEvent

/-- The system call `read(fd, p, size)`: the count it returns, the bytes it
stores and the descriptor afterwards. -/
def read (fd : ReadFd) (size : Nat) : Int × List UChar × ReadFd :=
  match fd with
  | [] => (0, [], [])
  | .error :: rest => (-1, [], rest)
  | .data bs :: rest =>
    if bs.length ≤ size then ((bs.length : Int), bs, rest)
    else ((size : Int), bs.take size, .data (bs.drop size) :: rest)

/-- The loop of `readControlStuff`; each round stores at least one byte, so
`size` rounds are enough and `rounds` starts as `size`. -/
def readControlStuffLoop :
    Nat → ReadFd → Nat → List UChar → Int → Int × List UChar × ReadFd
  | 0, fd, _, buffer, result => (result, buffer, fd)
  | rounds + 1, fd, size, buffer, result =>
    if size > 0 then
      match read fd size with
      | (rSize, bytes, fd) =>
        if rSize < 0 then (-1, buffer, fd)
        else if rSize = 0 then (-1, buffer, fd)
        else readControlStuffLoop rounds fd (size - rSize.toNat) (buffer ++ bytes) result
    else (result, buffer, fd)

/-- The function `readControlStuff`: the result, the bytes stored in `buffer`
and the descriptor afterwards. -/
def readControlStuff (fd : ReadFd) (size : Nat) : Int × List UChar × ReadFd :=
  readControlStuffLoop size fd size [] size

/-- The characters of the C string at the start of a buffer: the bytes in
front of the first NUL.  The bytes of `buffer` behind those that were read are
taken to be NUL; in `handleOneRoute` the array `buffer[999]` is not cleared, so
for a body without a NUL the C code goes on into bytes that an earlier frame
or nothing at all has stored. -/
def cString (buffer : List UChar) : List UChar := buffer.takeWhile (fun c => c.val ≠ 0)

/-- The function `handleOneRoute`: the returned value, the process state, the
route table and the descriptor afterwards; `none` is a failed `assert`. -/
def handleOneRoute (p : Process) (route : RouteTable) (fd : ReadFd) :
    Option (Int × Process × RouteTable × ReadFd) :=
  match readControlStuff fd 4 with
  | (sizeSize, sizeBytes, fd) =>
    if sizeSize = 4 then
      let size : Int := decodeInt sizeBytes
      if size = 0 then some (1, p, route, fd)
      else if size < 0 ∨ size > 999 then some (1, p, route, fd)
      else
        match read fd size.toNat with
        | (rtSize, buffer, fd) =>
          if rtSize = size then
            match routeFromString (cString buffer) with
            | none => none
            | some rt =>
              match (if rt.dst.port > 0 then routeOpen route rt else routeClose route rt) with
              | none => none
              | some route => some (0, { p with routeCount := p.routeCount + 1 }, route, fd)
          else some (1, p, route, fd)
    else some (1, p, route, fd)

/-- How a call ends: it returns, an `assert` fails, or it does not return
within the rounds that the model was given. -/
inductive Outcome (α : Type) where
  | returned (a : α)
  | assertFailed
  | noReturn

/-- The loop `while (!done) done = handleOneRoute(t, acceptFd)` of
`controlRoutes`, for at most `rounds` rounds. -/
def controlLoop : Nat → Process → RouteTable → ReadFd →
    Outcome (Process × RouteTable × ReadFd)
  | 0, _, _, _ => .noReturn
  | rounds + 1, p, route, fd =>
    match handleOneRoute p route fd with
    | none => .assertFailed
    | some (done, p, route, fd) =>
      if done ≠ 0 then .returned (p, route, fd) else controlLoop rounds p route fd

/-- The function `controlRoutes` once `accept` has returned the descriptor
`acceptFd` (`none` when `accept` failed): the returned `routeCount` and the
route table afterwards. -/
def controlRoutes (rounds : Nat) (p : Process) (route : RouteTable) (acceptFd : Option ReadFd) :
    Outcome (Int × RouteTable) :=
  match acceptFd with
  | none => .returned (p.routeCount, route)
  | some fd =>
    match controlLoop rounds p route fd with
    | .returned (p, route, _) => .returned (p.routeCount, route)
    | .assertFailed => .assertFailed
    | .noReturn => .noReturn

/-! ## The forwarding path of `forward.c` -/

/-- The value `NETIO_PKT_STATUS_OK` of the NETIO library: the first value of
the enumeration `netio_pkt_status_t`. -/
def NETIO_PKT_STATUS_OK : Nat := 0

/-- The values of the NETIO library's `netio_error_t` as far as the program
tells them apart. -/
inductive NetioError where
  | NETIO_NO_ERROR
  | NETIO_QUEUE_FULL
  | other (code : Int)
deriving DecidableEq, Repr

/-- The operator `++` on an `unsigned long long`. -/
def incr64 (x : Nat) : Nat := (x + 1) % 18446744073709551616

/-- The statement `++a[i]` on an array of `unsigned long long`. -/
def bump (a : Nat → Nat) (i : Nat) : Nat → Nat :=
  fun j => if j = i then incr64 (a j) else a j

/-- The counters of the C struct `Thread`.  The default values are those of
the zeroed `Process` that `processInitialize` sets up. -/
structure Thread where
  drop : Nat → Nat := fun _ => 0
  recv : Nat → Nat := fun _ => 0
  send : Nat → Nat := fun _ => 0
  status : Nat → Nat := fun _ => 0
  tap : Nat := 0

/-- The loop `while (err == NETIO_QUEUE_FULL) err = netio_send_packet(...)`
over the answers that the coming calls of `netio_send_packet` give: the value
of `err` behind the loop, or `none` when every answer is `NETIO_QUEUE_FULL`,
in which case the loop does not end. -/
def sendLoop : List NetioError → Option NetioError
  | [] => none
  | err :: answers => if err = .NETIO_QUEUE_FULL then sendLoop answers else some err

/-- The function `forwardPacketOnQueueOrDrop` for the packet described by `pi`
in the memory `mem`: the returned value, the counters and the packet memory
afterwards.  The table `route` is the one that `routeFromPortOfArrival` reads
and `answers` are the answers of `netio_send_packet`.  The routes that
`routeFromPortOfArrival` returns from a table with `TableInv` have an index
below `R30TOTALCHANNELS`, the size of the three counter arrays. -/
def forwardPacketOnQueueOrDrop (route : RouteTable) (answers : List NetioError) (t : Thread)
    (mem : Memory) (pi : PacketInfo) : Outcome (Int × Thread × Memory) :=
  let rt := routeFromPortOfArrival route pi.poa
  if rt.index < 0 then .assertFailed
  else
    let t := { t with recv := bump t.recv rt.index.toNat }
    if pi.status = NETIO_PKT_STATUS_OK then
      if rt.«open» ≠ 0 then
        let mem := updateUdpPacket mem pi rt pi.poa
        match sendLoop answers with
        | none => .noReturn
        | some err =>
          if err = .NETIO_NO_ERROR then
            .returned (0, { t with send := bump t.send rt.index.toNat }, mem)
          else .returned (1, { t with drop := bump t.drop rt.index.toNat }, mem)
      else .returned (1, { t with drop := bump t.drop rt.index.toNat }, mem)
    else .returned (1, { t with drop := bump t.drop rt.index.toNat }, mem)

/-- One call of `write`: the descriptor and the bytes handed over. -/
structure WriteCall where
  fd : Int
  bytes : List UChar
deriving DecidableEq

/-- The function `forwardPacketOnQueueOrTap`: the returned value, the counters
and the packet memory afterwards, and the call of `write` on the TAP
descriptor if there was one.  The value that `write` returns is only logged. -/
def forwardPacketOnQueueOrTap (p : Process) (route : RouteTable) (answers : List NetioError)
    (t : Thread) (pkt : NetioPkt) : Outcome (Int × Thread × Memory × Option WriteCall) :=
  let pi := parsePacket p pkt
  let t := { t with status := bump t.status pi.status }
  if pi.isUdpForMe then
    match forwardPacketOnQueueOrDrop route answers t pkt.mem pi with
    | .returned (result, t, mem) => .returned (result, t, mem, none)
    | .assertFailed => .assertFailed
    | .noReturn => .noReturn
  else
    let t := { t with tap := incr64 t.tap }
    let w : WriteCall :=
      { fd := p.tap, bytes := (List.range pi.l2Length).map (fun i => pkt.mem (pi.l2Data + i)) }
    .returned (1, t, pkt.mem, some w)

/-- One packet for `forwardPacketOnQueueOrDrop`, with the route table at the
time of the call and the answers that `netio_send_packet` gives during it. -/
structure ForwardEvent where
  route : RouteTable
  answers : List NetioError
  mem : Memory
  pi : PacketInfo

/-- A worker handling a sequence of packets with `forwardPacketOnQueueOrDrop`:
the counters afterwards. -/
def forwardAll : Thread → List ForwardEvent → Outcome Thread
  | t, [] => .returned t
  | t, e :: es =>
    match forwardPacketOnQueueOrDrop e.route e.answers t e.mem e.pi with
    | .returned (_, t, _) => forwardAll t es
    | .assertFailed => .assertFailed
    | .noReturn => .noReturn

/-! ## Notions used in the statements about the control channel -/

/-- The conversions of a format, in order. -/
def convs : List Directive → List Directive
  | [] => []
  | .lit _ :: ds => convs ds
  | d :: ds => d :: convs ds

/-- Every conversion of a format is followed by an ordinary character that
cannot continue the printed number. -/
def Delimited : List Directive → Bool
  | [] => true
  | .lit _ :: ds => Delimited ds
  | .dec :: ds =>
    (match ds with
      | .lit c :: _ => (digitVal 10 c).isNone
      | _ => false) && Delimited ds
  | .hex :: ds =>
    (match ds with
      | .lit c :: _ => (digitVal 16 c).isNone && decide (c.val ≠ 120) && decide (c.val ≠ 88)
      | _ => false) && Delimited ds

/-- The arguments fit the conversions: one argument for each conversion, and
an `unsigned int` for each `%x`. -/
def ArgsOk : List Directive → List Int → Prop
  | [], args => args = []
  | .hex :: ds, a :: args => 0 ≤ a ∧ a < 4294967296 ∧ ArgsOk ds args
  | _ :: ds, _ :: args => ArgsOk ds args
  | _ :: _, [] => False

/-- The text that `routeToString` prints for a route. -/
def routeText (r : Route) : List UChar :=
  sprintf (parseFormat (cstr JSONROUTEFMT)) (routeArgs r)

/-- The route that `routeFromString` returns for the text of `r`. -/
def command (r : Route) : Route := { index := -1, poa := r.poa, dst := r.dst }

/-- What is left of a descriptor whose first chunk still holds `more`. -/
def unread (more : List UChar) (rest : ReadFd) : ReadFd :=
  if more = [] then rest else .data more :: rest

/-- The first character of what follows a printed number ends the number. -/
def EndsNumber (base : Nat) (rest : List UChar) : Prop :=
  ∀ c cs, rest = c :: cs → digitVal base c = none

/-- The first character of what follows a printed hexadecimal number ends
the number and is no part of a prefix `0x`. -/
def EndsHex (rest : List UChar) : Prop :=
  ∀ c cs, rest = c :: cs → digitVal 16 c = none ∧ c.val ≠ 120 ∧ c.val ≠ 88

/-- The fields `poa` and `dst.port` of a route hold values of the type `int`. -/
def IntFields (r : Route) : Prop :=
  (-2147483648 ≤ r.poa ∧ r.poa < 2147483648) ∧
  (-2147483648 ≤ r.dst.port ∧ r.dst.port < 2147483648)

/-- The calls that `handleOneRoute` makes for the parsed route `rt`. -/
def applyCommand (route : RouteTable) (rt : Route) : Option RouteTable :=
  if rt.dst.port > 0 then routeOpen route rt else routeClose route rt

/-- The call on the route table that `handleOneRoute` makes for the command
that `routeSendControl` writes for `r`. -/
def controlCall (r : Route) : RouteCall :=
  if r.dst.port > 0 then .routeOpen (command r) else .routeClose (command r)

/-- The bytes that a driver writes on the control connection for the routes
`rs`: `routeSendControl` for each route, then `stopSwitch`. -/
def controlStream (rs : List Route) : List UChar :=
  (rs.map (fun r => (routeSendControl r).flatten)).flatten ++ stopSwitch.flatten

instance (r : Route) : Decidable (IntFields r) := inferInstanceAs (Decidable (_ ∧ _))

/-- A route command for port of arrival 50001: forward to 10.0.0.1:6000 at
02:00:00:00:00:01. -/
def openCommand : Route :=
  { index := 1, poa := 50001, «open» := 1,
    dst := { port := 6000, ip := ![10, 0, 0, 1], mac := ![2, 0, 0, 0, 0, 1] } }

/-- A route command for port of arrival 50001 with destination port 0. -/
def portZeroCommand : Route :=
  { index := 1, poa := 50001, «open» := 1,
    dst := { port := 0, ip := ![10, 0, 0, 1], mac := ![2, 0, 0, 0, 0, 1] } }

/-- A route command for port of arrival 50000 with destination port -1, as a
driver writes it to close the route. -/
def closeCommand : Route := { index := 0, poa := 50000, dst := { port := -1 } }

/-- The bytes that a driver writes on the control connection for the routes
`rs` with `routeSendControl`. -/
def commandFrames (rs : List Route) : List UChar :=
  (rs.map (fun r => (routeSendControl r).flatten)).flatten

/-- The body of a frame that holds only the first two fields of a route
command, with its terminating NUL. -/
def twoFieldBody : List UChar := cstr "\x7b\"from\":50001,\"port\":7\x7d" ++ [0]

/-! ## Notions used in the statements about the forwarding path -/

/-- An ARP request broadcast on the wire: Ethernet type 0x0806. -/
def arpPkt : NetioPkt :=
  { status := 0,
    mem := memOfList ([0xff, 0xff, 0xff, 0xff, 0xff, 0xff, 0x02, 0, 0, 0, 0, 0xbb, 0x08, 0x06,
      0x00, 0x01, 0x08, 0x00, 0x06, 0x04, 0x00, 0x01, 0x02, 0, 0, 0, 0, 0xbb, 172, 18, 11, 1,
      0, 0, 0, 0, 0, 0, 172, 18, 11, 200] ++ List.replicate 18 0),
    l3Offset := 14, l2Length := 60, l3Length := 46 }

/-- The counters of a worker balance: for every route index the packets
received are those sent plus those dropped, in `unsigned long long`. -/
def Balanced (t : Thread) : Prop :=
  ∀ i, t.recv i = (t.send i + t.drop i) % 18446744073709551616

/-- The table that `routeInitialize` leaves, with the route for port 50000
opened to 10.0.0.1:6000. -/
def openTable : RouteTable :=
  (routeInitialize zeroTable).set 0 (routeTo 6000 ![10, 0, 0, 1])

/-- A sequence of three packets for port 50000: the first finds its route
closed, the second finds it open and is sent after one full queue, the third
finds it open and the NIC refuses it. -/
def exampleEvents : List ForwardEvent :=
  [{ route := routeInitialize zeroTable, answers := [.NETIO_NO_ERROR], mem := goodPkt.mem,
     pi := parsePacket exampleProcess goodPkt },
   { route := openTable, answers := [.NETIO_QUEUE_FULL, .NETIO_NO_ERROR], mem := goodPkt.mem,
     pi := parsePacket exampleProcess goodPkt },
   { route := openTable, answers := [.other 1], mem := goodPkt.mem,
     pi := parsePacket exampleProcess goodPkt }]

/-! ## Process set-up: `process.c` and `initializeNetio` of `tilera.c` -/

/-- The macro `MAXCPUCOUNT` of `process.h`. -/
def MAXCPUCOUNT : Nat := 64

/-- The constant `NETIO_LOG2_NUM_BUCKETS` of the NETIO library, which the
comment above `initializeNetio` gives as 10. -/
def NETIO_LOG2_NUM_BUCKETS : Nat := 10

/-- The function `processInitialize` as far as it sets the fields of the
static `theProcess`; `none` is the failed `assert`.  The address `controlIp`
is what `getControlIp` stores and `cpus` is what `tmc_cpus_count` returns.
The `assert` compares the `int` with a `size_t`, so a negative count fails
it too. -/
def processInitialize (controlIp : Fin 4 → UChar) (cpus : Int) : Option Process :=
  let theProcess : Process := {}
  let theProcess := { theProcess with control := { theProcess.control with ip := controlIp } }
  let theProcess :=
    { theProcess with control := { theProcess.control with port := CONTROLPORT } }
  let theProcess := { theProcess with threadCount := cpus }
  if theProcess.threadCount ≥ 0 ∧ theProcess.threadCount < (MAXCPUCOUNT : Int) then
    let theProcess := { theProcess with netioThreadIndex := 2 }
    some { theProcess with netioThreadCount := theProcess.threadCount - 2 }
  else none

/-- The bucket map `b2q` that `initializeNetio` builds for the process `p`;
`none` is the division by zero in `n % p->netioThreadCount`, which the first
of the 512 rounds meets.  The operator `%` of C truncates towards zero.  The
entries are the values of the `int` expression; for the thread indexes below
`MAXCPUCOUNT` they fit every type that `netio_bucket_t` can be. -/
def initializeNetio (p : Process) : Option (List Int) :=
  let LOG2 : Nat := NETIO_LOG2_NUM_BUCKETS - 1
  let COUNT : Nat := 1 <<< LOG2
  if p.netioThreadCount = 0 then none
  else some ((List.range COUNT).map
    (fun (n : Nat) => p.netioThreadIndex + Int.tmod (n : Int) p.netioThreadCount))

/-! ## The bytes that `parsePacket` reads -/

/-- The offsets from the L3 pointer of the bytes that `parsePacket` reads
through `result.l3Data`, in the order of the source.  The operator `&&`
evaluates its right operand only when the left one holds; `memcmp` reads
bytes at the L2 pointer. -/
def parsePacketReads (p : Process) (pkt : NetioPkt) : List Nat :=
  let protocolByte : Nat := 9
  let protocolUdp : Nat := 0x11
  let ipVersionByte : Nat := 0
  let ipVersionMask : Nat := 0xf0
  let ipVersionShift : Nat := 4
  let ipV4Version : Nat := 4
  let ipHeaderSizeMask : Nat := 0x0f
  let ipHeaderSizeShift : Nat := 0
  let minIpHeaderLength : Nat := 20
  let udpHeaderLength : Nat := 8
  let portOffset : Nat := 2
  let minUdpLength : Nat := minIpHeaderLength + udpHeaderLength
  let l3Data : Nat := pkt.l3Offset
  let portByte : Nat := minIpHeaderLength + portOffset
  let reads : List Nat := [portByte, portByte + 1]
  if pkt.l3Length > minUdpLength then
    let reads := reads ++ [protocolByte]
    if (pkt.mem (l3Data + protocolByte)).val = protocolUdp then
      let reads := reads ++ [ipVersionByte]
      if ((ipVersionMask &&& (pkt.mem (l3Data + ipVersionByte)).val) >>> ipVersionShift)
          = ipV4Version then
        if memcmpEq pkt.mem 0 p.forward.mac then
          let ipHeaderSizeInWords : Nat :=
            (ipHeaderSizeMask &&& (pkt.mem (l3Data + ipVersionByte)).val) >>> ipHeaderSizeShift
          let ipHeaderSize : Nat := 4 * ipHeaderSizeInWords
          let portByte : Nat := ipHeaderSize + portOffset
          reads ++ [ipVersionByte, portByte, portByte + 1]
        else reads
      else reads
    else reads
  else reads

/-! ## The tester's packets: `packets.c` -/

def ETHERNETHEADERSIZE : Nat := 14
def MINIPHEADERSIZE : Nat := 20
def UDPHEADERSIZE : Nat := 8
def UDPPAYLOADOFFSET : Nat := UDPHEADERSIZE + MINIPHEADERSIZE + ETHERNETHEADERSIZE
def UDPPAYLOADSIZE : Nat := 1316
def PACKETSIZE : Nat := UDPPAYLOADOFFSET + UDPPAYLOADSIZE

/-- The function `fillBuffer`: the bytes of the `unsigned long long` value `n`
in memory, least significant first, repeated over `size` bytes. -/
def fillBuffer (mem : Memory) (buffer size : Nat) (n : Nat) : Memory :=
  (List.range size).foldl
    (fun mem i => store mem (buffer + i) (toUChar (n >>> (8 * (i % 8))))) mem

/-- The loop `while (seed >> 16) seed = (seed >> 16) + (0xffff & seed)`.  A
round makes a value of `2 ^ 16` or more smaller, so `rounds` rounds are enough
when `rounds` starts as the value. -/
def foldLoop : Nat → Nat → Nat
  | 0, seed => seed
  | rounds + 1, seed =>
    if seed >>> 16 ≠ 0 then foldLoop rounds ((seed >>> 16) + (0xffff &&& seed)) else seed

/-- The function `udpCsumIpPseudoHeaderSeed`.  In C the operator `&` binds
tighter than `|`. -/
def udpCsumIpPseudoHeaderSeed (dst src : Endpoint) : Nat :=
  let zeroProtocol : Nat := (0x00 <<< 8) ||| (0x11 <<< 0)
  let udpSize : Nat := UDPHEADERSIZE + UDPPAYLOADSIZE
  let seed : Nat :=
    add32 (add32 (add32 (add32 (add32 zeroProtocol udpSize)
      ((0xffff &&& ((src.ip 0).val <<< 8)) ||| ((src.ip 1).val <<< 0)))
      ((0xffff &&& ((src.ip 2).val <<< 8)) ||| ((src.ip 3).val <<< 0)))
      ((0xffff &&& ((dst.ip 0).val <<< 8)) ||| ((dst.ip 1).val <<< 0)))
      ((0xffff &&& ((dst.ip 2).val <<< 8)) ||| ((dst.ip 3).val <<< 0))
  let seed := foldLoop seed seed
  0xffff &&& seed

/-- The function `buildPacket` on a buffer of `l2Length` bytes: the packet
memory after the writes, in the order of the source.  The two checksum fields
hold the zero seeds; `NETIO_PKT_DO_EGRESS_CSUM` asks the NIC to fill them in
on the wire and writes no byte of the buffer. -/
def buildPacket (mem : Memory) (l2Length : Nat) (n : Nat) (dst src : Endpoint) : Memory :=
  let etherType : Fin 2 → UChar := ![0x08, 0x00]
  let ipVersion : Nat := 0x4
  let ipIhl : Nat := 0x5
  let ipDscpEcn : Nat := 0
  let ipIdent : Fin 2 → UChar := ![0x00, 0x00]
  let ipFlagFrag : Nat := 0x40
  let ipFragOffset : Nat := 0x00
  let ipTimeToLive : Nat := 0x3f
  let ipProtocolUdp : Nat := 0x11
  let ipVersionIhl : Nat := (ipVersion <<< 4) ||| (ipIhl <<< 0)
  let pBegin : Nat := 0
  let pEnd : Nat := pBegin + l2Length
  let p : Nat := pBegin
  let mem := memcpy mem p dst.mac
  let p := p + 6
  let mem := memcpy mem p src.mac
  let p := p + 6
  let mem := memcpy mem p etherType
  let p := p + 2
  let ipHeaderBegin : Nat := p
  let ipTotalSize : Nat := pEnd - ipHeaderBegin
  let mem := store mem p (toUChar ipVersionIhl)
  let p := p + 1
  let mem := store mem p (toUChar ipDscpEcn)
  let p := p + 1
  let mem := store mem p (toUChar (0xff &&& (ipTotalSize >>> 8)))
  let p := p + 1
  let mem := store mem p (toUChar (0xff &&& (ipTotalSize >>> 0)))
  let p := p + 1
  let mem := memcpy mem p ipIdent
  let p := p + 2
  let mem := store mem p (toUChar ipFlagFrag)
  let p := p + 1
  let mem := store mem p (toUChar ipFragOffset)
  let p := p + 1
  let mem := store mem p (toUChar ipTimeToLive)
  let p := p + 1
  let mem := store mem p (toUChar ipProtocolUdp)
  let p := p + 1
  let ipHeaderCsumSeed : Nat := 0
  let mem := store mem p (toUChar (0xff &&& (ipHeaderCsumSeed >>> 8)))
  let p := p + 1
  let mem := store mem p (toUChar (0xff &&& (ipHeaderCsumSeed >>> 0)))
  let p := p + 1
  let mem := memcpy mem p src.ip
  let p := p + 4
  let mem := memcpy mem p dst.ip
  let p := p + 4
  let udpSize : Nat := pEnd - p
  let mem := store mem p (toUChar (0xff &&& toUnsigned (src.port >>> (8 : Nat))))
  let p := p + 1
  let mem := store mem p (toUChar (0xff &&& toUnsigned (src.port >>> (0 : Nat))))
  let p := p + 1
  let mem := store mem p (toUChar (0xff &&& toUnsigned (dst.port >>> (8 : Nat))))
  let p := p + 1
  let mem := store mem p (toUChar (0xff &&& toUnsigned (dst.port >>> (0 : Nat))))
  let p := p + 1
  let mem := store mem p (toUChar (0xff &&& (udpSize >>> 8)))
  let p := p + 1
  let mem := store mem p (toUChar (0xff &&& (udpSize >>> 0)))
  let p := p + 1
  let udpCsumSeed : Nat := 0
  let mem := store mem p (toUChar (0xff &&& (udpCsumSeed >>> 8)))
  let p := p + 1
  let mem := store mem p (toUChar (0xff &&& (udpCsumSeed >>> 0)))
  let p := p + 1
  fillBuffer mem p (pEnd - p) n

/-- The function `packetSendOne`: the counters afterwards and the packet that
went to the NIC, if the NIC took it.  The buffer that `netio_get_buffer` hands
out holds `buf`; `packetCount` is the static array of `packets.c`. -/
def packetSendOne (p : Process) (answers : List NetioError) (buf : Memory)
    (packetCount : Nat → Nat) (t : Thread) (rt : Route) : Outcome (Thread × Option Memory) :=
  let dst : Endpoint := p.control
  let src : Endpoint := p.forward
  let src := { src with port := rt.poa }
  let dst := { dst with port := src.port }
  let mem := buildPacket buf PACKETSIZE (packetCount rt.index.toNat) dst src
  match sendLoop answers with
  | none => .noReturn
  | some err =>
    if err = .NETIO_NO_ERROR then
      .returned ({ t with send := bump t.send rt.index.toNat }, some mem)
    else .returned (t, none)

/-- The loop `for (int i = sizeof n; i-- > 0;) n = (n << 8) | pN[i]` of
`packetReceiveAndSend` on an `unsigned long long`. -/
def packetNumber (mem : Memory) (pN : Nat) : Nat :=
  [7, 6, 5, 4, 3, 2, 1, 0].foldl
    (fun n i => ((n <<< 8) % 18446744073709551616) ||| (mem (pN + i)).val) 0

/-- The function `packetReceiveAndSend` when `netio_get_packet` has handed
over the packet `pkt`: the counters and the array `packetCount` afterwards,
the packet sent in answer if there is one, and the call of `write` on the TAP
descriptor if there is one. -/
def packetReceiveAndSend (p : Process) (route : RouteTable) (answers : List NetioError)
    (buf : Memory) (packetCount : Nat → Nat) (t : Thread) (pkt : NetioPkt) :
    Outcome (Thread × (Nat → Nat) × Option Memory × Option WriteCall) :=
  let pi := parsePacket p pkt
  let t := { t with status := bump t.status pi.status }
  if pi.isUdpForMe then
    let rt := routeFromPortOfArrival route pi.poa
    if rt.index < 0 then .assertFailed
    else
      let t := { t with recv := bump t.recv rt.index.toNat }
      let pN : Nat := pi.l2Data + pi.allHeadersSize
      let n : Nat := packetNumber pkt.mem pN
      let t := if n ≠ packetCount rt.index.toNat
        then { t with drop := bump t.drop rt.index.toNat } else t
      let packetCount : Nat → Nat := fun j => if j = rt.index.toNat then n else packetCount j
      let packetCount := bump packetCount rt.index.toNat
      if n < (p.packetCount % 18446744073709551616).toNat then
        match packetSendOne p answers buf packetCount t rt with
        | .returned (t, sent) => .returned (t, packetCount, sent, none)
        | .assertFailed => .assertFailed
        | .noReturn => .noReturn
      else .returned (t, packetCount, none, none)
  else
    let t := { t with tap := incr64 t.tap }
    let w : WriteCall :=
      { fd := p.tap, bytes := (List.range pi.l2Length).map (fun i => pkt.mem (pi.l2Data + i)) }
    .returned (t, packetCount, none, some w)

/-- A run of the tester on one route: `network` gives, for a packet that the
tester sent, the packet that comes back to it.  The result is the list of the
numbers that `packetReceiveAndSend` read, in order, with the counters and the
array `packetCount` at the end; the run ends when no packet is sent in
answer. -/
def testerRun (p : Process) (route : RouteTable) (answers : List NetioError) (buf : Memory)
    (network : Memory → NetioPkt) :
    Nat → Thread → (Nat → Nat) → NetioPkt → Outcome (List Nat × Thread × (Nat → Nat))
  | 0, _, _, _ => .noReturn
  | rounds + 1, t, packetCount, pkt =>
    match packetReceiveAndSend p route answers buf packetCount t pkt with
    | .returned (t, packetCount, sent, _) =>
      let pi := parsePacket p pkt
      let n := packetNumber pkt.mem (pi.l2Data + pi.allHeadersSize)
      match sent with
      | none => .returned ([n], t, packetCount)
      | some mem =>
        match testerRun p route answers buf network rounds t packetCount (network mem) with
        | .returned (ns, t, packetCount) => .returned (n :: ns, t, packetCount)
        | .assertFailed => .assertFailed
        | .noReturn => .noReturn
    | .assertFailed => .assertFailed
    | .noReturn => .noReturn

/-- The function `packetsPrimePipeline` for one route: the packet it sends
for the route at port `PORTOFFSET + n`, if that route is open. -/
def primeOne (p : Process) (route : RouteTable) (answers : List NetioError) (buf : Memory)
    (packetCount : Nat → Nat) (t : Thread) (n : Nat) : Outcome (Thread × Option Memory) :=
  let rt := routeFromPortOfArrival route (PORTOFFSET + n)
  if rt.«open» ≠ 0 then packetSendOne p answers buf packetCount t rt
  else .returned (t, none)

/-! ## The thread monitor: `process.c` and the start functions of the workers -/

/-- The start functions of the threads of the two programs. -/
inductive StartFn where
  | forwardStart
  | packetsStart
  | tapStart
deriving DecidableEq, Repr

/-- The point that a worker has reached in its start function, from the loop
`while (!t->alert)` on: in the loop, behind the loop and before it clears its
flag, or returned with a status. -/
inductive WorkerPc where
  | working
  | alerted
  | returned (status : Nat)
deriving DecidableEq, Repr

/-- One entry of the array `thread` of the C struct `Process`: the fields
`start` (`none` is `NULL`, the entry of `main`) and `alert`, with the point
that the thread has reached.  The pointer `p->thread + n` is the number `n`. -/
structure Worker where
  start : Option StartFn := none
  alert : Int := 0
  pc : WorkerPc := .working
deriving DecidableEq, Repr

/-- The threads of a switch on four CPUs while it forwards: `main`, the TAP
worker and two forward workers. -/
def switchThreads : Nat → Worker := fun n =>
  if n = 0 then {} else if n = 1 then { start := some .tapStart }
  else if n < 4 then { start := some .forwardStart } else {}

/-! ## Notions used in the statements about process set-up, the tester and the monitor -/

/-- A pseudo-header word of two bytes as the specification writes it:
`((x << 8) | y) & 0xffff`. -/
def specWord (x y : UChar) : Nat := ((x.val <<< 8) ||| (y.val <<< 0)) &&& 0xffff

/-- The seed as the specification states it: the one's-complement sum, not
complemented, of the four address words of the pseudo-header, the protocol
word 0x0011 and the UDP size 1324. -/
def pseudoHeaderSum (dst src : Endpoint) : Nat :=
  onesAdd (onesAdd (onesAdd (onesAdd (onesAdd
    (specWord (src.ip 0) (src.ip 1)) (specWord (src.ip 2) (src.ip 3)))
    (specWord (dst.ip 0) (dst.ip 1))) (specWord (dst.ip 2) (dst.ip 3))) 0x0011) 1324

/-- A UDP packet for the switch of `exampleProcess` whose destination port
1234 is no port of arrival: `goodPkt` with the port bytes 0x04 0xd2. -/
def strayPkt : NetioPkt :=
  pktOfL3 ([0x45, 0x00, 0x00, 0x2c, 0x44, 0x22, 0x40, 0x00, 0x80, 0x11, 0x58, 0x9c,
    0x8c, 0x7c, 0x19, 0xac, 0xac, 0x12, 0x0b, 0xc8,
    0x12, 0x34, 0x04, 0xd2, 0x00, 0x18, 0xcc, 0x36] ++ List.replicate 16 0)

/-- A frame of 60 bytes for the switch of `exampleProcess` whose IPv4 header
length field is 15: protocol UDP, version 4, L3 length 46. -/
def ihl15Pkt : NetioPkt :=
  pktOfL3 ([0x4f, 0x00, 0x00, 0x2e, 0x44, 0x22, 0x40, 0x00, 0x80, 0x11, 0x00, 0x00,
    0x8c, 0x7c, 0x19, 0xac, 0xac, 0x12, 0x0b, 0xc8] ++ List.replicate 26 0)

/-- A process on eight CPUs as `processInitialize` sets it up. -/
def eightCpus : Process := { threadCount := 8, netioThreadIndex := 2, netioThreadCount := 6 }

/-- A route string that holds only the field `from`. -/
def fromOnly : List UChar := cstr "\x7b\"from\":50000\x7d"

/-- The packet that the tester builds for the route with index `i` when the
count of the route is `k`. -/
def testerPacket (p : Process) (buf : Memory) (i k : Nat) : Memory :=
  buildPacket buf PACKETSIZE k { p.control with port := PORTOFFSET + (i : Int) }
    { p.forward with port := PORTOFFSET + (i : Int) }

/-- The packet `rcvd` is the packet `sent` brought back to the tester `p` on
the route with index `i`: it is UDP for the tester, its port of arrival is the
one of the route, and its payload starts with the first eight payload bytes of
`sent`. -/
def Returns (p : Process) (i : Nat) (sent : Memory) (rcvd : NetioPkt) : Prop :=
  (parsePacket p rcvd).isUdpForMe = true ∧
  (parsePacket p rcvd).poa = PORTOFFSET + (i : Int) ∧
  ∀ j, j < 8 → rcvd.mem ((parsePacket p rcvd).allHeadersSize + j) = sent (UDPPAYLOADOFFSET + j)

/-- A tester whose command line names the switch at 172.18.11.200 and
02:00:00:00:00:aa: `forward.ip` holds that address, `forward.mac` holds the
MAC 02:00:00:00:00:bb of the tester's own interface, which `initializeNetio`
stored over the one of the command line, `control.ip` holds the tester's own
address 10.0.0.9 and `control.mac` was never set.  It sends 3 packets on each
route. -/
def testerProcess : Process :=
  { forward := { ip := ![172, 18, 11, 200], mac := ![0x02, 0, 0, 0, 0, 0xbb] },
    control := { port := CONTROLPORT, ip := ![10, 0, 0, 9] },
    packetCount := 3, routeCount := 1 }

/-- A network that brings every packet back to `testerProcess` as it is but
for the destination MAC, which is the one of the tester's interface. -/
def loopback (mem : Memory) : NetioPkt :=
  { status := 0, mem := memcpy mem 0 testerProcess.forward.mac, l3Offset := 14,
    l2Length := 1358, l3Length := 1344 }

/-- The threads of `p` whose start function is `start`. -/
def cohort (p : Process) (thread : Nat → Worker) (start : Option StartFn) : List Nat :=
  (List.range p.threadCount.toNat).filter (fun n => decide ((thread n).start = start))

/-- A schedule in which every worker of the cohort takes a step during each
of the first two waits of `main`. -/
def Fair (p : Process) (thread : Nat → Worker) (start : Option StartFn)
    (sched : List (List Nat)) : Prop :=
  ∃ s1 s2 rest, sched = s1 :: s2 :: rest ∧ ∀ n ∈ cohort p thread start, n ∈ s1 ∧ n ∈ s2

theorem and_0f_left (x : Nat) : 0x0f &&& x = x % 16 := by
  rw [Nat.and_comm]; exact Nat.and_pow_two_sub_one_eq_mod x 4

theorem and_ff_right (x : Nat) : x &&& 0xff = x % 256 :=
  Nat.and_pow_two_sub_one_eq_mod x 8

theorem and_ffff_left (x : Nat) : 0xffff &&& x = x % 65536 := by
  rw [Nat.and_comm]; exact Nat.and_pow_two_sub_one_eq_mod x 16

theorem shl8_or (a b : Nat) (hb : b < 256) : (a <<< 8) ||| (b <<< 0) = a * 256 + b := by
  rw [Nat.shiftLeft_eq, Nat.shiftLeft_eq]
  have h := @Nat.mul_add_lt_is_or 8 b (by simpa using hb) a
  simp only [Nat.reducePow, Nat.pow_zero, Nat.mul_one] at h ⊢
  rw [Nat.mul_comm a 256, ← h]

theorem int_shr8 (x : Int) : x >>> (8 : Nat) = x / 256 := by
  rw [Int.shiftRight_eq_div_pow]; rfl

theorem int_shr0 (x : Int) : x >>> (0 : Nat) = x := by
  rw [Int.shiftRight_eq_div_pow]; simp

/-- The two bytes that `updateUdpPacket` writes for a port in `[0, 65535]`
read back as that port. -/
theorem portBytes_value (port : Int) (h0 : 0 ≤ port) (h1 : port ≤ 65535) :
    (((toUChar (toUnsigned (port >>> (8 : Nat)) &&& 0xff)).val * 256
      + (toUChar (toUnsigned (port >>> (0 : Nat)) &&& 0xff)).val : Nat) : Int) = port := by
  rw [int_shr8, int_shr0]
  simp only [toUChar, toUnsigned, and_ff_right]
  omega

/-! ## Memory writes -/

theorem store_apply (mem : Memory) (p : Nat) (v : UChar) (a : Nat) :
    store mem p v a = if a = p then v else mem a := rfl

theorem memcpy_apply {n : Nat} (mem : Memory) (dst : Nat) (src : Fin n → UChar) (a : Nat) :
    memcpy mem dst src a =
      if h : dst ≤ a ∧ a < dst + n then src ⟨a - dst, by omega⟩ else mem a := rfl

theorem memcpy_at {n : Nat} (mem : Memory) (dst : Nat) (src : Fin n → UChar) (i : Fin n) :
    memcpy mem dst src (dst + i.val) = src i := by
  have hi := i.isLt
  rw [memcpy_apply, dif_pos (by omega)]
  congr 1
  apply Fin.ext
  simp

/-- The writes of `updateUdpPacket`, with the bytes of the two checksums and of
the port left abstract: port, destination IP, destination MAC, UDP checksum
unless the incoming one is zero, IP checksum. -/
theorem updateUdpPacket_writes (mem : Memory) (pi : PacketInfo) (rt : Route) (poa : Int) :
    ∃ p1 p2 u1 u2 c1 c2 : UChar,
      updateUdpPacket mem pi rt poa =
        store (store
          (if decide ((0xffff &&& not32 (((mem (pi.l3Data + pi.ipHeaderSize + 6)).val <<< 8) |||
              ((mem (pi.l3Data + pi.ipHeaderSize + 6 + 1)).val <<< 0))) ≠ 0xffff) = true
           then store (store
              (memcpy (memcpy (store (store mem (pi.l3Data + pi.ipHeaderSize + 2) p1)
                (pi.l3Data + pi.ipHeaderSize + 2 + 1) p2) (pi.l3Data + 16) rt.dst.ip)
                (pi.l2Data + 0) rt.dst.mac)
              (pi.l3Data + pi.ipHeaderSize + 6) u1) (pi.l3Data + pi.ipHeaderSize + 6 + 1) u2
           else memcpy (memcpy (store (store mem (pi.l3Data + pi.ipHeaderSize + 2) p1)
                (pi.l3Data + pi.ipHeaderSize + 2 + 1) p2) (pi.l3Data + 16) rt.dst.ip)
                (pi.l2Data + 0) rt.dst.mac)
          (pi.l3Data + 10) c1) (pi.l3Data + 10 + 1) c2 ∧
      p1 = toUChar (toUnsigned (rt.dst.port >>> (8 : Nat)) &&& 0xff) ∧
      p2 = toUChar (toUnsigned (rt.dst.port >>> (0 : Nat)) &&& 0xff) :=
  ⟨_, _, _, _, _, _, rfl, rfl, rfl⟩

/-- The function `updateUdpPacket` changes no byte outside the port, the
destination IP, the destination MAC and the two checksum fields. -/
theorem updateUdpPacket_frame (mem : Memory) (pi : PacketInfo) (rt : Route) (poa : Int) (a : Nat)
    (h1 : a ≠ pi.l3Data + pi.ipHeaderSize + 2) (h2 : a ≠ pi.l3Data + pi.ipHeaderSize + 3)
    (h3 : ¬ (pi.l3Data + 16 ≤ a ∧ a < pi.l3Data + 20))
    (h4 : ¬ (pi.l2Data ≤ a ∧ a < pi.l2Data + 6))
    (h5 : a ≠ pi.l3Data + pi.ipHeaderSize + 6) (h6 : a ≠ pi.l3Data + pi.ipHeaderSize + 7)
    (h7 : a ≠ pi.l3Data + 10) (h8 : a ≠ pi.l3Data + 11) :
    updateUdpPacket mem pi rt poa a = mem a := by
  obtain ⟨p1, p2, u1, u2, c1, c2, h, -, -⟩ := updateUdpPacket_writes mem pi rt poa
  rw [h]
  simp only [store_apply, memcpy_apply, ite_apply]
  split_ifs <;> first | rfl | omega

/-- After `updateUdpPacket` the first six bytes of L2 are the route's MAC. -/
theorem updateUdpPacket_mac (mem : Memory) (pi : PacketInfo) (rt : Route) (poa : Int)
    (h : pi.l2Data ≤ pi.l3Data) (i : Fin 6) :
    updateUdpPacket mem pi rt poa (pi.l2Data + i.val) = rt.dst.mac i := by
  have hi := i.isLt
  obtain ⟨p1, p2, u1, u2, c1, c2, hw, -, -⟩ := updateUdpPacket_writes mem pi rt poa
  rw [hw]
  simp only [store_apply, ite_apply, Nat.add_zero]
  rw [if_neg (by omega), if_neg (by omega)]
  split_ifs
  · omega
  · omega
  · exact memcpy_at _ _ _ i
  · exact memcpy_at _ _ _ i

/-- After `updateUdpPacket` on a header of at least 20 bytes, L3 bytes 16..19
are the route's IP address. -/
theorem updateUdpPacket_ip (mem : Memory) (pi : PacketInfo) (rt : Route) (poa : Int)
    (hs : 20 ≤ pi.ipHeaderSize) (h : pi.l2Data ≤ pi.l3Data) (i : Fin 4) :
    updateUdpPacket mem pi rt poa (pi.l3Data + 16 + i.val) = rt.dst.ip i := by
  have hi := i.isLt
  obtain ⟨p1, p2, u1, u2, c1, c2, hw, -, -⟩ := updateUdpPacket_writes mem pi rt poa
  have hm : ∀ m : Memory, memcpy (memcpy m (pi.l3Data + 16) rt.dst.ip) (pi.l2Data + 0) rt.dst.mac
      (pi.l3Data + 16 + i.val) = rt.dst.ip i := by
    intro m
    rw [memcpy_apply, dif_neg (by omega)]
    exact memcpy_at _ _ _ i
  rw [hw]
  simp only [store_apply, ite_apply]
  rw [if_neg (by omega), if_neg (by omega)]
  split_ifs
  · omega
  · omega
  · exact hm _
  · exact hm _

/-- After `updateUdpPacket` on a header of at least 20 bytes, the two bytes of
the UDP destination port are those computed from the route's port. -/
theorem updateUdpPacket_port (mem : Memory) (pi : PacketInfo) (rt : Route) (poa : Int)
    (hs : 20 ≤ pi.ipHeaderSize) (h : pi.l2Data ≤ pi.l3Data) :
    word16 (updateUdpPacket mem pi rt poa) (pi.l3Data + pi.ipHeaderSize + 2)
      = (toUChar (toUnsigned (rt.dst.port >>> (8 : Nat)) &&& 0xff)).val * 256
        + (toUChar (toUnsigned (rt.dst.port >>> (0 : Nat)) &&& 0xff)).val := by
  obtain ⟨p1, p2, u1, u2, c1, c2, hw, hp1, hp2⟩ := updateUdpPacket_writes mem pi rt poa
  have e1 : updateUdpPacket mem pi rt poa (pi.l3Data + pi.ipHeaderSize + 2) = p1 := by
    rw [hw]
    simp only [store_apply, memcpy_apply, ite_apply]
    split_ifs <;> first | omega | rfl
  have e2 : updateUdpPacket mem pi rt poa (pi.l3Data + pi.ipHeaderSize + 2 + 1) = p2 := by
    rw [hw]
    simp only [store_apply, memcpy_apply, ite_apply]
    split_ifs <;> first | omega | rfl
  unfold word16
  rw [e1, e2, hp1, hp2]

/-! ## Facts about `parsePacket` -/

theorem parsePacket_l2Data (p : Process) (pkt : NetioPkt) : (parsePacket p pkt).l2Data = 0 := by
  unfold parsePacket; simp only []; split <;> rfl

theorem parsePacket_l3Data (p : Process) (pkt : NetioPkt) :
    (parsePacket p pkt).l3Data = pkt.l3Offset := by
  unfold parsePacket; simp only []; split <;> rfl

theorem parsePacket_ipHeaderSize (p : Process) (pkt : NetioPkt)
    (h : (parsePacket p pkt).isUdpForMe = true) :
    (parsePacket p pkt).ipHeaderSize = 4 * ihl pkt := by
  unfold parsePacket at h ⊢
  simp only [] at h ⊢
  split
  · simp only [Nat.shiftRight_zero, and_0f_left, ihl, Nat.add_zero]
  · rename_i hc
    rw [if_neg hc] at h
    exact absurd h hc

theorem parsePacket_allHeadersSize (p : Process) (pkt : NetioPkt)
    (h : (parsePacket p pkt).isUdpForMe = true) :
    (parsePacket p pkt).allHeadersSize =
      if 4 * ihl pkt > 20 then pkt.l3Offset + 4 * ihl pkt + 8 else pkt.l3Offset + 28 := by
  unfold parsePacket at h ⊢
  simp only [] at h ⊢
  split
  · simp only [Nat.shiftRight_zero, and_0f_left, ihl, Nat.add_zero, Nat.sub_zero]
  · rename_i hc
    rw [if_neg hc] at h
    exact absurd h hc

/-- When the incoming UDP checksum bytes are zero, `updateUdpPacket` changes
no byte outside the port, the destination IP, the destination MAC and the IP
checksum field. -/
theorem updateUdpPacket_frame_zero (mem : Memory) (pi : PacketInfo) (rt : Route) (poa : Int)
    (a : Nat)
    (hz1 : (mem (pi.l3Data + pi.ipHeaderSize + 6)).val = 0)
    (hz2 : (mem (pi.l3Data + pi.ipHeaderSize + 6 + 1)).val = 0)
    (h1 : a ≠ pi.l3Data + pi.ipHeaderSize + 2) (h2 : a ≠ pi.l3Data + pi.ipHeaderSize + 3)
    (h3 : ¬ (pi.l3Data + 16 ≤ a ∧ a < pi.l3Data + 20))
    (h4 : ¬ (pi.l2Data ≤ a ∧ a < pi.l2Data + 6))
    (h7 : a ≠ pi.l3Data + 10) (h8 : a ≠ pi.l3Data + 11) :
    updateUdpPacket mem pi rt poa a = mem a := by
  obtain ⟨p1, p2, u1, u2, c1, c2, h, -, -⟩ := updateUdpPacket_writes mem pi rt poa
  rw [h, hz1, hz2, if_neg (by decide)]
  simp only [store_apply, memcpy_apply]
  split_ifs <;> first | rfl | omega

/-! ## The checksum arithmetic of `updateUdpPacket` -/

theorem updateUdpPacket_checksums (mem : Memory) (pi : PacketInfo) (rt : Route) (poa : Int) :
    ∃ p1 p2 : UChar,
      updateUdpPacket mem pi rt poa =
        store (store
          (if decide ((0xffff &&& not32 (((mem (pi.l3Data + pi.ipHeaderSize + 6)).val <<< 8) |||
              ((mem (pi.l3Data + pi.ipHeaderSize + 6 + 1)).val <<< 0))) ≠ 0xffff) = true
           then store (store
              (memcpy (memcpy (store (store mem (pi.l3Data + pi.ipHeaderSize + 2) p1)
                (pi.l3Data + pi.ipHeaderSize + 2 + 1) p2) (pi.l3Data + 16) rt.dst.ip)
                (pi.l2Data + 0) rt.dst.mac)
              (pi.l3Data + pi.ipHeaderSize + 6)
                (toUChar ((0xff00 &&& foldOnceNot (udpAccumulator mem pi rt poa)) >>> 8)))
              (pi.l3Data + pi.ipHeaderSize + 6 + 1)
                (toUChar ((0x00ff &&& foldOnceNot (udpAccumulator mem pi rt poa)) >>> 0))
           else memcpy (memcpy (store (store mem (pi.l3Data + pi.ipHeaderSize + 2) p1)
                (pi.l3Data + pi.ipHeaderSize + 2 + 1) p2) (pi.l3Data + 16) rt.dst.ip)
                (pi.l2Data + 0) rt.dst.mac)
          (pi.l3Data + 10) (toUChar ((0xff00 &&& foldOnceNot (ipAccumulator mem pi rt)) >>> 8)))
          (pi.l3Data + 10 + 1)
          (toUChar ((0x00ff &&& foldOnceNot (ipAccumulator mem pi rt)) >>> 0)) :=
  ⟨_, _, rfl⟩

theorem and_ffff_right (x : Nat) : x &&& 0xffff = x % 65536 :=
  Nat.and_pow_two_sub_one_eq_mod x 16

theorem and_00ff_left (x : Nat) : 0x00ff &&& x = x % 256 := by
  rw [Nat.and_comm]; exact Nat.and_pow_two_sub_one_eq_mod x 8

theorem shr16 (x : Nat) : x >>> 16 = x / 65536 := Nat.shiftRight_eq_div_pow x 16

theorem and_ff00_shr (x : Nat) : (0xff00 &&& x) >>> 8 = x / 256 % 256 := by
  have h : (0xff00 : Nat) = (2 ^ 8 - 1) <<< 8 := by decide
  have h2 : x / 256 % 256 = (x >>> 8) % 2 ^ 8 := by rw [Nat.shiftRight_eq_div_pow]; norm_num
  rw [h, h2]
  apply Nat.eq_of_testBit_eq
  intro j
  rw [Nat.testBit_shiftRight, Nat.testBit_and, Nat.testBit_shiftLeft, Nat.testBit_mod_two_pow,
    Nat.testBit_shiftRight, Nat.testBit_two_pow_sub_one]
  simp

/-- The final fold of `updateUdpPacket` in arithmetic. -/
theorem foldOnceNot_eq (acc : Nat) :
    foldOnceNot acc = 65535 - (acc % 65536 + acc / 65536) % 65536 := by
  unfold foldOnceNot not32 add32
  rw [and_ffff_left, and_ffff_right, shr16]
  omega

theorem foldOnceNot_lt (acc : Nat) : foldOnceNot acc < 65536 := by
  unfold foldOnceNot
  rw [and_ffff_left]
  omega

/-- The two checksum bytes that `updateUdpPacket` writes read back as the
16-bit checksum. -/
theorem csumBytes_value (c : Nat) (hc : c < 65536) :
    (toUChar ((0xff00 &&& c) >>> 8)).val * 256 + (toUChar ((0x00ff &&& c) >>> 0)).val = c := by
  rw [and_ff00_shr, and_00ff_left, Nat.shiftRight_zero]
  simp only [toUChar]
  omega

theorem word_eq (mem : Memory) (a : Nat) :
    ((mem a).val <<< 8) ||| ((mem (a + 1)).val <<< 0) = word16 mem a :=
  shl8_or _ _ (mem (a + 1)).isLt

theorem word16_lt (mem : Memory) (a : Nat) : word16 mem a < 65536 := by
  unfold word16
  have h1 := (mem a).isLt
  have h2 := (mem (a + 1)).isLt
  omega

theorem toUnsigned_of_u16 (x : Int) (h0 : 0 ≤ x) (h1 : x ≤ 65535) : toUnsigned x = x.toNat := by
  unfold toUnsigned; omega

theorem maskNot_eq (x : Nat) (hx : x < 65536) : 0xffff &&& not32 x = 65535 - x := by
  rw [and_ffff_left]; unfold not32; omega

theorem add32_eq (x y : Nat) (h : x + y < 4294967296) : add32 x y = x + y :=
  Nat.mod_eq_of_lt h

theorem udpAccumulator_eq (mem : Memory) (pi : PacketInfo) (rt : Route) (poa : Int)
    (hpoa : 0 ≤ poa ∧ poa ≤ 65535) (hport : 0 ≤ rt.dst.port ∧ rt.dst.port ≤ 65535) :
    udpAccumulator mem pi rt poa =
      (65535 - word16 mem (pi.l3Data + pi.ipHeaderSize + 6)) + (65535 - poa.toNat)
        + rt.dst.port.toNat
        + (65535 - word16 mem (pi.l3Data + 16)) + (65535 - word16 mem (pi.l3Data + 16 + 2))
        + ((rt.dst.ip 0).val * 256 + (rt.dst.ip 1).val)
        + ((rt.dst.ip 2).val * 256 + (rt.dst.ip 3).val) := by
  have b1 := word16_lt mem (pi.l3Data + pi.ipHeaderSize + 6)
  have b2 := word16_lt mem (pi.l3Data + 16)
  have b3 := word16_lt mem (pi.l3Data + 16 + 2)
  have b4 := (rt.dst.ip 0).isLt
  have b5 := (rt.dst.ip 1).isLt
  have b6 := (rt.dst.ip 2).isLt
  have b7 := (rt.dst.ip 3).isLt
  have b8 : poa.toNat < 65536 := by omega
  have b9 : rt.dst.port.toNat < 65536 := by omega
  unfold udpAccumulator
  simp only []
  rw [word_eq, word_eq, show pi.l3Data + 16 + 3 = pi.l3Data + 16 + 2 + 1 from rfl, word_eq,
    shl8_or _ _ (rt.dst.ip 1).isLt, shl8_or _ _ (rt.dst.ip 3).isLt,
    toUnsigned_of_u16 poa hpoa.1 hpoa.2, toUnsigned_of_u16 _ hport.1 hport.2,
    maskNot_eq _ b1, maskNot_eq _ b2, maskNot_eq _ b3, maskNot_eq _ b8]
  simp only [add32]
  omega

theorem Folds.refl (a : Nat) (ha : a ≤ 65535) : Folds a a := ⟨0, by omega, ha, fun h => h⟩

theorem Folds.onesAdd {a A b : Nat} (h : Folds a A) (hb : b ≤ 65535) :
    Folds (onesAdd a b) (A + b) := by
  obtain ⟨k, h1, h2, h3⟩ := h
  unfold UdpSwitch.onesAdd foldCarries
  simp only []
  by_cases hc : a + b < 65536
  · exact ⟨k, by omega, by omega, by omega⟩
  · exact ⟨k + 1, by omega, by omega, by omega⟩

theorem Folds.eq_fold {x acc : Nat} (h : Folds x acc)
    (hf : acc % 65536 + acc / 65536 < 65536) : x = acc % 65536 + acc / 65536 := by
  obtain ⟨k, h1, h2, h3⟩ := h
  omega

/-- The rule of the specification is one fold of the plain sum of its seven
terms whenever that one fold leaves no carry. -/
theorem udpChecksumRule_eq (c p q h l h' l' : Nat) (hc : c ≤ 65535) (hp : p ≤ 65535)
    (hq : q ≤ 65535) (hh : h ≤ 65535) (hl : l ≤ 65535) (hh' : h' ≤ 65535)
    (hl' : l' ≤ 65535)
    (acc : Nat)
    (hacc : acc = (65535 - c) + (65535 - p) + q + (65535 - h) + (65535 - l) + h' + l')
    (hfold : acc % 65536 + acc / 65536 < 65536) :
    udpChecksumRule c p q h l h' l' = 65535 - (acc % 65536 + acc / 65536) % 65536 := by
  unfold udpChecksumRule
  have n1 : not16 c = 65535 - c := by unfold not16; omega
  have n2 : not16 p = 65535 - p := by unfold not16; omega
  have n3 : not16 h = 65535 - h := by unfold not16; omega
  have n4 : not16 l = 65535 - l := by unfold not16; omega
  rw [n1, n2, n3, n4]
  have f := (((((Folds.refl (65535 - c) (by omega)).onesAdd (b := 65535 - p) (by omega)).onesAdd
    hq).onesAdd (b := 65535 - h) (by omega)).onesAdd (b := 65535 - l) (by omega)).onesAdd hh'
  have f := f.onesAdd hl'
  rw [← hacc] at f
  rw [f.eq_fold hfold]
  unfold not16
  rfl

/-- On a header of at least 20 bytes with a nonzero incoming UDP checksum, the
UDP checksum field after `updateUdpPacket` is the folded and complemented
accumulator. -/
theorem updateUdpPacket_udpChecksum (mem : Memory) (pi : PacketInfo) (rt : Route) (poa : Int)
    (hs : 20 ≤ pi.ipHeaderSize)
    (hnz : word16 mem (pi.l3Data + pi.ipHeaderSize + 6) ≠ 0) :
    word16 (updateUdpPacket mem pi rt poa) (pi.l3Data + pi.ipHeaderSize + 6)
      = foldOnceNot (udpAccumulator mem pi rt poa) := by
  obtain ⟨p1, p2, hw⟩ := updateUdpPacket_checksums mem pi rt poa
  have b := word16_lt mem (pi.l3Data + pi.ipHeaderSize + 6)
  have huse : decide ((0xffff &&& not32 (((mem (pi.l3Data + pi.ipHeaderSize + 6)).val <<< 8) |||
      ((mem (pi.l3Data + pi.ipHeaderSize + 6 + 1)).val <<< 0))) ≠ 0xffff) = true := by
    rw [word_eq, maskNot_eq _ b, decide_eq_true_eq]
    omega
  rw [if_pos huse] at hw
  have e1 : updateUdpPacket mem pi rt poa (pi.l3Data + pi.ipHeaderSize + 6)
      = toUChar ((0xff00 &&& foldOnceNot (udpAccumulator mem pi rt poa)) >>> 8) := by
    rw [hw]
    simp only [store_apply]
    split_ifs <;> first | omega | rfl
  have e2 : updateUdpPacket mem pi rt poa (pi.l3Data + pi.ipHeaderSize + 6 + 1)
      = toUChar ((0x00ff &&& foldOnceNot (udpAccumulator mem pi rt poa)) >>> 0) := by
    rw [hw]
    simp only [store_apply]
    split_ifs <;> first | omega | rfl
  unfold word16
  rw [e1, e2]
  exact csumBytes_value _ (foldOnceNot_lt _)

/-- The IP checksum field after `updateUdpPacket` is the folded and
complemented accumulator. -/
theorem updateUdpPacket_ipChecksum (mem : Memory) (pi : PacketInfo) (rt : Route) (poa : Int) :
    word16 (updateUdpPacket mem pi rt poa) (pi.l3Data + 10)
      = foldOnceNot (ipAccumulator mem pi rt) := by
  obtain ⟨p1, p2, hw⟩ := updateUdpPacket_checksums mem pi rt poa
  have e1 : updateUdpPacket mem pi rt poa (pi.l3Data + 10)
      = toUChar ((0xff00 &&& foldOnceNot (ipAccumulator mem pi rt)) >>> 8) := by
    rw [hw]
    simp only [store_apply]
    split_ifs <;> first | omega | rfl
  have e2 : updateUdpPacket mem pi rt poa (pi.l3Data + 10 + 1)
      = toUChar ((0x00ff &&& foldOnceNot (ipAccumulator mem pi rt)) >>> 0) := by
    rw [hw]
    simp only [store_apply]
    split_ifs <;> first | omega | rfl
  unfold word16
  rw [e1, e2]
  exact csumBytes_value _ (foldOnceNot_lt _)

theorem parsePacket_poa (p : Process) (pkt : NetioPkt)
    (h : (parsePacket p pkt).isUdpForMe = true) :
    (parsePacket p pkt).poa = (word16 pkt.mem (pkt.l3Offset + 4 * ihl pkt + 2) : Nat) := by
  unfold parsePacket at h ⊢
  simp only [] at h ⊢
  split
  · simp only [Nat.shiftRight_zero, and_0f_left, ihl, Nat.add_zero, word_eq]
    rfl
  · rename_i hc
    rw [if_neg hc] at h
    exact absurd h hc

/-- The UDP checksum that the forward path writes follows the rule of the
specification whenever one fold of the sum of the seven terms leaves no carry:
for a UDP-for-us packet with header length field at least 5, a nonzero
incoming UDP checksum and a route whose port lies in `[0, 65535]`. -/
theorem rewritten_udpChecksum_rule (p : Process) (pkt : NetioPkt) (rt : Route)
    (hudp : (parsePacket p pkt).isUdpForMe = true) (hihl : 5 ≤ ihl pkt)
    (hnz : word16 pkt.mem (pkt.l3Offset + 4 * ihl pkt + 6) ≠ 0)
    (hport : 0 ≤ rt.dst.port ∧ rt.dst.port ≤ 65535)
    (acc : Nat)
    (hacc : acc = (65535 - word16 pkt.mem (pkt.l3Offset + 4 * ihl pkt + 6))
      + (65535 - word16 pkt.mem (pkt.l3Offset + 4 * ihl pkt + 2)) + rt.dst.port.toNat
      + (65535 - word16 pkt.mem (pkt.l3Offset + 16))
      + (65535 - word16 pkt.mem (pkt.l3Offset + 18))
      + ((rt.dst.ip 0).val * 256 + (rt.dst.ip 1).val)
      + ((rt.dst.ip 2).val * 256 + (rt.dst.ip 3).val))
    (hfold : acc % 65536 + acc / 65536 < 65536) :
    word16 (rewritten p pkt rt) (pkt.l3Offset + 4 * ihl pkt + 6) =
      udpChecksumRule (word16 pkt.mem (pkt.l3Offset + 4 * ihl pkt + 6))
        (word16 pkt.mem (pkt.l3Offset + 4 * ihl pkt + 2)) rt.dst.port.toNat
        (word16 pkt.mem (pkt.l3Offset + 16)) (word16 pkt.mem (pkt.l3Offset + 18))
        ((rt.dst.ip 0).val * 256 + (rt.dst.ip 1).val)
        ((rt.dst.ip 2).val * 256 + (rt.dst.ip 3).val) := by
  have h3 := parsePacket_l3Data p pkt
  have h4 := parsePacket_ipHeaderSize p pkt hudp
  have h5 := parsePacket_poa p pkt hudp
  have b1 := word16_lt pkt.mem (pkt.l3Offset + 4 * ihl pkt + 6)
  have b2 := word16_lt pkt.mem (pkt.l3Offset + 4 * ihl pkt + 2)
  have b3 := word16_lt pkt.mem (pkt.l3Offset + 16)
  have b4 := word16_lt pkt.mem (pkt.l3Offset + 18)
  have b5 := (rt.dst.ip 0).isLt
  have b6 := (rt.dst.ip 1).isLt
  have b7 := (rt.dst.ip 2).isLt
  have b8 := (rt.dst.ip 3).isLt
  have hw := updateUdpPacket_udpChecksum pkt.mem (parsePacket p pkt) rt (parsePacket p pkt).poa
    (by omega) (by rw [h3, h4]; exact hnz)
  have ha := udpAccumulator_eq pkt.mem (parsePacket p pkt) rt (parsePacket p pkt).poa
    (by rw [h5]; omega) hport
  have hp : (parsePacket p pkt).poa.toNat = word16 pkt.mem (pkt.l3Offset + 4 * ihl pkt + 2) := by
    rw [h5]; exact Int.toNat_ofNat _
  rw [h3, h4] at hw ha
  rw [hp] at ha
  unfold rewritten
  rw [hw, foldOnceNot_eq, ha, ← hacc]
  exact (udpChecksumRule_eq _ _ _ _ _ _ _ (by omega) (by omega) (by omega) (by omega) (by omega)
    (by omega) (by omega) acc hacc hfold).symm

/-- The rule holds for `goodPkt` routed to 10.0.0.1:50001, where one fold of
the accumulator leaves no carry. -/
theorem rewritten_udpChecksum_rule_witness :
    word16 (rewritten exampleProcess goodPkt (routeTo 50001 ![10, 0, 0, 1]))
      (goodPkt.l3Offset + 4 * ihl goodPkt + 6) =
      udpChecksumRule (word16 goodPkt.mem (goodPkt.l3Offset + 4 * ihl goodPkt + 6))
        (word16 goodPkt.mem (goodPkt.l3Offset + 4 * ihl goodPkt + 2))
        (routeTo 50001 ![10, 0, 0, 1]).dst.port.toNat
        (word16 goodPkt.mem (goodPkt.l3Offset + 16)) (word16 goodPkt.mem (goodPkt.l3Offset + 18))
        (((routeTo 50001 ![10, 0, 0, 1]).dst.ip 0).val * 256
          + ((routeTo 50001 ![10, 0, 0, 1]).dst.ip 1).val)
        (((routeTo 50001 ![10, 0, 0, 1]).dst.ip 2).val * 256
          + ((routeTo 50001 ![10, 0, 0, 1]).dst.ip 3).val) :=
  rewritten_udpChecksum_rule exampleProcess goodPkt (routeTo 50001 ![10, 0, 0, 1])
    (by decide) (by decide) (by decide) (by decide) _ rfl (by decide)

theorem sum_range_split (w : Nat → Nat) (N : Nat) (hN : 10 ≤ N) :
    ((List.range N).map (fun k => if k = 5 then 0 else w k)).sum =
      ((List.range N).map (fun k => if k = 5 ∨ k = 8 ∨ k = 9 then 0 else w k)).sum
        + w 8 + w 9 := by
  induction N, hN using Nat.le_induction with
  | base => simp [List.range_succ]; omega
  | succ n hn ih =>
    rw [List.range_succ, List.map_append, List.map_append, List.sum_append, List.sum_append, ih]
    have h5 : ¬ n = 5 := by omega
    have h589 : ¬ (n = 5 ∨ n = 8 ∨ n = 9) := by omega
    simp only [List.map_cons, List.map_nil, List.sum_cons, List.sum_nil, if_neg h5, if_neg h589]
    omega

theorem ipHeaderSum_eq (mem : Memory) (l3 n : Nat) (hn : 5 ≤ n) :
    ipHeaderSum mem l3 n =
      ipHeaderRest mem l3 n + word16 mem (l3 + 16) + word16 mem (l3 + 18) := by
  unfold ipHeaderSum ipHeaderRest
  exact sum_range_split (fun k => word16 mem (l3 + 2 * k)) (2 * n) (by omega)

theorem ipHeaderRest_congr (m m' : Memory) (l3 n : Nat)
    (h : ∀ a, l3 ≤ a → a < l3 + 4 * n → a ≠ l3 + 10 → a ≠ l3 + 11 →
      ¬ (l3 + 16 ≤ a ∧ a < l3 + 20) → m' a = m a) :
    ipHeaderRest m' l3 n = ipHeaderRest m l3 n := by
  unfold ipHeaderRest
  apply congrArg List.sum
  apply List.map_congr_left
  intro k hk
  rw [List.mem_range] at hk
  by_cases hc : k = 5 ∨ k = 8 ∨ k = 9
  · rw [if_pos hc, if_pos hc]
  · rw [if_neg hc, if_neg hc]
    unfold word16
    rw [h (l3 + 2 * k) (by omega) (by omega) (by omega) (by omega) (by omega),
      h (l3 + 2 * k + 1) (by omega) (by omega) (by omega) (by omega) (by omega)]

theorem sum_range_le (g : Nat → Nat) (hg : ∀ k, g k ≤ 65535) (N : Nat) :
    ((List.range N).map g).sum ≤ N * 65535 := by
  induction N with
  | zero => simp
  | succ n ih =>
    rw [List.range_succ, List.map_append, List.sum_append]
    have := hg n
    simp only [List.map_cons, List.map_nil, List.sum_cons, List.sum_nil]
    omega

theorem sum_range_ge_zero (g : Nat → Nat) (N : Nat) (hN : 1 ≤ N) :
    g 0 ≤ ((List.range N).map g).sum := by
  induction N, hN using Nat.le_induction with
  | base =>
    rw [show List.range 1 = [0] from rfl]
    simp only [List.map_cons, List.map_nil, List.sum_cons, List.sum_nil]
    omega
  | succ n hn ih =>
    rw [List.range_succ, List.map_append, List.sum_append]
    omega

theorem ipHeaderRest_le (mem : Memory) (l3 n : Nat) : ipHeaderRest mem l3 n ≤ 2 * n * 65535 := by
  unfold ipHeaderRest
  apply sum_range_le
  intro k
  have := word16_lt mem (l3 + 2 * k)
  split <;> omega

theorem ipHeaderRest_ge (mem : Memory) (l3 n : Nat) (hn : 1 ≤ n) :
    word16 mem l3 ≤ ipHeaderRest mem l3 n := by
  unfold ipHeaderRest
  have h := sum_range_ge_zero
    (fun k => if k = 5 ∨ k = 8 ∨ k = 9 then 0 else word16 mem (l3 + 2 * k)) (2 * n) (by omega)
  simpa using h

theorem foldCarries_folds (S : Nat) (hS : S < 4294967296) : Folds (foldCarries S) S := by
  unfold foldCarries
  simp only []
  refine ⟨S / 65536 + (S % 65536 + S / 65536) / 65536, ?_, ?_, ?_⟩ <;> omega

theorem ipAccumulator_eq (mem : Memory) (pi : PacketInfo) (rt : Route) :
    ipAccumulator mem pi rt =
      (65535 - word16 mem (pi.l3Data + 10))
        + (65535 - word16 mem (pi.l3Data + 16)) + (65535 - word16 mem (pi.l3Data + 16 + 2))
        + ((rt.dst.ip 0).val * 256 + (rt.dst.ip 1).val)
        + ((rt.dst.ip 2).val * 256 + (rt.dst.ip 3).val) := by
  have b1 := word16_lt mem (pi.l3Data + 10)
  have b2 := word16_lt mem (pi.l3Data + 16)
  have b3 := word16_lt mem (pi.l3Data + 16 + 2)
  have b4 := (rt.dst.ip 0).isLt
  have b5 := (rt.dst.ip 1).isLt
  have b6 := (rt.dst.ip 2).isLt
  have b7 := (rt.dst.ip 3).isLt
  unfold ipAccumulator
  simp only []
  rw [word_eq, word_eq, show pi.l3Data + 16 + 3 = pi.l3Data + 16 + 2 + 1 from rfl, word_eq,
    shl8_or _ _ (rt.dst.ip 1).isLt, shl8_or _ _ (rt.dst.ip 3).isLt,
    maskNot_eq _ b1, maskNot_eq _ b2, maskNot_eq _ b3]
  simp only [add32]
  omega

/-- The arithmetic of the incremental IP checksum: when one fold of the
accumulator leaves no carry, the folded accumulator is the folded sum of the
rewritten header. -/
theorem ip_incremental_arith (R hi lo hi' lo' S S' F F' c acc k k' : Nat)
    (hS : S = R + hi + lo) (hS' : S' = R + hi' + lo') (hR : 1 ≤ R)
    (b1 : hi ≤ 65535) (b2 : lo ≤ 65535) (b3 : hi' ≤ 65535) (b4 : lo' ≤ 65535)
    (f1 : S = F + 65535 * k) (f2 : F ≤ 65535) (f3 : F = 0 → S = 0)
    (f1' : S' = F' + 65535 * k') (f2' : F' ≤ 65535) (f3' : F' = 0 → S' = 0)
    (hc : c = 65535 - F % 65536)
    (hacc : acc = (65535 - c) + (65535 - hi) + (65535 - lo) + hi' + lo')
    (hfold : acc % 65536 + acc / 65536 < 65536) :
    65535 - (acc % 65536 + acc / 65536) % 65536 = 65535 - F' % 65536 := by
  have hF : 1 ≤ F := by
    rcases Nat.eq_zero_or_pos F with h | h
    · have := f3 h; omega
    · exact h
  have hF' : 1 ≤ F' := by
    rcases Nat.eq_zero_or_pos F' with h | h
    · have := f3' h; omega
    · exact h
  have hc' : 65535 - c = F := by omega
  rw [hc'] at hacc
  have hq : acc = (acc % 65536 + acc / 65536) + 65535 * (acc / 65536) := by omega
  have hqx : acc / 65536 ≤ acc % 65536 + acc / 65536 := Nat.le_add_left _ _
  generalize acc % 65536 + acc / 65536 = x at hq hqx hfold ⊢
  generalize acc / 65536 = q at hq hqx
  have hx : 1 ≤ x := by omega
  have key : x + 65535 * q + 65535 * k = F' + 65535 * k' + 131070 := by omega
  have : x = F' := by omega
  subst this
  rfl

/-- The forward path keeps a valid IP checksum valid whenever one fold of its
accumulator leaves no carry: for a UDP-for-us packet with header length field
at least 5 behind a link header of at least 6 bytes. -/
theorem rewritten_ipChecksum_valid (p : Process) (pkt : NetioPkt) (rt : Route)
    (hudp : (parsePacket p pkt).isUdpForMe = true) (hihl : 5 ≤ ihl pkt)
    (heth : 6 ≤ pkt.l3Offset)
    (hvalid : ipChecksumValid pkt.mem pkt.l3Offset (ihl pkt))
    (acc : Nat)
    (hacc : acc = (65535 - word16 pkt.mem (pkt.l3Offset + 10))
      + (65535 - word16 pkt.mem (pkt.l3Offset + 16))
      + (65535 - word16 pkt.mem (pkt.l3Offset + 18))
      + ((rt.dst.ip 0).val * 256 + (rt.dst.ip 1).val)
      + ((rt.dst.ip 2).val * 256 + (rt.dst.ip 3).val))
    (hfold : acc % 65536 + acc / 65536 < 65536) :
    ipChecksumValid (rewritten p pkt rt) pkt.l3Offset (ihl pkt) := by
  have h2 := parsePacket_l2Data p pkt
  have h3 := parsePacket_l3Data p pkt
  have h4 := parsePacket_ipHeaderSize p pkt hudp
  have hn15 : ihl pkt ≤ 15 := by unfold ihl; omega
  have hle : (parsePacket p pkt).l2Data ≤ (parsePacket p pkt).l3Data := by omega
  have hs : 20 ≤ (parsePacket p pkt).ipHeaderSize := by omega
  -- the words of the rewritten header
  have hrest : ipHeaderRest (rewritten p pkt rt) pkt.l3Offset (ihl pkt)
      = ipHeaderRest pkt.mem pkt.l3Offset (ihl pkt) := by
    apply ipHeaderRest_congr
    intro a ha1 ha2 ha3 ha4 ha5
    unfold rewritten
    apply updateUdpPacket_frame <;> (try rw [h3]) <;> (try rw [h4]) <;> (try rw [h2]) <;> omega
  have hip : ∀ i : Fin 4, rewritten p pkt rt (pkt.l3Offset + 16 + i.val) = rt.dst.ip i := by
    intro i
    have h := updateUdpPacket_ip pkt.mem (parsePacket p pkt) rt (parsePacket p pkt).poa hs hle i
    rw [h3] at h
    exact h
  have hhi : word16 (rewritten p pkt rt) (pkt.l3Offset + 16)
      = (rt.dst.ip 0).val * 256 + (rt.dst.ip 1).val := by
    unfold word16
    have e0 := hip 0
    have e1 := hip 1
    simp only [Fin.val_zero, Fin.val_one, Nat.add_zero] at e0 e1
    rw [e0, e1]
  have hlo : word16 (rewritten p pkt rt) (pkt.l3Offset + 18)
      = (rt.dst.ip 2).val * 256 + (rt.dst.ip 3).val := by
    unfold word16
    have e2 := hip 2
    have e3 := hip 3
    have v2 : ((2 : Fin 4) : Nat) = 2 := rfl
    have v3 : ((3 : Fin 4) : Nat) = 3 := rfl
    rw [v2] at e2
    rw [v3] at e3
    rw [show pkt.l3Offset + 18 = pkt.l3Offset + 16 + 2 from rfl,
      show pkt.l3Offset + 16 + 2 + 1 = pkt.l3Offset + 16 + 3 from rfl, e2, e3]
  have hcs : word16 (rewritten p pkt rt) (pkt.l3Offset + 10)
      = 65535 - (acc % 65536 + acc / 65536) % 65536 := by
    have h := updateUdpPacket_ipChecksum pkt.mem (parsePacket p pkt) rt (parsePacket p pkt).poa
    have ha := ipAccumulator_eq pkt.mem (parsePacket p pkt) rt
    rw [h3] at h ha
    unfold rewritten
    rw [h, foldOnceNot_eq, ha, show pkt.l3Offset + 16 + 2 = pkt.l3Offset + 18 from rfl, ← hacc]
  -- the sums before and after
  have hS := ipHeaderSum_eq pkt.mem pkt.l3Offset (ihl pkt) hihl
  have hS' := ipHeaderSum_eq (rewritten p pkt rt) pkt.l3Offset (ihl pkt) hihl
  rw [hrest, hhi, hlo] at hS'
  have hR := ipHeaderRest_le pkt.mem pkt.l3Offset (ihl pkt)
  have hR0 := ipHeaderRest_ge pkt.mem pkt.l3Offset (ihl pkt) (by omega)
  have hw0 : 1 ≤ word16 pkt.mem pkt.l3Offset := by
    unfold word16
    unfold ihl at hihl
    omega
  have b1 := word16_lt pkt.mem (pkt.l3Offset + 16)
  have b2 := word16_lt pkt.mem (pkt.l3Offset + 18)
  have b3 := (rt.dst.ip 0).isLt
  have b4 := (rt.dst.ip 1).isLt
  have b5 := (rt.dst.ip 2).isLt
  have b6 := (rt.dst.ip 3).isLt
  obtain ⟨k, f1, f2, f3⟩ := foldCarries_folds (ipHeaderSum pkt.mem pkt.l3Offset (ihl pkt))
    (by omega)
  obtain ⟨k', f1', f2', f3'⟩ :=
    foldCarries_folds (ipHeaderSum (rewritten p pkt rt) pkt.l3Offset (ihl pkt)) (by omega)
  unfold ipChecksumValid ipChecksumFromScratch not16 at hvalid ⊢
  rw [hcs]
  exact ip_incremental_arith (ipHeaderRest pkt.mem pkt.l3Offset (ihl pkt))
    (word16 pkt.mem (pkt.l3Offset + 16)) (word16 pkt.mem (pkt.l3Offset + 18))
    ((rt.dst.ip 0).val * 256 + (rt.dst.ip 1).val) ((rt.dst.ip 2).val * 256 + (rt.dst.ip 3).val)
    _ _ _ _ _ acc k k' hS hS' (by omega) (by omega) (by omega) (by omega) (by omega)
    f1 f2 f3 f1' f2' f3' hvalid hacc hfold

/-- The IP checksum of `goodPkt` stays valid when it is routed to
10.0.0.1:50001, where one fold of the accumulator leaves no carry. -/
theorem rewritten_ipChecksum_valid_witness :
    ipChecksumValid (rewritten exampleProcess goodPkt (routeTo 50001 ![10, 0, 0, 1]))
      goodPkt.l3Offset (ihl goodPkt) :=
  rewritten_ipChecksum_valid exampleProcess goodPkt (routeTo 50001 ![10, 0, 0, 1])
    (by decide) (by decide) (by decide) (by decide) _ rfl (by decide)

/-! ## The header rewrite: claims C1 to C6 -/

/-- C1 (amended): for every frame that `parsePacket` classifies as UDP-for-us
whose IPv4 header length field is at least 5, and every route whose
destination port lies in `[0, 65535]`, after `updateUdpPacket` the first 6
bytes of L2 are the route's MAC, L3 bytes 16..19 are the route's IP, and the
big-endian 16-bit value at L3 offset `ipHeaderSize + 2` is the route's port. -/
theorem updateUdpPacket_sets_destination (p : Process) (pkt : NetioPkt) (rt : Route)
    (hudp : (parsePacket p pkt).isUdpForMe = true) (hihl : 5 ≤ ihl pkt)
    (hport : 0 ≤ rt.dst.port ∧ rt.dst.port ≤ 65535) :
    (∀ i : Fin 6, rewritten p pkt rt i.val = rt.dst.mac i) ∧
    (∀ i : Fin 4, rewritten p pkt rt (pkt.l3Offset + 16 + i.val) = rt.dst.ip i) ∧
    ((word16 (rewritten p pkt rt) (pkt.l3Offset + (parsePacket p pkt).ipHeaderSize + 2) : Nat)
      : Int) = rt.dst.port := by
  have h2 := parsePacket_l2Data p pkt
  have h3 := parsePacket_l3Data p pkt
  have h4 := parsePacket_ipHeaderSize p pkt hudp
  have hle : (parsePacket p pkt).l2Data ≤ (parsePacket p pkt).l3Data := by omega
  have hs : 20 ≤ (parsePacket p pkt).ipHeaderSize := by omega
  refine ⟨fun i => ?_, fun i => ?_, ?_⟩
  · have h := updateUdpPacket_mac pkt.mem (parsePacket p pkt) rt (parsePacket p pkt).poa hle i
    rw [h2, Nat.zero_add] at h
    exact h
  · have h := updateUdpPacket_ip pkt.mem (parsePacket p pkt) rt (parsePacket p pkt).poa hs hle i
    rw [h3] at h
    exact h
  · have h := updateUdpPacket_port pkt.mem (parsePacket p pkt) rt (parsePacket p pkt).poa hs hle
    rw [h3] at h
    unfold rewritten
    rw [h]
    exact portBytes_value rt.dst.port hport.1 hport.2

/-- C1, witness: the well-formed packet `goodPkt` routed to 10.0.0.1:50001. -/
theorem updateUdpPacket_sets_destination_witness :
    (∀ i : Fin 6, rewritten exampleProcess goodPkt (routeTo 50001 ![10, 0, 0, 1]) i.val
      = (routeTo 50001 ![10, 0, 0, 1]).dst.mac i) ∧
    (∀ i : Fin 4, rewritten exampleProcess goodPkt (routeTo 50001 ![10, 0, 0, 1])
      (goodPkt.l3Offset + 16 + i.val) = (routeTo 50001 ![10, 0, 0, 1]).dst.ip i) ∧
    ((word16 (rewritten exampleProcess goodPkt (routeTo 50001 ![10, 0, 0, 1]))
      (goodPkt.l3Offset + (parsePacket exampleProcess goodPkt).ipHeaderSize + 2) : Nat) : Int)
      = (routeTo 50001 ![10, 0, 0, 1]).dst.port :=
  updateUdpPacket_sets_destination exampleProcess goodPkt (routeTo 50001 ![10, 0, 0, 1])
    (by decide) (by decide) (by decide)

/-- C1 as stated fails twice.  The frame `ihl4Pkt` (header length field 4) is
classified UDP-for-us, and after the rewrite for the open route to
10.0.0.1:50001 the port field holds 1, the low half of the IP address written
over it.  The well-formed `goodPkt` rewritten for an open route whose
destination port is 70000 holds 4464, the low 16 bits, in its port field. -/
theorem updateUdpPacket_sets_destination_counterexample :
    ((parsePacket exampleProcess ihl4Pkt).isUdpForMe = true ∧
      (routeTo 50001 ![10, 0, 0, 1]).«open» = 1 ∧
      word16 (rewritten exampleProcess ihl4Pkt (routeTo 50001 ![10, 0, 0, 1]))
        (ihl4Pkt.l3Offset + (parsePacket exampleProcess ihl4Pkt).ipHeaderSize + 2) = 1 ∧
      (routeTo 50001 ![10, 0, 0, 1]).dst.port = 50001) ∧
    ((parsePacket exampleProcess goodPkt).isUdpForMe = true ∧
      (routeTo 70000 ![10, 0, 0, 1]).«open» = 1 ∧
      word16 (rewritten exampleProcess goodPkt (routeTo 70000 ![10, 0, 0, 1]))
        (goodPkt.l3Offset + (parsePacket exampleProcess goodPkt).ipHeaderSize + 2) = 4464 ∧
      (routeTo 70000 ![10, 0, 0, 1]).dst.port = 70000) := by
  decide

/-- C2: the packet `goodPkt` carries a valid IP checksum, and after the rewrite
for the route to 10.0.6.120 the checksum field holds 0xffff whereas the
checksum of the rewritten header computed from scratch is 0xfffe: the single
fold at the end of `updateUdpPacket` loses the second carry of the accumulator
0x1ffff.  On the header of scenario S2 rewritten to 192.168.0.1 the written
checksum and the one computed from scratch agree (0x4fd4), as they do by
`rewritten_ipChecksum_valid` whenever one fold leaves no carry. -/
theorem updateUdpPacket_ipChecksum_single_fold :
    ((parsePacket exampleProcess goodPkt).isUdpForMe = true ∧ ihl goodPkt = 5 ∧
      ipChecksumValid goodPkt.mem 14 5 ∧
      word16 (rewritten exampleProcess goodPkt (routeTo 50001 ![10, 0, 6, 120])) (14 + 10)
        = 0xffff ∧
      ipChecksumFromScratch (rewritten exampleProcess goodPkt (routeTo 50001 ![10, 0, 6, 120]))
        14 5 = 0xfffe) ∧
    (ipChecksumValid s2Pkt.mem 14 5 ∧
      word16 (updateUdpPacket s2Pkt.mem s2Info (routeTo 50001 ![0xc0, 0xa8, 0x00, 0x01]) 0)
        (14 + 10) = 0x4fd4 ∧
      ipChecksumFromScratch
        (updateUdpPacket s2Pkt.mem s2Info (routeTo 50001 ![0xc0, 0xa8, 0x00, 0x01]) 0) 14 5
        = 0x4fd4) := by
  decide

/-- C3: the packet `goodPkt` has a well-formed header (length field 5), the
nonzero UDP checksum 0xcc36, the port of arrival 50000 and the destination
172.18.11.200; after the rewrite for the route to 10.0.122.17:50001 its UDP
checksum field holds 0xffff whereas the rule of the specification, applied to
the fields of the packet and of the route, gives 0xfffe: the single fold at
the end of `updateUdpPacket` loses the second carry of the accumulator
0x2fffe.  By `rewritten_udpChecksum_rule` the written checksum follows the
rule whenever one fold leaves no carry. -/
theorem updateUdpPacket_udpChecksum_single_fold :
    (parsePacket exampleProcess goodPkt).isUdpForMe = true ∧ ihl goodPkt = 5 ∧
    word16 goodPkt.mem (14 + 20 + 6) = 0xcc36 ∧
    (routeTo 50001 ![10, 0, 122, 17]).dst.port = 50001 ∧
    word16 (rewritten exampleProcess goodPkt (routeTo 50001 ![10, 0, 122, 17])) (14 + 20 + 6)
      = 0xffff ∧
    udpChecksumRule (word16 goodPkt.mem (14 + 20 + 6))
      (parsePacket exampleProcess goodPkt).poa.toNat
      (routeTo 50001 ![10, 0, 122, 17]).dst.port.toNat
      (word16 goodPkt.mem (14 + 16)) (word16 goodPkt.mem (14 + 18))
      (((routeTo 50001 ![10, 0, 122, 17]).dst.ip 0).val * 256
        + ((routeTo 50001 ![10, 0, 122, 17]).dst.ip 1).val)
      (((routeTo 50001 ![10, 0, 122, 17]).dst.ip 2).val * 256
        + ((routeTo 50001 ![10, 0, 122, 17]).dst.ip 3).val) = 0xfffe := by
  decide

/-- C4 (amended): for every UDP-for-us packet whose IPv4 header length field
is neither 1 nor 3 (so for every well-formed header) and whose incoming UDP
checksum field is 0x0000, and for every route, the UDP checksum field after
`updateUdpPacket` is still 0x0000. -/
theorem updateUdpPacket_keeps_zero_udpChecksum (p : Process) (pkt : NetioPkt) (rt : Route)
    (hudp : (parsePacket p pkt).isUdpForMe = true) (hihl : ihl pkt ≠ 1 ∧ ihl pkt ≠ 3)
    (hzero : word16 pkt.mem (pkt.l3Offset + (parsePacket p pkt).ipHeaderSize + 6) = 0) :
    word16 (rewritten p pkt rt) (pkt.l3Offset + (parsePacket p pkt).ipHeaderSize + 6) = 0 := by
  have h2 := parsePacket_l2Data p pkt
  have h3 := parsePacket_l3Data p pkt
  have h4 := parsePacket_ipHeaderSize p pkt hudp
  unfold word16 at hzero
  have hz1 : (pkt.mem ((parsePacket p pkt).l3Data + (parsePacket p pkt).ipHeaderSize + 6)).val
      = 0 := by rw [h3]; omega
  have hz2 : (pkt.mem ((parsePacket p pkt).l3Data + (parsePacket p pkt).ipHeaderSize + 6 + 1)).val
      = 0 := by rw [h3]; omega
  have e1 : rewritten p pkt rt (pkt.l3Offset + (parsePacket p pkt).ipHeaderSize + 6)
      = pkt.mem (pkt.l3Offset + (parsePacket p pkt).ipHeaderSize + 6) := by
    unfold rewritten
    apply updateUdpPacket_frame_zero _ _ _ _ _ hz1 hz2 <;> omega
  have e2 : rewritten p pkt rt (pkt.l3Offset + (parsePacket p pkt).ipHeaderSize + 6 + 1)
      = pkt.mem (pkt.l3Offset + (parsePacket p pkt).ipHeaderSize + 6 + 1) := by
    unfold rewritten
    apply updateUdpPacket_frame_zero _ _ _ _ _ hz1 hz2 <;> omega
  unfold word16
  rw [e1, e2]
  exact hzero

/-- C4, witness: the packet `zeroCsumPkt` routed to 10.0.0.1:50001. -/
theorem updateUdpPacket_keeps_zero_udpChecksum_witness :
    word16 (rewritten exampleProcess zeroCsumPkt (routeTo 50001 ![10, 0, 0, 1]))
      (zeroCsumPkt.l3Offset + (parsePacket exampleProcess zeroCsumPkt).ipHeaderSize + 6) = 0 :=
  updateUdpPacket_keeps_zero_udpChecksum exampleProcess zeroCsumPkt
    (routeTo 50001 ![10, 0, 0, 1]) (by decide) (by decide) (by decide)

/-- C4 as stated fails for header length fields 3 and 1.  In `ihl3Pkt` the UDP
checksum field (L3 offsets 18 and 19) is zero before the rewrite and holds the
low half of the new destination address after it; in `ihl1Pkt` the field (L3
offsets 10 and 11) is zero before the rewrite and holds the IP checksum after
it. -/
theorem updateUdpPacket_keeps_zero_udpChecksum_counterexample :
    ((parsePacket exampleProcess ihl3Pkt).isUdpForMe = true ∧
      (parsePacket exampleProcess ihl3Pkt).ipHeaderSize = 12 ∧
      word16 ihl3Pkt.mem (14 + 12 + 6) = 0 ∧
      word16 (rewritten exampleProcess ihl3Pkt (routeTo 50001 ![10, 0, 0, 1])) (14 + 12 + 6)
        = 1) ∧
    ((parsePacket exampleProcess ihl1Pkt).isUdpForMe = true ∧
      (parsePacket exampleProcess ihl1Pkt).ipHeaderSize = 4 ∧
      word16 ihl1Pkt.mem (14 + 4 + 6) = 0 ∧
      word16 (rewritten exampleProcess ihl1Pkt (routeTo 50001 ![10, 0, 0, 1])) (14 + 4 + 6)
        = 44505) := by
  decide

/-- C5: the packet `goodPkt` has the nonzero UDP checksum 0xcc36, and after
the rewrite for the route to 10.0.122.16:50001 its UDP checksum field holds
0x0000: `updateUdpPacket` writes the computed value as it is and never puts
0xffff in its place. -/
theorem updateUdpPacket_writes_zero_udpChecksum :
    (parsePacket exampleProcess goodPkt).isUdpForMe = true ∧ ihl goodPkt = 5 ∧
    word16 goodPkt.mem (14 + 20 + 6) = 0xcc36 ∧
    word16 (rewritten exampleProcess goodPkt (routeTo 50001 ![10, 0, 122, 16])) (14 + 20 + 6)
      = 0x0000 := by
  decide

/-- C6: for every UDP-for-us packet and every route, `updateUdpPacket` leaves
every byte at an L2 offset of at least `allHeadersSize` as it was. -/
theorem updateUdpPacket_keeps_payload (p : Process) (pkt : NetioPkt) (rt : Route)
    (hudp : (parsePacket p pkt).isUdpForMe = true) (a : Nat)
    (ha : (parsePacket p pkt).allHeadersSize ≤ a) :
    rewritten p pkt rt a = pkt.mem a := by
  have h2 := parsePacket_l2Data p pkt
  have h3 := parsePacket_l3Data p pkt
  have h4 := parsePacket_ipHeaderSize p pkt hudp
  have h5 := parsePacket_allHeadersSize p pkt hudp
  rw [h5] at ha
  unfold rewritten
  apply updateUdpPacket_frame <;> (try rw [h3]) <;> (try rw [h4]) <;> (try rw [h2]) <;>
    split_ifs at ha <;> omega

/-- C6, witness: the first payload byte (L2 offset 42) of `goodPkt`. -/
theorem updateUdpPacket_keeps_payload_witness :
    rewritten exampleProcess goodPkt (routeTo 50001 ![10, 0, 0, 1]) 42 = goodPkt.mem 42 :=
  updateUdpPacket_keeps_payload exampleProcess goodPkt (routeTo 50001 ![10, 0, 0, 1])
    (by decide) 42 (by decide)

/-! ## The route table: claims C7 to C10 -/

theorem routeLimit_eq : routeLimit = 3840 := by decide

theorem getD_setD {α : Type} (a : Array α) (i j : Nat) (v d : α) :
    (a.setD i v).getD j d = if j = i ∧ i < a.size then v else a.getD j d := by
  unfold Array.setD
  split
  · rename_i h
    by_cases hji : j = i
    · subst hji; simp [Array.getD, h]
    · have hij : ¬ (i = j) := fun e => hji e.symm
      simp only [Array.getD, Array.size_set, hji, false_and, if_false]
      split
      · rw [Array.get_eq_getElem, Array.get_eq_getElem, Array.getElem_set_ne]
        simpa using hij
      · rfl
  · rename_i h
    simp [h]

/-- Reading a slot after an assignment. -/
theorem RouteTable.get_set (t : RouteTable) (i j : Nat) (r : Route) :
    (t.set i r).get j = if j = i ∧ i < routeLimit then r else t.get j := by
  unfold RouteTable.get RouteTable.set
  simp only [getD_setD, t.size_eq]

/-- Two tables with the same slots are equal. -/
theorem RouteTable.ext_get (s t : RouteTable)
    (h : ∀ i, i < routeLimit → s.get i = t.get i) : s = t := by
  cases s with
  | mk a ha =>
    cases t with
    | mk b hb =>
      have hab : a = b := by
        apply Array.ext
        · rw [ha, hb]
        · intro i h1 h2
          have hi := h i (by rw [← ha]; exact h1)
          simp only [RouteTable.get, Array.getD, h1, h2, dif_pos, Array.get_eq_getElem] at hi
          exact hi
      subst hab
      rfl

/-- The loop of `routeInitialize` from round `n` on fills the slots from `n` on
and keeps the slots below `n`. -/
theorem routeInitializeLoop_get (k : Nat) : ∀ (n : Nat) (route : RouteTable),
    routeLimit - n = k → ∀ i, i < routeLimit →
    (routeInitializeLoop n route).get i =
      if n ≤ i then { index := (i : Int), poa := PORTOFFSET + (i : Int) } else route.get i := by
  induction k with
  | zero =>
    intro n route hk i hi
    rw [routeInitializeLoop, if_neg (by omega), if_neg (by omega)]
  | succ k ih =>
    intro n route hk i hi
    rw [routeInitializeLoop, if_pos (by omega)]
    simp only []
    rw [ih (n + 1) _ (by omega) i hi, RouteTable.get_set]
    by_cases h1 : n + 1 ≤ i
    · rw [if_pos h1, if_pos (by omega)]
    · rw [if_neg h1]
      by_cases h2 : i = n
      · subst h2
        rw [if_pos ⟨rfl, hi⟩, if_pos (le_refl _)]
      · rw [if_neg (by omega), if_neg (by omega)]

/-- After `routeInitialize` slot `i` holds index `i`, port `PORTOFFSET + i` and
zero in every other field. -/
theorem routeInitialize_get (route : RouteTable) (i : Nat) (hi : i < routeLimit) :
    (routeInitialize route).get i = { index := (i : Int), poa := PORTOFFSET + (i : Int) } := by
  unfold routeInitialize
  rw [routeInitializeLoop_get routeLimit 0 route rfl i hi, if_pos (Nat.zero_le _)]

/-- The slot that `routeOpen` and `routeClose` address is inside the table. -/
theorem InRange.toNat_lt {poa : Int} (h : InRange poa) :
    (poa - PORTOFFSET).toNat < routeLimit := by
  rw [routeLimit_eq]; unfold InRange at h; omega

theorem InRange.guard {poa : Int} (h : InRange poa) :
    poa - PORTOFFSET ≥ 0 ∧ poa - PORTOFFSET < (routeLimit : Int) := by
  rw [routeLimit_eq]; unfold InRange at h; exact ⟨h.1, by simpa using h.2⟩

theorem InRange.of_guard {poa : Int}
    (h : poa - PORTOFFSET ≥ 0 ∧ poa - PORTOFFSET < (routeLimit : Int)) : InRange poa := by
  rw [routeLimit_eq] at h; exact ⟨h.1, by simpa using h.2⟩

/-- The effect of `routeOpen` with a port of arrival in range, slot by slot. -/
theorem routeOpen_get (t : RouteTable) (r : Route) (h : InRange r.poa) :
    ∃ t', routeOpen t r = some t' ∧ ∀ j, t'.get j =
      if j = (r.poa - PORTOFFSET).toNat
      then { t.get (r.poa - PORTOFFSET).toNat with dst := r.dst, «open» := 1 }
      else t.get j := by
  have hidx := h.toNat_lt
  refine ⟨_, by unfold routeOpen; simp only []; rw [if_pos h.guard], fun j => ?_⟩
  by_cases hj : j = (r.poa - PORTOFFSET).toNat
  · subst hj
    simp only [RouteTable.get_set, hidx, and_self, if_true]
  · simp only [RouteTable.get_set, hj, false_and, if_false]

/-- The effect of `routeClose` with a port of arrival in range on a table that
satisfies the invariant, slot by slot. -/
theorem routeClose_get (t : RouteTable) (r : Route) (h : InRange r.poa) (hinv : TableInv t) :
    ∃ t', routeClose t r = some t' ∧ ∀ j, t'.get j =
      if j = (r.poa - PORTOFFSET).toNat
      then { t.get (r.poa - PORTOFFSET).toNat with «open» := 0 }
      else t.get j := by
  have hidx := h.toNat_lt
  have hpoa : r.poa = (t.get (r.poa - PORTOFFSET).toNat).poa := by
    rw [(hinv _ hidx).2]; unfold InRange at h; omega
  refine ⟨_, by
    unfold routeClose
    simp only [decide_eq_true_eq]
    rw [if_neg (not_not.mpr h.guard), if_pos hpoa], fun j => ?_⟩
  rw [RouteTable.get_set]
  by_cases hj : j = (r.poa - PORTOFFSET).toNat
  · rw [if_pos ⟨hj, hidx⟩, if_pos hj]
  · rw [if_neg (fun hc => hj hc.1), if_neg hj]

theorem routeInitialize_inv (route : RouteTable) : TableInv (routeInitialize route) := by
  intro i hi
  rw [routeInitialize_get route i hi]
  exact ⟨rfl, rfl⟩

theorem RouteCall.run_inv (t : RouteTable) (c : RouteCall) (h : InRange c.arg.poa)
    (hinv : TableInv t) : ∃ t', c.run t = some t' ∧ TableInv t' := by
  cases c with
  | routeOpen r =>
    obtain ⟨t', h1, h2⟩ := routeOpen_get t r h
    refine ⟨t', h1, fun i hi => ?_⟩
    rw [h2 i]
    split
    · rename_i hj
      have := hinv _ h.toNat_lt
      subst hj
      exact this
    · exact hinv i hi
  | routeClose r =>
    obtain ⟨t', h1, h2⟩ := routeClose_get t r h hinv
    refine ⟨t', h1, fun i hi => ?_⟩
    rw [h2 i]
    split
    · rename_i hj
      have := hinv _ h.toNat_lt
      subst hj
      exact this
    · exact hinv i hi

/-- Calls with ports of arrival in range never fail and keep the invariant. -/
theorem runCalls_inv (calls : List RouteCall) : ∀ (t : RouteTable),
    (∀ c ∈ calls, InRange c.arg.poa) → TableInv t →
    ∃ t', runCalls t calls = some t' ∧ TableInv t' := by
  induction calls with
  | nil => intro t _ hinv; exact ⟨t, rfl, hinv⟩
  | cons c cs ih =>
    intro t h hinv
    obtain ⟨t1, h1, hinv1⟩ := c.run_inv t (h c (List.mem_cons_self _ _)) hinv
    obtain ⟨t2, h2, hinv2⟩ := ih t1 (fun d hd => h d (List.mem_cons_of_mem _ hd)) hinv1
    exact ⟨t2, by simp only [runCalls, h1, h2], hinv2⟩

/-- C7: after `routeInitialize` followed by any sequence of `routeOpen` and
`routeClose` calls whose ports of arrival are in range, no call has failed and
every slot `i` in `[0, 3840)` has index `i` and port of arrival
`PORTOFFSET + i`. -/
theorem routeTable_index_poa_invariant (t0 : RouteTable) (calls : List RouteCall)
    (h : ∀ c ∈ calls, InRange c.arg.poa) :
    ∃ t, runCalls (routeInitialize t0) calls = some t ∧
      ∀ i : Nat, i < 3840 →
        (t.get i).index = (i : Int) ∧ (t.get i).poa = PORTOFFSET + (i : Int) := by
  obtain ⟨t, h1, hinv⟩ := runCalls_inv calls (routeInitialize t0) h (routeInitialize_inv t0)
  exact ⟨t, h1, fun i hi => hinv i (by rw [routeLimit_eq]; exact hi)⟩

/-- C7, witness: open the route from port 50007, then close it. -/
theorem routeTable_index_poa_invariant_witness :
    ∃ t, runCalls (routeInitialize zeroTable)
        [.routeOpen { poa := 50007, dst := { port := 50001, ip := ![10, 0, 0, 1] } },
         .routeClose { poa := 50007 }] = some t ∧
      ∀ i : Nat, i < 3840 →
        (t.get i).index = (i : Int) ∧ (t.get i).poa = PORTOFFSET + (i : Int) :=
  routeTable_index_poa_invariant zeroTable
    [.routeOpen { poa := 50007, dst := { port := 50001, ip := ![10, 0, 0, 1] } },
     .routeClose { poa := 50007 }] (by decide)

/-- C8: on a table that was initialized and then changed by any opens and
closes in range, `routeFromPortOfArrival poa` is the stored slot
`poa - PORTOFFSET`, with index `poa - 50000 ≥ 0`, for every `poa` in
`[50000, 53840)`, and a route with index `-1` for every other `poa`. -/
theorem routeFromPortOfArrival_lookup (t0 : RouteTable) (calls : List RouteCall)
    (h : ∀ c ∈ calls, InRange c.arg.poa) :
    ∃ t, runCalls (routeInitialize t0) calls = some t ∧
      (∀ poa : Int, 50000 ≤ poa → poa < 53840 →
        routeFromPortOfArrival t poa = t.get (poa - PORTOFFSET).toNat ∧
        (routeFromPortOfArrival t poa).index = poa - 50000 ∧
        0 ≤ (routeFromPortOfArrival t poa).index) ∧
      (∀ poa : Int, poa < 50000 ∨ 53840 ≤ poa →
        (routeFromPortOfArrival t poa).index = -1) := by
  obtain ⟨t, h1, hinv⟩ := runCalls_inv calls (routeInitialize t0) h (routeInitialize_inv t0)
  refine ⟨t, h1, fun poa hlo hhi => ?_, fun poa hout => ?_⟩
  · have hr : InRange poa := ⟨by unfold PORTOFFSET; omega, by unfold PORTOFFSET; omega⟩
    have hslot := hinv _ hr.toNat_lt
    have hpoa : poa = (t.get (poa - PORTOFFSET).toNat).poa := by
      rw [hslot.2]; unfold PORTOFFSET; omega
    have e : routeFromPortOfArrival t poa = t.get (poa - PORTOFFSET).toNat := by
      unfold routeFromPortOfArrival
      simp only [decide_eq_true_eq]
      rw [if_pos hr.guard, if_pos hpoa]
    rw [e, hslot.1]
    refine ⟨rfl, ?_, ?_⟩ <;> unfold PORTOFFSET <;> omega
  · have hn : ¬ (poa - PORTOFFSET ≥ 0 ∧ poa - PORTOFFSET < (routeLimit : Int)) := by
      intro hc
      have := InRange.of_guard hc
      unfold InRange PORTOFFSET at this
      omega
    unfold routeFromPortOfArrival
    simp only [decide_eq_true_eq]
    rw [if_neg hn]

/-- C8, witness: the table after opening the route from port 50007. -/
theorem routeFromPortOfArrival_lookup_witness :
    ∃ t, runCalls (routeInitialize zeroTable)
        [.routeOpen { poa := 50007, dst := { port := 50001, ip := ![10, 0, 0, 1] } }] = some t ∧
      (∀ poa : Int, 50000 ≤ poa → poa < 53840 →
        routeFromPortOfArrival t poa = t.get (poa - PORTOFFSET).toNat ∧
        (routeFromPortOfArrival t poa).index = poa - 50000 ∧
        0 ≤ (routeFromPortOfArrival t poa).index) ∧
      (∀ poa : Int, poa < 50000 ∨ 53840 ≤ poa →
        (routeFromPortOfArrival t poa).index = -1) :=
  routeFromPortOfArrival_lookup zeroTable
    [.routeOpen { poa := 50007, dst := { port := 50001, ip := ![10, 0, 0, 1] } }] (by decide)

/-- C9: for every route `r` whose `r.poa - PORTOFFSET` lies in `[0, 3840)`,
`routeOpen r` succeeds, afterwards the slot `r.poa - PORTOFFSET` has the
destination of `r` and is open, its index and port of arrival are as before,
and every other slot is as before. -/
theorem routeOpen_sets_slot (t : RouteTable) (r : Route) (h : InRange r.poa) :
    ∃ t', routeOpen t r = some t' ∧
      (t'.get (r.poa - PORTOFFSET).toNat).dst = r.dst ∧
      (t'.get (r.poa - PORTOFFSET).toNat).«open» = 1 ∧
      (t'.get (r.poa - PORTOFFSET).toNat).index = (t.get (r.poa - PORTOFFSET).toNat).index ∧
      (t'.get (r.poa - PORTOFFSET).toNat).poa = (t.get (r.poa - PORTOFFSET).toNat).poa ∧
      ∀ j, j ≠ (r.poa - PORTOFFSET).toNat → t'.get j = t.get j := by
  obtain ⟨t', h1, h2⟩ := routeOpen_get t r h
  refine ⟨t', h1, ?_, ?_, ?_, ?_, fun j hj => ?_⟩
  · rw [h2, if_pos rfl]
  · rw [h2, if_pos rfl]
  · rw [h2, if_pos rfl]
  · rw [h2, if_pos rfl]
  · rw [h2, if_neg hj]

/-- C9, witness: open the route from port 50000 to 10.0.0.1:50001 on the zero
table. -/
theorem routeOpen_sets_slot_witness :
    ∃ t', routeOpen zeroTable (routeTo 50001 ![10, 0, 0, 1]) = some t' ∧
      (t'.get ((routeTo 50001 ![10, 0, 0, 1]).poa - PORTOFFSET).toNat).dst
        = (routeTo 50001 ![10, 0, 0, 1]).dst ∧
      (t'.get ((routeTo 50001 ![10, 0, 0, 1]).poa - PORTOFFSET).toNat).«open» = 1 ∧
      (t'.get ((routeTo 50001 ![10, 0, 0, 1]).poa - PORTOFFSET).toNat).index
        = (zeroTable.get ((routeTo 50001 ![10, 0, 0, 1]).poa - PORTOFFSET).toNat).index ∧
      (t'.get ((routeTo 50001 ![10, 0, 0, 1]).poa - PORTOFFSET).toNat).poa
        = (zeroTable.get ((routeTo 50001 ![10, 0, 0, 1]).poa - PORTOFFSET).toNat).poa ∧
      ∀ j, j ≠ ((routeTo 50001 ![10, 0, 0, 1]).poa - PORTOFFSET).toNat →
        t'.get j = zeroTable.get j :=
  routeOpen_sets_slot zeroTable (routeTo 50001 ![10, 0, 0, 1]) (by decide)

/-- C10: on a table that was initialized and then changed by any opens and
closes in range, for every route `r` whose `r.poa - PORTOFFSET` lies in
`[0, 3840)`, `routeClose r` succeeds and changes nothing but the open flag of
the slot `r.poa - PORTOFFSET`, which becomes 0 (the destination stays), and a
second `routeClose r` returns the very table the first one left. -/
theorem routeClose_clears_open (t0 : RouteTable) (calls : List RouteCall)
    (h : ∀ c ∈ calls, InRange c.arg.poa) (r : Route) (hr : InRange r.poa) :
    ∃ t, runCalls (routeInitialize t0) calls = some t ∧
      ∃ t1, routeClose t r = some t1 ∧
        t1.get (r.poa - PORTOFFSET).toNat
          = { t.get (r.poa - PORTOFFSET).toNat with «open» := 0 } ∧
        (∀ j, j ≠ (r.poa - PORTOFFSET).toNat → t1.get j = t.get j) ∧
        routeClose t1 r = some t1 := by
  obtain ⟨t, h1, hinv⟩ := runCalls_inv calls (routeInitialize t0) h (routeInitialize_inv t0)
  obtain ⟨t1, h2, hget⟩ := routeClose_get t r hr hinv
  obtain ⟨t1', h2', hinv1⟩ := RouteCall.run_inv t (.routeClose r) hr hinv
  have e1 : t1' = t1 := by
    have : some t1' = some t1 := by rw [← h2', ← h2]; rfl
    exact Option.some.inj this
  subst e1
  obtain ⟨t2, h3, hget2⟩ := routeClose_get t1' r hr hinv1
  have e2 : t2 = t1' := by
    apply RouteTable.ext_get
    intro j _
    rw [hget2 j]
    split
    · rename_i hj
      subst hj
      rw [hget, if_pos rfl]
    · rfl
  subst e2
  refine ⟨t, h1, t2, h2, ?_, fun j hj => ?_, h3⟩
  · rw [hget, if_pos rfl]
  · rw [hget, if_neg hj]

/-- C10, witness: close the route from port 50007 after it was opened. -/
theorem routeClose_clears_open_witness :
    ∃ t, runCalls (routeInitialize zeroTable)
        [.routeOpen { poa := 50007, dst := { port := 50001, ip := ![10, 0, 0, 1] } }] = some t ∧
      ∃ t1, routeClose t { poa := 50007 } = some t1 ∧
        t1.get ((50007 : Int) - PORTOFFSET).toNat
          = { t.get ((50007 : Int) - PORTOFFSET).toNat with «open» := 0 } ∧
        (∀ j, j ≠ ((50007 : Int) - PORTOFFSET).toNat → t1.get j = t.get j) ∧
        routeClose t1 { poa := 50007 } = some t1 :=
  routeClose_clears_open zeroTable
    [.routeOpen { poa := 50007, dst := { port := 50001, ip := ![10, 0, 0, 1] } }] (by decide)
    { poa := 50007 } (by decide)

/-! ## Packet classification and the initial table: claims C11, C17 and C18 -/

theorem and_f0_shr (x : Nat) (hx : x < 256) : (0xf0 &&& x) >>> 4 = x / 16 := by
  have h : (0xf0 : Nat) = (2 ^ 4 - 1) <<< 4 := by decide
  rw [h]
  apply Nat.eq_of_testBit_eq
  intro j
  rw [Nat.testBit_shiftRight, Nat.testBit_and, Nat.testBit_shiftLeft,
    ← Nat.shiftRight_eq_div_pow x 4, Nat.testBit_shiftRight, Nat.testBit_two_pow_sub_one]
  simp
  intro h1
  by_contra hj
  have h2 : x < 2 ^ (4 + j) := lt_of_lt_of_le hx (by
    calc 256 = 2 ^ 8 := by norm_num
      _ ≤ 2 ^ (4 + j) := Nat.pow_le_pow_right (by norm_num) (by omega))
  rw [Nat.testBit_lt_two_pow h2] at h1
  exact absurd h1 (by simp)

theorem parsePacket_isUdpForMe_eq (p : Process) (pkt : NetioPkt) :
    (parsePacket p pkt).isUdpForMe =
      (decide (pkt.l3Length > 20 + 8) && decide ((pkt.mem (pkt.l3Offset + 9)).val = 0x11) &&
        decide (((0xf0 &&& (pkt.mem (pkt.l3Offset + 0)).val) >>> 4) = 4) &&
        memcmpEq pkt.mem 0 p.forward.mac) := by
  unfold parsePacket; simp only []; split <;> rfl

/-- C17: for every frame, `parsePacket` sets `isUdpForMe` to true if and only
if all four hold: the L3 length is greater than 28, the high nibble of `L3[0]`
is 4, `L3[9]` equals 0x11, and the first 6 bytes of L2 equal
`process.forward.mac`. -/
theorem parsePacket_isUdpForMe_iff (p : Process) (pkt : NetioPkt) :
    (parsePacket p pkt).isUdpForMe = true ↔
      (pkt.l3Length > 28 ∧ (pkt.mem pkt.l3Offset).val / 16 = 4 ∧
        (pkt.mem (pkt.l3Offset + 9)).val = 0x11 ∧
        ∀ i : Fin 6, pkt.mem i.val = p.forward.mac i) := by
  have hb := and_f0_shr (pkt.mem pkt.l3Offset).val (pkt.mem pkt.l3Offset).isLt
  rw [parsePacket_isUdpForMe_eq]
  simp only [Bool.and_eq_true, decide_eq_true_eq, memcmpEq, Nat.add_zero, Nat.zero_add, hb]
  constructor
  · intro h
    exact ⟨h.1.1.1, h.1.2, h.1.1.2, h.2⟩
  · intro h
    exact ⟨⟨⟨h.1, h.2.2.1⟩, h.2.1⟩, h.2.2.2⟩

/-- C18 (amended): for every frame that `parsePacket` classifies as
UDP-for-us, with `eth_hdr = L3 - L2`: `ipHeaderSize == 4 * (L3[0] & 0x0f)`,
`allHeadersSize == eth_hdr + max(ipHeaderSize, 20) + 8`, and
`poa == (L3[ipHeaderSize+2] << 8) | L3[ipHeaderSize+3]`. -/
theorem parsePacket_sizes_and_poa (p : Process) (pkt : NetioPkt)
    (hudp : (parsePacket p pkt).isUdpForMe = true) :
    (parsePacket p pkt).ipHeaderSize = 4 * (0x0f &&& (pkt.mem pkt.l3Offset).val) ∧
    (parsePacket p pkt).allHeadersSize
      = pkt.l3Offset + max (parsePacket p pkt).ipHeaderSize 20 + 8 ∧
    (parsePacket p pkt).poa
      = (((pkt.mem (pkt.l3Offset + (parsePacket p pkt).ipHeaderSize + 2)).val <<< 8 |||
          (pkt.mem (pkt.l3Offset + (parsePacket p pkt).ipHeaderSize + 3)).val : Nat) : Int) := by
  have h4 := parsePacket_ipHeaderSize p pkt hudp
  have h5 := parsePacket_allHeadersSize p pkt hudp
  have h6 := parsePacket_poa p pkt hudp
  refine ⟨?_, ?_, ?_⟩
  · rw [h4, and_0f_left]; rfl
  · rw [h5, h4]
    split <;> omega
  · rw [h6, h4, ← word_eq]
    rfl

theorem parsePacket_sizes_and_poa_witness :
    (parsePacket exampleProcess goodPkt).ipHeaderSize
      = 4 * (0x0f &&& (goodPkt.mem goodPkt.l3Offset).val) ∧
    (parsePacket exampleProcess goodPkt).allHeadersSize
      = goodPkt.l3Offset + max (parsePacket exampleProcess goodPkt).ipHeaderSize 20 + 8 ∧
    (parsePacket exampleProcess goodPkt).poa
      = (((goodPkt.mem (goodPkt.l3Offset + (parsePacket exampleProcess goodPkt).ipHeaderSize
            + 2)).val <<< 8 |||
          (goodPkt.mem (goodPkt.l3Offset + (parsePacket exampleProcess goodPkt).ipHeaderSize
            + 3)).val : Nat) : Int) :=
  parsePacket_sizes_and_poa exampleProcess goodPkt (by decide)

theorem parsePacket_sizes_and_poa_counterexample :
    (parsePacket exampleProcess ihl4Pkt).isUdpForMe = true ∧
    (parsePacket exampleProcess ihl4Pkt).ipHeaderSize = 16 ∧
    ihl4Pkt.l3Offset = 14 ∧
    (parsePacket exampleProcess ihl4Pkt).allHeadersSize = 42 ∧
    (parsePacket exampleProcess ihl4Pkt).allHeadersSize
      ≠ ihl4Pkt.l3Offset + (parsePacket exampleProcess ihl4Pkt).ipHeaderSize + 8 := by
  decide

/-- C11 (amended): after `routeInitialize`, every slot `n` in `[0, 3840)`
holds `index == n`, `poa == PORTOFFSET + n`, `dst.port == 0` (the zeroed
destination) and `open == false`. -/
theorem routeInitialize_slots (route : RouteTable) (n : Nat) (hn : n < 3840) :
    ((routeInitialize route).get n).index = (n : Int) ∧
    ((routeInitialize route).get n).poa = PORTOFFSET + (n : Int) ∧
    ((routeInitialize route).get n).dst.port = 0 ∧
    ((routeInitialize route).get n).«open» = 0 := by
  rw [routeInitialize_get route n (by rw [routeLimit_eq]; exact hn)]
  exact ⟨rfl, rfl, rfl, rfl⟩

theorem routeInitialize_slots_witness :
    ((routeInitialize zeroTable).get 7).index = ((7 : Nat) : Int) ∧
    ((routeInitialize zeroTable).get 7).poa = PORTOFFSET + ((7 : Nat) : Int) ∧
    ((routeInitialize zeroTable).get 7).dst.port = 0 ∧
    ((routeInitialize zeroTable).get 7).«open» = 0 :=
  routeInitialize_slots zeroTable 7 (by decide)

theorem routeInitialize_slots_counterexample :
    ((routeInitialize zeroTable).get 0).dst.port = 0 ∧
    ((routeInitialize zeroTable).get 0).dst.port ≠ -1 := by
  rw [routeInitialize_get zeroTable 0 (by decide)]
  exact ⟨rfl, by decide⟩

/-! ## Printing and scanning a route command -/

theorem digitChar_val (d : Nat) (hd : d < 16) :
    (digitChar d).val = if d < 10 then 48 + d else 87 + d := by
  unfold digitChar
  split
  · simp only [toUChar]; omega
  · simp only [toUChar]; omega

theorem digitVal_digitChar (base d : Nat) (hb : base ≤ 16) (hd : d < base) :
    digitVal base (digitChar d) = some d := by
  have hv := digitChar_val d (by omega)
  unfold digitVal
  by_cases h10 : d < 10
  · rw [if_pos h10] at hv
    rw [if_pos (by omega)]
    simp only [hv, Nat.add_sub_cancel_left]
    rw [if_pos hd]
  · rw [if_neg h10] at hv
    rw [if_neg (by omega), if_pos (by omega)]
    simp only [hv, Nat.add_sub_cancel_left]
    rw [if_pos hd]

theorem showDigits_eq (base : Nat) (hb : 2 ≤ base) :
    ∀ (n fuel : Nat) (acc : List UChar), n < fuel →
      showDigits base fuel n acc
        = (if n < base then [digitChar n]
           else showDigits base n (n / base) [digitChar (n % base)]) ++ acc := by
  intro n
  induction n using Nat.strong_induction_on with
  | _ n ih =>
    intro fuel acc hf
    obtain ⟨f, rfl⟩ : ∃ f, fuel = f + 1 := ⟨fuel - 1, by omega⟩
    by_cases hn : n < base
    · simp only [showDigits, if_pos hn, List.singleton_append]
    · have hlt : n / base < n := Nat.div_lt_self (by omega) (by omega)
      simp only [showDigits, if_neg hn]
      rw [ih (n / base) hlt f _ (by omega), ih (n / base) hlt n _ hlt]
      simp only [List.append_assoc, List.singleton_append]

theorem showNat_lt (base n : Nat) (hn : n < base) : showNat base n = [digitChar n] := by
  simp only [showNat, showDigits, if_pos hn]

theorem showNat_ge (base n : Nat) (hb : 2 ≤ base) (hn : ¬ n < base) :
    showNat base n = showNat base (n / base) ++ [digitChar (n % base)] := by
  have hlt : n / base < n := Nat.div_lt_self (by omega) (by omega)
  have h1 := showDigits_eq base hb n (n + 1) [] (by omega)
  rw [if_neg hn, List.append_nil] at h1
  have h2 := showDigits_eq base hb (n / base) n [digitChar (n % base)] hlt
  have h3 := showDigits_eq base hb (n / base) (n / base + 1) [] (by omega)
  rw [List.append_nil] at h3
  unfold showNat
  rw [h1, h2, h3]

theorem scanDigits_cons (base d : Nat) (hb : base ≤ 16) (hd : d < base) (cs : List UChar)
    (acc : Nat) :
    scanDigits base (digitChar d :: cs) acc = scanDigits base cs (acc * base + d) := by
  simp only [scanDigits, digitVal_digitChar base d hb hd]

theorem scanDigits_showNat (base : Nat) (hb : 2 ≤ base) (hb16 : base ≤ 16) :
    ∀ (n : Nat) (rest : List UChar) (acc : Nat),
      scanDigits base (showNat base n ++ rest) acc
        = scanDigits base rest (acc * base ^ (showNat base n).length + n) := by
  intro n
  induction n using Nat.strong_induction_on with
  | _ n ih =>
    intro rest acc
    by_cases hn : n < base
    · rw [showNat_lt base n hn, List.singleton_append, scanDigits_cons base n hb16 hn]
      simp
    · have hlt : n / base < n := Nat.div_lt_self (by omega) (by omega)
      rw [showNat_ge base n hb hn, List.append_assoc, ih (n / base) hlt,
        List.singleton_append,
        scanDigits_cons base (n % base) hb16 (Nat.mod_lt n (by omega))]
      congr 1
      rw [List.length_append, List.length_singleton, pow_succ]
      have hdm : n / base * base + n % base = n := Nat.div_add_mod' n base
      have e : ∀ a p q r : Nat, (a * p + q) * base + r = a * (p * base) + (q * base + r) := by
        intro a p q r; ring
      rw [e, hdm]

theorem scanDigits_stop (base : Nat) (rest : List UChar) (h : EndsNumber base rest) (acc : Nat) :
    scanDigits base rest acc = (acc, rest) := by
  cases rest with
  | nil => rfl
  | cons c cs => simp only [scanDigits, h c cs rfl]

theorem showNat_head (base n : Nat) (hb : 2 ≤ base) :
    ∃ d cs, d < base ∧ showNat base n = digitChar d :: cs := by
  induction n using Nat.strong_induction_on with
  | _ n ih =>
    by_cases hn : n < base
    · exact ⟨n, [], hn, showNat_lt base n hn⟩
    · have hlt : n / base < n := Nat.div_lt_self (by omega) (by omega)
      obtain ⟨d, cs, hd, h⟩ := ih (n / base) hlt
      exact ⟨d, cs ++ [digitChar (n % base)], hd, by rw [showNat_ge base n hb hn, h]; rfl⟩

theorem scanNat_showNat (base : Nat) (hb : 2 ≤ base) (hb16 : base ≤ 16) (n : Nat)
    (rest : List UChar) (h : EndsNumber base rest) :
    scanNat base (showNat base n ++ rest) = some (n, rest) := by
  obtain ⟨d, cs, hd, hs⟩ := showNat_head base n hb
  have h1 := scanDigits_showNat base hb hb16 n rest 0
  rw [scanDigits_stop base rest h] at h1
  simp only [Nat.zero_mul, Nat.zero_add] at h1
  rw [hs] at h1 ⊢
  simp only [scanNat, List.cons_append, digitVal_digitChar base d hb16 hd, Option.isSome_some,
    if_true]
  rw [← h1]
  rfl

theorem showNat_mem (base n : Nat) (hb : 2 ≤ base) :
    ∀ c ∈ showNat base n, ∃ d, d < base ∧ c = digitChar d := by
  induction n using Nat.strong_induction_on with
  | _ n ih =>
    intro c hc
    by_cases hn : n < base
    · rw [showNat_lt base n hn, List.mem_singleton] at hc
      exact ⟨n, hn, hc⟩
    · have hlt : n / base < n := Nat.div_lt_self (by omega) (by omega)
      rw [showNat_ge base n hb hn, List.mem_append, List.mem_singleton] at hc
      rcases hc with hc | hc
      · exact ih (n / base) hlt c hc
      · exact ⟨n % base, Nat.mod_lt n (by omega), hc⟩

theorem digitChar_range (d : Nat) (hd : d < 16) :
    48 ≤ (digitChar d).val ∧ (digitChar d).val ≤ 102 := by
  rw [digitChar_val d hd]
  split <;> omega

theorem isSpace_digitChar (d : Nat) (hd : d < 16) : isSpace (digitChar d) = false := by
  have h := digitChar_range d hd
  simp only [isSpace, decide_eq_false_iff_not]
  omega

theorem scanDec_showInt (x : Int) (rest : List UChar) (h : EndsNumber 10 rest) :
    scanDec (showInt x ++ rest) = some (x, rest) := by
  unfold showInt
  by_cases hx : x < 0
  · rw [if_pos hx]
    have hc : (toUChar 45).val = 45 := rfl
    simp only [List.cons_append, scanDec, hc, if_true,
      scanNat_showNat 10 (by decide) (by decide) _ rest h, Option.map_some']
    congr 2
    omega
  · rw [if_neg hx]
    obtain ⟨d, cs, hd, hs⟩ := showNat_head 10 x.toNat (by decide)
    have hr := digitChar_range d (by omega)
    have hn := scanNat_showNat 10 (by decide) (by decide) x.toNat rest h
    rw [hs] at hn ⊢
    simp only [List.cons_append] at hn ⊢
    simp only [scanDec]
    rw [if_neg (by omega), if_neg (by omega), hn]
    simp only [Option.map_some']
    congr 2
    omega

theorem skipHexPrefix_eq (inp : List UChar)
    (h : ∀ a b cs, inp = a :: b :: cs → b.val ≠ 120 ∧ b.val ≠ 88) : skipHexPrefix inp = inp := by
  unfold skipHexPrefix
  split
  · rename_i a b c cs
    have hb := h a b (c :: cs) rfl
    rw [if_neg]
    intro hh
    rcases hh.2.1 with h1 | h1
    · exact hb.1 h1
    · exact hb.2 h1
  · rfl

theorem scanHex_showNat (n : Nat) (hn : n < 4294967296) (rest : List UChar) (h : EndsHex rest) :
    scanHex (showNat 16 n ++ rest) = some ((n : Int), rest) := by
  obtain ⟨d, cs, hd, hs⟩ := showNat_head 16 n (by decide)
  have hr := digitChar_range d (by omega)
  have hmem := showNat_mem 16 n (by decide)
  have hsc := scanNat_showNat 16 (by decide) (by decide) n rest (fun c cs' e => (h c cs' e).1)
  have hskip : skipHexPrefix (showNat 16 n ++ rest) = showNat 16 n ++ rest := by
    apply skipHexPrefix_eq
    intro a b cs' e
    rw [hs] at e hmem
    simp only [List.cons_append, List.cons.injEq] at e
    cases cs with
    | nil =>
      simp only [List.nil_append] at e
      exact (h b cs' e.2).2
    | cons c cs'' =>
      simp only [List.cons_append, List.cons.injEq] at e
      obtain ⟨d', hd', hc⟩ := hmem c (by simp)
      have hr' := digitChar_val d' (by omega)
      rw [← e.2.1, hc, hr']
      split <;> omega
  rw [hs] at hsc hskip ⊢
  simp only [List.cons_append] at hsc hskip ⊢
  simp only [scanHex]
  rw [if_neg (by omega), if_neg (by omega), hskip, hsc]
  simp only [Option.map_some']
  congr 2
  simp only [toUnsigned]
  omega

theorem dropWhile_isSpace_idem (l : List UChar) :
    (l.dropWhile isSpace).dropWhile isSpace = l.dropWhile isSpace := by
  induction l with
  | nil => rfl
  | cons c cs ih =>
    by_cases hc : isSpace c = true
    · simp only [List.dropWhile_cons_of_pos hc, ih]
    · simp only [List.dropWhile_cons_of_neg hc]

theorem dropWhile_showNat (base n : Nat) (hb : 2 ≤ base) (hb16 : base ≤ 16)
    (rest : List UChar) :
    (showNat base n ++ rest).dropWhile isSpace = showNat base n ++ rest := by
  obtain ⟨d, cs, hd, hs⟩ := showNat_head base n hb
  rw [hs, List.cons_append, List.dropWhile_cons_of_neg]
  rw [isSpace_digitChar d (by omega)]
  simp

theorem dropWhile_showInt (x : Int) (rest : List UChar) :
    (showInt x ++ rest).dropWhile isSpace = showInt x ++ rest := by
  unfold showInt
  split
  · rw [List.cons_append, List.dropWhile_cons_of_neg]
    decide
  · exact dropWhile_showNat 10 _ (by decide) (by decide) rest

theorem sscanfLoop_dec (ds : List Directive) (inp rest : List UChar) (vals : List Int)
    (v : Int) (h : scanDec (inp.dropWhile isSpace) = some (v, rest)) :
    sscanfLoop (.dec :: ds) inp vals = sscanfLoop ds rest (vals ++ [v]) := by
  rw [sscanfLoop, h]

theorem sscanfLoop_hex (ds : List Directive) (inp rest : List UChar) (vals : List Int)
    (v : Int) (h : scanHex (inp.dropWhile isSpace) = some (v, rest)) :
    sscanfLoop (.hex :: ds) inp vals = sscanfLoop ds rest (vals ++ [v]) := by
  rw [sscanfLoop, h]

theorem sscanfLoop_sprintf :
    ∀ (ds : List Directive), Delimited ds = true →
      ∀ (args vals : List Int) (rest inp : List UChar), ArgsOk (convs ds) args →
        (inp = sprintf ds args ++ rest ∨ inp = (sprintf ds args ++ rest).dropWhile isSpace) →
        sscanfLoop ds inp vals
          = { count := ((vals ++ args).length : Nat), vals := vals ++ args } := by
  intro ds
  induction ds with
  | nil =>
    intro _ args vals rest inp ha _
    simp only [convs, ArgsOk] at ha
    subst ha
    simp only [sscanfLoop, List.append_nil]
  | cons d ds ih =>
    intro hd args vals rest inp ha hinp
    cases d with
    | lit c =>
      simp only [Delimited] at hd
      simp only [convs] at ha
      simp only [sprintf, List.cons_append] at hinp
      by_cases hc : isSpace c = true
      · simp only [sscanfLoop, hc, if_true]
        apply ih hd args vals rest _ ha
        right
        rcases hinp with h | h
        · rw [h, List.dropWhile_cons_of_pos hc]
        · rw [h, List.dropWhile_cons_of_pos hc, dropWhile_isSpace_idem]
      · rw [List.dropWhile_cons_of_neg hc, or_self] at hinp
        subst hinp
        simp only [sscanfLoop, hc, if_true, Bool.false_eq_true, if_false]
        exact ih hd args vals rest _ ha (Or.inl rfl)
    | dec =>
      cases args with
      | nil => simp only [convs, ArgsOk] at ha
      | cons a args =>
        simp only [convs, ArgsOk] at ha
        simp only [sprintf, List.headD_cons, List.tail_cons, List.append_assoc] at hinp
        rw [dropWhile_showInt, or_self] at hinp
        subst hinp
        cases ds with
        | nil => simp [Delimited] at hd
        | cons d2 ds2 =>
          cases d2 with
          | lit c =>
            simp only [Delimited, Bool.and_eq_true, Option.isNone_iff_eq_none] at hd
            have hend : EndsNumber 10 (sprintf (.lit c :: ds2) args ++ rest) := by
              intro c' cs' e
              simp only [sprintf, List.cons_append, List.cons.injEq] at e
              rw [← e.1]
              exact hd.1
            rw [sscanfLoop_dec _ _ _ _ a (by rw [dropWhile_showInt, scanDec_showInt a _ hend])]
            rw [ih (by simpa [Delimited] using hd.2) args (vals ++ [a]) rest _ ha (Or.inl rfl)]
            simp
          | dec => simp [Delimited] at hd
          | hex => simp [Delimited] at hd
    | hex =>
      cases args with
      | nil => simp only [convs, ArgsOk] at ha
      | cons a args =>
        simp only [convs, ArgsOk] at ha
        have hu : ((toUnsigned a : Nat) : Int) = a := by
          simp only [toUnsigned]; omega
        have hlt : toUnsigned a < 4294967296 := by
          simp only [toUnsigned]; omega
        simp only [sprintf, List.headD_cons, List.tail_cons, List.append_assoc] at hinp
        rw [dropWhile_showNat 16 _ (by decide) (by decide), or_self] at hinp
        subst hinp
        cases ds with
        | nil => simp [Delimited] at hd
        | cons d2 ds2 =>
          cases d2 with
          | lit c =>
            simp only [Delimited, Bool.and_eq_true, Option.isNone_iff_eq_none,
              decide_eq_true_eq] at hd
            have hend : EndsHex (sprintf (.lit c :: ds2) args ++ rest) := by
              intro c' cs' e
              simp only [sprintf, List.cons_append, List.cons.injEq] at e
              rw [← e.1]
              exact ⟨hd.1.1.1, hd.1.1.2, hd.1.2⟩
            rw [sscanfLoop_hex _ _ _ _ a (by
              rw [dropWhile_showNat 16 _ (by decide) (by decide), scanHex_showNat _ hlt _ hend,
                hu])]
            rw [ih (by simpa [Delimited] using hd.2) args (vals ++ [a]) rest _ ha.2.2
              (Or.inl rfl)]
            simp
          | dec => simp [Delimited] at hd
          | hex => simp [Delimited] at hd

theorem routeFormat_delimited : Delimited (parseFormat (cstr JSONROUTEFMT)) = true := by
  decide

theorem routeFormat_convs :
    convs (parseFormat (cstr JSONROUTEFMT))
      = [.dec, .dec, .dec, .dec, .dec, .dec, .hex, .hex, .hex, .hex, .hex, .hex] := by
  decide

set_option maxRecDepth 10000 in
theorem routeFormat_length : (parseFormat (cstr JSONROUTEFMT)).length = 137 := by
  decide

set_option maxRecDepth 10000 in
theorem routeFormat_lits :
    ∀ d ∈ parseFormat (cstr JSONROUTEFMT), d ≠ Directive.lit 0 := by
  decide

theorem routeArgs_ok (r : Route) :
    ArgsOk (convs (parseFormat (cstr JSONROUTEFMT))) (routeArgs r) := by
  rw [routeFormat_convs]
  simp only [routeArgs, ArgsOk, and_true]
  have h0 := (r.dst.mac 0).isLt
  have h1 := (r.dst.mac 1).isLt
  have h2 := (r.dst.mac 2).isLt
  have h3 := (r.dst.mac 3).isLt
  have h4 := (r.dst.mac 4).isLt
  have h5 := (r.dst.mac 5).isLt
  omega

theorem sscanf_routeText (r : Route) :
    sscanf (sprintf (parseFormat (cstr JSONROUTEFMT)) (routeArgs r)) JSONROUTEFMT
      = { count := 12, vals := routeArgs r } := by
  unfold sscanf
  rw [sscanfLoop_sprintf _ routeFormat_delimited (routeArgs r) [] [] _ (routeArgs_ok r)
    (Or.inl (List.append_nil _).symm)]
  rfl

theorem toUChar_byte (b : UChar) : toUChar (toUnsigned ((b.val : Nat) : Int)) = b := by
  apply Fin.ext
  have h := b.isLt
  simp only [toUChar, toUnsigned]
  omega

theorem routeFromString_routeText (r : Route) :
    routeFromString (routeText r) = some (command r) := by
  unfold routeFromString routeText
  rw [sscanf_routeText]
  simp only [if_true, command, Option.some.injEq]
  have hip : (fun n : Fin 4 => toUChar (toUnsigned ((routeArgs r).getD (2 + n.val) 0)))
      = r.dst.ip := by
    funext n
    fin_cases n <;> exact toUChar_byte _
  have hmac : (fun n : Fin 6 => toUChar (toUnsigned ((routeArgs r).getD (6 + n.val) 0)))
      = r.dst.mac := by
    funext n
    fin_cases n <;> exact toUChar_byte _
  rw [hip, hmac]
  rfl

theorem showNat_length_le (base : Nat) (hb : 2 ≤ base) :
    ∀ (k n : Nat), n < base ^ (k + 1) → (showNat base n).length ≤ k + 1 := by
  intro k
  induction k with
  | zero =>
    intro n hn
    rw [showNat_lt base n (by simpa using hn)]
    simp
  | succ k ih =>
    intro n hn
    by_cases hlt : n < base
    · rw [showNat_lt base n hlt]
      simp
    · rw [showNat_ge base n hb hlt, List.length_append, List.length_singleton]
      have : n / base < base ^ (k + 1) := by
        rw [Nat.div_lt_iff_lt_mul (by omega)]
        rw [pow_succ] at hn
        exact hn
      have := ih (n / base) this
      omega

theorem showInt_length_le (x : Int) (h1 : -2147483648 ≤ x) (h2 : x < 2147483648) :
    (showInt x).length ≤ 11 := by
  unfold showInt
  split
  · have := showNat_length_le 10 (by decide) 9 (-x).toNat (by norm_num; omega)
    simp only [List.length_cons]
    omega
  · have := showNat_length_le 10 (by decide) 9 x.toNat (by norm_num; omega)
    omega

theorem showHex_length_le (x : Int) : (showNat 16 (toUnsigned x)).length ≤ 11 := by
  have : toUnsigned x < 16 ^ (7 + 1) := by
    simp only [toUnsigned]; norm_num; omega
  have := showNat_length_le 16 (by decide) 7 _ this
  omega

theorem sprintf_length_le :
    ∀ (ds : List Directive) (args : List Int),
      (∀ a ∈ args, -2147483648 ≤ a ∧ a < 2147483648) →
      (sprintf ds args).length ≤ ds.length + 10 * (convs ds).length := by
  intro ds
  induction ds with
  | nil => intro args _; simp [sprintf]
  | cons d ds ih =>
    intro args h
    have hhead : -2147483648 ≤ args.headD 0 ∧ args.headD 0 < 2147483648 := by
      cases args with
      | nil => simp
      | cons a as => exact h a (by simp)
    have htail : ∀ a ∈ args.tail, -2147483648 ≤ a ∧ a < 2147483648 :=
      fun a ha => h a (List.mem_of_mem_tail ha)
    cases d with
    | lit c =>
      have := ih args h
      simp only [sprintf, convs, List.length_cons]
      omega
    | dec =>
      have := ih args.tail htail
      have := showInt_length_le _ hhead.1 hhead.2
      simp only [sprintf, convs, List.length_cons, List.length_append]
      omega
    | hex =>
      have := ih args.tail htail
      have := showHex_length_le (args.headD 0)
      simp only [sprintf, convs, List.length_cons, List.length_append]
      omega

theorem showNat_nonzero (base n : Nat) (hb : 2 ≤ base) (hb16 : base ≤ 16) :
    ∀ c ∈ showNat base n, c.val ≠ 0 := by
  intro c hc
  obtain ⟨d, hd, rfl⟩ := showNat_mem base n hb c hc
  have := digitChar_range d (by omega)
  omega

theorem sprintf_nonzero :
    ∀ (ds : List Directive) (args : List Int), (∀ d ∈ ds, d ≠ Directive.lit 0) →
      ∀ c ∈ sprintf ds args, c.val ≠ 0 := by
  intro ds
  induction ds with
  | nil => intro args _ c hc; simp [sprintf] at hc
  | cons d ds ih =>
    intro args h c hc
    have hds : ∀ d ∈ ds, d ≠ Directive.lit 0 := fun d hd => h d (List.mem_cons_of_mem _ hd)
    cases d with
    | lit c0 =>
      simp only [sprintf, List.mem_cons] at hc
      rcases hc with hc | hc
      · intro h0
        have : c = 0 := Fin.ext h0
        exact h (.lit c0) (List.mem_cons_self _ _) (by rw [← hc, this])
      · exact ih args hds c hc
    | dec =>
      simp only [sprintf, List.mem_append] at hc
      rcases hc with hc | hc
      · unfold showInt at hc
        split at hc
        · simp only [List.mem_cons] at hc
          rcases hc with hc | hc
          · rw [hc]; decide
          · exact showNat_nonzero 10 _ (by decide) (by decide) c hc
        · exact showNat_nonzero 10 _ (by decide) (by decide) c hc
      · exact ih _ hds c hc
    | hex =>
      simp only [sprintf, List.mem_append] at hc
      rcases hc with hc | hc
      · exact showNat_nonzero 16 _ (by decide) (by decide) c hc
      · exact ih _ hds c hc

theorem showNat_length_pos (base n : Nat) (hb : 2 ≤ base) : 0 < (showNat base n).length := by
  obtain ⟨d, cs, _, hs⟩ := showNat_head base n hb
  rw [hs]
  simp

theorem sprintf_length_pos (ds : List Directive) (args : List Int) (h : ds ≠ []) :
    0 < (sprintf ds args).length := by
  cases ds with
  | nil => exact absurd rfl h
  | cons d ds =>
    cases d with
    | lit c => simp [sprintf]
    | dec =>
      simp only [sprintf, List.length_append]
      have : 0 < (showInt (args.headD 0)).length := by
        unfold showInt
        split
        · simp
        · exact showNat_length_pos 10 _ (by decide)
      omega
    | hex =>
      simp only [sprintf, List.length_append]
      have := showNat_length_pos 16 (toUnsigned (args.headD 0)) (by decide)
      omega

theorem routeText_length (r : Route) (h : IntFields r) :
    0 < (routeText r).length ∧ (routeText r).length ≤ 257 := by
  constructor
  · apply sprintf_length_pos
    intro hf
    have := routeFormat_length
    rw [hf] at this
    simp at this
  · have := sprintf_length_le (parseFormat (cstr JSONROUTEFMT)) (routeArgs r) (by
      intro a ha
      simp only [routeArgs, List.mem_cons, List.mem_singleton, List.not_mem_nil, or_false] at ha
      have h0 := (r.dst.mac 0).isLt
      have h1 := (r.dst.mac 1).isLt
      have h2 := (r.dst.mac 2).isLt
      have h3 := (r.dst.mac 3).isLt
      have h4 := (r.dst.mac 4).isLt
      have h5 := (r.dst.mac 5).isLt
      have i0 := (r.dst.ip 0).isLt
      have i1 := (r.dst.ip 1).isLt
      have i2 := (r.dst.ip 2).isLt
      have i3 := (r.dst.ip 3).isLt
      obtain ⟨⟨_, _⟩, ⟨_, _⟩⟩ := h
      rcases ha with ha | ha | ha | ha | ha | ha | ha | ha | ha | ha | ha | ha <;>
        (rw [ha]; omega))
    rw [routeFormat_length, routeFormat_convs] at this
    simpa [routeText] using this

theorem routeToString_eq (r : Route) (h : IntFields r) :
    routeToString r 999 = (((routeText r).length : Int) + 1, routeText r ++ [0]) := by
  have hl := routeText_length r h
  unfold routeToString
  simp only [routeText] at hl ⊢
  generalize sprintf (parseFormat (cstr JSONROUTEFMT)) (routeArgs r) = text at hl ⊢
  have ht : text.take (999 - 1) = text := List.take_of_length_le (by omega)
  have hok : decide (((text.length : Nat) : Int) > 0 ∧
      ((text.length : Nat) : Int) < ((999 : Nat) : Int)) = true := by
    rw [decide_eq_true_eq]; omega
  rw [ht, hok]
  rfl

theorem routeSendControl_eq (r : Route) (h : IntFields r) :
    routeSendControl r = [encodeInt ((routeText r).length + 1), routeText r ++ [0]] := by
  have hl := routeText_length r h
  unfold routeSendControl
  rw [routeToString_eq r h]
  simp only []
  rw [if_pos (by omega)]
  congr 2
  apply List.take_of_length_le
  simp only [List.length_append, List.length_singleton]
  omega

theorem cString_append (text rest : List UChar) (h : ∀ c ∈ text, c.val ≠ 0) :
    cString (text ++ (0 : UChar) :: rest) = text := by
  unfold cString
  induction text with
  | nil => simp
  | cons c cs ih =>
    have hc := h c (List.mem_cons_self _ _)
    simp only [List.cons_append]
    rw [List.takeWhile_cons_of_pos (by simpa using hc)]
    rw [ih (fun c hc => h c (List.mem_cons_of_mem _ hc))]

theorem cString_routeText (r : Route) : cString (routeText r ++ [0]) = routeText r :=
  cString_append _ [] (sprintf_nonzero _ _ routeFormat_lits)

theorem decodeInt_encodeInt (x : Int) (h1 : -2147483648 ≤ x) (h2 : x < 2147483648) :
    decodeInt (encodeInt x) = x := by
  unfold decodeInt encodeInt
  simp only [List.getD_cons_zero, List.getD_cons_succ, toUChar, toUnsigned]
  split <;> omega

/-! ## Frames on the control connection -/

theorem read_chunk (a b : List UChar) (rest : ReadFd) :
    read (.data (a ++ b) :: rest) a.length = ((a.length : Int), a, unread b rest) := by
  unfold read unread
  by_cases hb : b = []
  · subst hb
    simp
  · have : ¬ (a ++ b).length ≤ a.length := by
      have := List.length_pos.mpr hb
      simp only [List.length_append]
      omega
    simp only [this, if_false, hb, List.take_left', List.drop_left']

theorem encodeInt_length (x : Int) : (encodeInt x).length = 4 := rfl

theorem readControlStuff_chunk (a b : List UChar) (rest : ReadFd) (ha : a.length = 4) :
    readControlStuff (.data (a ++ b) :: rest) 4 = (4, a, unread b rest) := by
  have hr := read_chunk a b rest
  rw [ha] at hr
  unfold readControlStuff
  simp only [readControlStuffLoop, hr]
  simp

theorem handleOneRoute_frame (p : Process) (route : RouteTable) (size : Int)
    (body more : List UChar) (rest : ReadFd) (h1 : 0 < size) (h2 : size ≤ 999)
    (hb : body.length = size.toNat) :
    handleOneRoute p route (.data (encodeInt size ++ (body ++ more)) :: rest)
      = match routeFromString (cString body) with
        | none => none
        | some rt =>
          match applyCommand route rt with
          | none => none
          | some route => some (0, { p with routeCount := p.routeCount + 1 }, route,
              unread more rest) := by
  have hne : body ≠ [] := by
    intro h; rw [h] at hb; simp at hb; omega
  have hu : unread (body ++ more) rest = .data (body ++ more) :: rest := by
    unfold unread
    rw [if_neg (by simp [hne])]
  have hr := read_chunk body more rest
  rw [hb] at hr
  have hsz : ((body.length : Nat) : Int) = size := by rw [hb]; omega
  unfold handleOneRoute
  rw [readControlStuff_chunk _ _ _ (encodeInt_length size)]
  simp only [if_true, decodeInt_encodeInt size (by omega) (by omega), hu, hr, hsz, applyCommand]
  rw [if_neg (by omega), if_neg (by omega), if_pos (by omega)]

theorem handleOneRoute_zero (p : Process) (route : RouteTable) (more : List UChar)
    (rest : ReadFd) :
    handleOneRoute p route (.data (encodeInt 0 ++ more) :: rest)
      = some (1, p, route, unread more rest) := by
  unfold handleOneRoute
  rw [readControlStuff_chunk _ _ _ (encodeInt_length 0)]
  simp only [if_true, decodeInt_encodeInt 0 (by omega) (by omega)]

theorem handleOneRoute_routeSendControl (p : Process) (route : RouteTable) (r : Route)
    (h : IntFields r) (more : List UChar) (rest : ReadFd) :
    handleOneRoute p route (.data ((routeSendControl r).flatten ++ more) :: rest)
      = match applyCommand route (command r) with
        | none => none
        | some route => some (0, { p with routeCount := p.routeCount + 1 }, route,
            unread more rest) := by
  have hl := routeText_length r h
  rw [routeSendControl_eq r h]
  simp only [List.flatten, List.append_nil]
  rw [List.append_assoc, handleOneRoute_frame p route _ _ more rest (by omega) (by omega) (by
    simp only [List.length_append, List.length_singleton]; omega)]
  rw [cString_routeText, routeFromString_routeText]

theorem applyCommand_command (route : RouteTable) (r : Route) :
    applyCommand route (command r) = (controlCall r).run route := by
  unfold applyCommand controlCall
  have : (command r).dst.port = r.dst.port := rfl
  rw [this]
  split <;> rfl

theorem controlStream_nil : controlStream [] = encodeInt 0 := by
  simp [controlStream, stopSwitch, List.flatten]

theorem controlStream_cons (r : Route) (rs : List Route) :
    controlStream (r :: rs) = (routeSendControl r).flatten ++ controlStream rs := by
  simp [controlStream, List.flatten]

theorem controlStream_ne_nil (rs : List Route) : controlStream rs ≠ [] := by
  unfold controlStream stopSwitch
  intro h
  have := congrArg List.length h
  simp [List.flatten, encodeInt_length] at this

theorem controlLoop_stream (rs : List Route) :
    ∀ (rounds : Nat) (p : Process) (route route' : RouteTable) (more : List UChar)
      (rest : ReadFd),
      (∀ r ∈ rs, IntFields r) → rs.length < rounds →
      runCalls route (rs.map controlCall) = some route' →
      controlLoop rounds p route (.data (controlStream rs ++ more) :: rest)
        = .returned ({ p with routeCount := p.routeCount + rs.length }, route',
            unread more rest) := by
  induction rs with
  | nil =>
    intro rounds p route route' more rest _ hr hrun
    obtain ⟨k, rfl⟩ : ∃ k, rounds = k + 1 := ⟨rounds - 1, by simp at hr; omega⟩
    simp only [List.map_nil, runCalls, Option.some.injEq] at hrun
    subst hrun
    rw [controlStream_nil]
    simp only [controlLoop, handleOneRoute_zero]
    simp
  | cons r rs ih =>
    intro rounds p route route' more rest hf hr hrun
    obtain ⟨k, rfl⟩ : ∃ k, rounds = k + 1 := ⟨rounds - 1, by simp at hr; omega⟩
    simp only [List.map_cons, runCalls] at hrun
    rw [controlStream_cons, List.append_assoc]
    simp only [controlLoop]
    rw [handleOneRoute_routeSendControl p route r (hf r (List.mem_cons_self _ _)),
      applyCommand_command]
    cases hc : (controlCall r).run route with
    | none => rw [hc] at hrun; simp at hrun
    | some r1 =>
      rw [hc] at hrun
      simp only [] at hrun ⊢
      have hu : unread (controlStream rs ++ more) rest
          = .data (controlStream rs ++ more) :: rest := by
        unfold unread
        rw [if_neg (by simp [controlStream_ne_nil rs])]
      rw [hu]
      simp only [ne_eq, not_true_eq_false, if_false]
      rw [ih k _ r1 route' more rest (fun r hr => hf r (List.mem_cons_of_mem _ hr))
        (by simp at hr; omega) hrun]
      simp only [List.length_cons, Nat.cast_add, Nat.cast_one]
      congr 3
      ring

/-! ## The control channel: claims C12 to C16 -/

/-- The effect of `handleOneRoute` on a frame that `routeSendControl` wrote
for a route with a port of arrival in range, on a table with the invariant. -/
theorem handleOneRoute_command (p : Process) (route : RouteTable) (r : Route)
    (hpoa : InRange r.poa) (hint : IntFields r) (hinv : TableInv route)
    (more : List UChar) (rest : ReadFd) :
    ∃ route', handleOneRoute p route (.data ((routeSendControl r).flatten ++ more) :: rest)
        = some (0, { p with routeCount := p.routeCount + 1 }, route', unread more rest) ∧
      ∀ j, route'.get j =
        if j = (r.poa - PORTOFFSET).toNat then
          (if r.dst.port > 0
            then { route.get (r.poa - PORTOFFSET).toNat with dst := r.dst, «open» := 1 }
            else { route.get (r.poa - PORTOFFSET).toNat with «open» := 0 })
        else route.get j := by
  rw [handleOneRoute_routeSendControl p route r hint]
  unfold applyCommand
  have hp : (command r).dst.port = r.dst.port := rfl
  rw [hp]
  by_cases hport : r.dst.port > 0
  · obtain ⟨t', h1, h2⟩ := routeOpen_get route (command r) hpoa
    rw [if_pos hport, h1]
    refine ⟨t', rfl, fun j => ?_⟩
    rw [h2 j]
    simp only [if_pos hport]
    rfl
  · obtain ⟨t', h1, h2⟩ := routeClose_get route (command r) hpoa hinv
    rw [if_neg hport, h1]
    refine ⟨t', rfl, fun j => ?_⟩
    rw [h2 j]
    simp only [if_neg hport]
    rfl

theorem openTable_inv : TableInv openTable := by
  intro i hi
  unfold openTable
  rw [RouteTable.get_set]
  split
  · rename_i h
    rw [h.1]
    exact ⟨rfl, rfl⟩
  · exact routeInitialize_inv zeroTable i hi

theorem openTable_slot : (openTable.get 0).«open» ≠ 0 := by
  unfold openTable
  rw [RouteTable.get_set, if_pos ⟨rfl, by decide⟩]
  decide

theorem openTable_get_zero : openTable.get 0 = routeTo 6000 ![10, 0, 0, 1] := by
  unfold openTable
  rw [RouteTable.get_set, if_pos ⟨rfl, by decide⟩]

/-- C12 (amended): for every route command that `routeSendControl` writes with
`from` in `[50000, 53840)`, `handleOneRoute` returns 0 and counts the command;
if its port is greater than 0 the slot for `from` is afterwards open with the
supplied port, ip and mac as destination, and if its port is 0 or negative (in
particular -1) the slot for `from` is afterwards closed with its destination
left as it was.  In both cases the index and the port of arrival of the slot
and every other slot of the table stay as they were. -/
theorem handleOneRoute_opens_or_closes (p : Process) (route : RouteTable) (r : Route)
    (hpoa : InRange r.poa) (hint : IntFields r) (hinv : TableInv route)
    (more : List UChar) (rest : ReadFd) :
    ∃ route', handleOneRoute p route (.data ((routeSendControl r).flatten ++ more) :: rest)
        = some (0, { p with routeCount := p.routeCount + 1 }, route', unread more rest) ∧
      (r.dst.port > 0 →
        (route'.get (r.poa - PORTOFFSET).toNat).«open» = 1 ∧
        (route'.get (r.poa - PORTOFFSET).toNat).dst = r.dst) ∧
      (r.dst.port ≤ 0 →
        (route'.get (r.poa - PORTOFFSET).toNat).«open» = 0 ∧
        (route'.get (r.poa - PORTOFFSET).toNat).dst
          = (route.get (r.poa - PORTOFFSET).toNat).dst) ∧
      (route'.get (r.poa - PORTOFFSET).toNat).index
        = (route.get (r.poa - PORTOFFSET).toNat).index ∧
      (route'.get (r.poa - PORTOFFSET).toNat).poa
        = (route.get (r.poa - PORTOFFSET).toNat).poa ∧
      ∀ j, j ≠ (r.poa - PORTOFFSET).toNat → route'.get j = route.get j := by
  obtain ⟨route', h1, h2⟩ := handleOneRoute_command p route r hpoa hint hinv more rest
  refine ⟨route', h1, fun hport => ?_, fun hport => ?_, ?_, ?_, fun j hj => ?_⟩
  · rw [h2, if_pos rfl, if_pos hport]
    exact ⟨rfl, rfl⟩
  · rw [h2, if_pos rfl, if_neg (by omega)]
    exact ⟨rfl, rfl⟩
  · rw [h2, if_pos rfl]
    split <;> rfl
  · rw [h2, if_pos rfl]
    split <;> rfl
  · rw [h2, if_neg hj]

theorem handleOneRoute_opens_or_closes_witness :
    (∃ route', handleOneRoute {} (routeInitialize zeroTable)
          [.data (routeSendControl openCommand).flatten]
        = some (0, { routeCount := 1 }, route', []) ∧
      (route'.get 1).«open» = 1 ∧ (route'.get 1).dst = openCommand.dst) ∧
    ∃ route', handleOneRoute {} openTable [.data (routeSendControl closeCommand).flatten]
        = some (0, { routeCount := 1 }, route', []) ∧
      (route'.get 0).«open» = 0 ∧ (route'.get 0).dst = (openTable.get 0).dst ∧
      (openTable.get 0).«open» ≠ 0 ∧ (openTable.get 0).dst.port = 6000 := by
  constructor
  · obtain ⟨route', h1, h2, _⟩ := handleOneRoute_opens_or_closes {} (routeInitialize zeroTable)
      openCommand (by decide) (by decide) (routeInitialize_inv zeroTable) [] []
    rw [List.append_nil] at h1
    exact ⟨route', h1, h2 (by decide)⟩
  · obtain ⟨route', h1, _, h3, _⟩ := handleOneRoute_opens_or_closes {} openTable
      closeCommand (by decide) (by decide) openTable_inv [] []
    rw [List.append_nil] at h1
    obtain ⟨h4, h5⟩ := h3 (by decide)
    exact ⟨route', h1, h4, h5, openTable_slot, by rw [openTable_get_zero]; rfl⟩

/-- Counterexample to C12 as stated: a command with port 0, which is `>= 0`,
leaves the slot for `from` closed. -/
theorem handleOneRoute_opens_or_closes_counterexample :
    portZeroCommand.dst.port ≥ 0 ∧ InRange portZeroCommand.poa ∧
    ∃ route', handleOneRoute {} (routeInitialize zeroTable)
          [.data (routeSendControl portZeroCommand).flatten]
        = some (0, { routeCount := 1 }, route', []) ∧
      (route'.get 1).«open» = 0 := by
  refine ⟨by decide, by decide, ?_⟩
  obtain ⟨route', h1, h2⟩ := handleOneRoute_command {} (routeInitialize zeroTable)
    portZeroCommand (by decide) (by decide) (routeInitialize_inv zeroTable) [] []
  rw [List.append_nil] at h1
  refine ⟨route', h1, ?_⟩
  rw [h2 1]
  rfl

theorem scanStop_count (vals : List Int) (inp : List UChar) :
    (scanStop vals inp).vals = vals ∧
    ((scanStop vals inp).count = (vals.length : Int) ∨
      ((scanStop vals inp).count = -1 ∧ vals = [])) := by
  unfold scanStop
  split
  · rename_i h
    exact ⟨rfl, Or.inr ⟨rfl, h.1⟩⟩
  · exact ⟨rfl, Or.inl rfl⟩

/-- The count that `sscanf` returns is the number of values it stored, or it
is `EOF` and no value was stored. -/
theorem sscanfLoop_count :
    ∀ (ds : List Directive) (inp : List UChar) (vals : List Int),
      (sscanfLoop ds inp vals).count = ((sscanfLoop ds inp vals).vals.length : Int) ∨
      ((sscanfLoop ds inp vals).count = -1 ∧ (sscanfLoop ds inp vals).vals = []) := by
  intro ds
  induction ds with
  | nil => intro inp vals; exact Or.inl rfl
  | cons d ds ih =>
    intro inp vals
    have hs := fun i => scanStop_count vals i
    cases d with
    | lit c =>
      have hstop : ∀ i, (scanStop vals i).count = ((scanStop vals i).vals.length : Int) ∨
          ((scanStop vals i).count = -1 ∧ (scanStop vals i).vals = []) := by
        intro i
        have := hs i
        rw [this.1]
        exact this.2
      cases inp with
      | nil =>
        simp only [sscanfLoop]
        split
        · exact ih _ _
        · exact hstop []
      | cons x xs =>
        simp only [sscanfLoop]
        split
        · exact ih _ _
        · split
          · exact ih _ _
          · exact hstop _
    | dec =>
      rw [sscanfLoop]
      split
      · exact ih _ _
      · have := hs (inp.dropWhile isSpace)
        rw [this.1]; rcases this.2 with h | h
        · exact Or.inl h
        · exact Or.inr ⟨h.1, h.2⟩
    | hex =>
      rw [sscanfLoop]
      split
      · exact ih _ _
      · have := hs (inp.dropWhile isSpace)
        rw [this.1]; rcases this.2 with h | h
        · exact Or.inl h
        · exact Or.inr ⟨h.1, h.2⟩

theorem routeClose_sentinel (route : RouteTable) (r : Route) (h : r.poa = -1) :
    routeClose route r = none := by
  unfold routeClose
  simp only [h, PORTOFFSET]
  rfl

/-- A body on which `sscanf` converts fewer than two fields makes
`routeFromString` or `routeClose` fail its `assert`. -/
theorem applyCommand_unparsable (route : RouteTable) (s : List UChar)
    (hc : (sscanf s JSONROUTEFMT).count < 2) :
    (match routeFromString s with
      | none => none
      | some rt => applyCommand route rt) = none := by
  have hcount := sscanfLoop_count (parseFormat (cstr JSONROUTEFMT)) s []
  unfold routeFromString
  unfold sscanf at hc ⊢
  generalize sscanfLoop (parseFormat (cstr JSONROUTEFMT)) s [] = sc at hcount hc ⊢
  obtain ⟨count, vals⟩ := sc
  simp only at hcount hc ⊢
  have hsentinel : ∀ c : Int, c ≠ 12 → c ≠ 1 →
      (match (if c = 12 then some ({ index := -1, poa := -1, dst :=
            { port := -1,
              ip := fun n => toUChar (toUnsigned (([] : List Int).getD (2 + n.val) 0)),
              mac := fun n => toUChar (toUnsigned (([] : List Int).getD (6 + n.val) 0)) } } : Route)
          else if c = 1 then
            (if (-1 : Int) ≥ PORTOFFSET ∧ (-1 : Int) < routeLimit
              then some ({ index := -1, poa := -1, dst := { port := -1 } } : Route) else none)
          else some ({ index := -1, poa := -1, dst := { port := -1 } } : Route)) with
        | none => none
        | some rt => applyCommand route rt) = none := by
    intro c h12 h1
    rw [if_neg h12, if_neg h1]
    simp only [applyCommand]
    rw [if_neg (by decide)]
    exact routeClose_sentinel route _ rfl
  rcases hcount with h | ⟨h, hv⟩
  · cases vals with
    | nil =>
      simp only [List.length_nil, Nat.cast_zero] at h
      subst h
      exact hsentinel 0 (by decide) (by decide)
    | cons v vs =>
      cases vs with
      | nil =>
        simp only [List.length_singleton, Nat.cast_one] at h
        subst h
        simp only [List.getD_cons_zero]
        have hno : ¬ (v ≥ PORTOFFSET ∧ v < (routeLimit : Int)) := by
          rw [routeLimit_eq]
          simp only [PORTOFFSET]
          omega
        simp [hno]
      | cons w ws =>
        simp only [List.length_cons] at h
        omega
  · subst hv
    subst h
    exact hsentinel (-1) (by decide) (by decide)

/-- C13: a frame on whose body `sscanf` converts fewer than two of the twelve
fields is not skipped: `handleOneRoute` ends in a failed `assert`, either the
one of `routeFromString` (one field) or the one of `routeClose` on the
sentinel route with `poa == -1` (no field). -/
theorem handleOneRoute_unparsable_asserts (p : Process) (route : RouteTable) (size : Int)
    (body more : List UChar) (rest : ReadFd) (h1 : 0 < size) (h2 : size ≤ 999)
    (hb : body.length = size.toNat)
    (hc : (sscanf (cString body) JSONROUTEFMT).count < 2) :
    (sscanf (cString body) JSONROUTEFMT).count ≠ 12 ∧
    handleOneRoute p route (.data (encodeInt size ++ (body ++ more)) :: rest) = none := by
  refine ⟨by omega, ?_⟩
  rw [handleOneRoute_frame p route size body more rest h1 h2 hb]
  have := applyCommand_unparsable route (cString body) hc
  cases hr : routeFromString (cString body) with
  | none => rfl
  | some rt =>
    rw [hr] at this
    simp only at this ⊢
    rw [this]

theorem handleOneRoute_unparsable_asserts_witness :
    (sscanf (cString (cstr "x" ++ [0])) JSONROUTEFMT).count ≠ 12 ∧
    handleOneRoute {} (routeInitialize zeroTable)
      (.data (encodeInt 2 ++ ((cstr "x" ++ [0]) ++ [])) :: []) = none :=
  handleOneRoute_unparsable_asserts {} (routeInitialize zeroTable) 2 (cstr "x" ++ [0]) [] []
    (by decide) (by decide) (by decide) (by decide)

/-- A frame on whose body `sscanf` converts two of the twelve fields is not
skipped either: `handleOneRoute` opens the slot with the port it read and a
zero address. -/
theorem handleOneRoute_two_fields_opens :
    (sscanf (cString twoFieldBody) JSONROUTEFMT).count = 2 ∧
    ∃ route', handleOneRoute {} (routeInitialize zeroTable)
        [.data (encodeInt 24 ++ (twoFieldBody ++ []))] = some (0, { routeCount := 1 }, route', []) ∧
      (route'.get 1).«open» = 1 ∧ (route'.get 1).dst.port = 7 ∧
      ((routeInitialize zeroTable).get 1).«open» = 0 := by
  refine ⟨by decide, ?_⟩
  rw [handleOneRoute_frame {} (routeInitialize zeroTable) 24 twoFieldBody [] [] (by decide)
    (by decide) (by decide)]
  have hr : routeFromString (cString twoFieldBody)
      = some { index := -1, poa := 50001, dst := { port := 7 } } := by decide
  rw [hr]
  obtain ⟨t', h1, h2⟩ := routeOpen_get (routeInitialize zeroTable)
    { index := -1, poa := 50001, dst := { port := 7 } } (by decide)
  simp only [applyCommand]
  rw [if_pos (by decide), h1]
  refine ⟨t', rfl, ?_, ?_, ?_⟩
  · rw [h2 1]; rfl
  · rw [h2 1]; rfl
  · rw [routeInitialize_get _ 1 (by decide)]

/-- When the one call of `read` for the body returns only a first part of it,
`handleOneRoute` returns 1 with the route table unchanged. -/
theorem handleOneRoute_short_body (p : Process) (route : RouteTable) (size : Int)
    (part : List UChar) (rest : ReadFd) (h1 : 0 < size) (h2 : size ≤ 999)
    (hne : part ≠ []) (hlt : part.length < size.toNat) :
    handleOneRoute p route (.data (encodeInt size ++ part) :: rest)
      = some (1, p, route, rest) := by
  have hu : unread part rest = .data part :: rest := by
    unfold unread
    rw [if_neg hne]
  have hr : read (.data part :: rest) size.toNat = ((part.length : Int), part, rest) := by
    unfold read
    simp only []
    rw [if_pos (by omega)]
  unfold handleOneRoute
  rw [readControlStuff_chunk _ _ _ (encodeInt_length size)]
  simp only [if_true, decodeInt_encodeInt size (by omega) (by omega), hu, hr]
  rw [if_neg (by omega), if_neg (by omega), if_neg (by omega)]

set_option maxRecDepth 100000 in
theorem openCommand_text_length : 10 ≤ (routeText openCommand).length := by
  decide

/-- C16: the body of a frame is fetched by one call of `read`, not by a loop.
For a frame that `routeSendControl` wrote for a route with `from` in range:
when the frame arrives in one piece `handleOneRoute` returns 0 and applies the
command, but when the first chunk ends `i` bytes into the body, with the rest
of the frame in the next chunk, `handleOneRoute` returns 1 with the route table
and the count unchanged, although the stream has not ended. -/
theorem handleOneRoute_split_frame (p : Process) (route : RouteTable) (r : Route) (i : Nat)
    (hpoa : InRange r.poa) (hint : IntFields r) (hinv : TableInv route)
    (h0 : 0 < i) (hi : i ≤ (routeText r).length) :
    (∃ route', handleOneRoute p route [.data (routeSendControl r).flatten]
        = some (0, { p with routeCount := p.routeCount + 1 }, route', [])) ∧
    handleOneRoute p route
        [.data ((routeSendControl r).flatten.take (4 + i)),
         .data ((routeSendControl r).flatten.drop (4 + i))]
      = some (1, p, route, [.data ((routeSendControl r).flatten.drop (4 + i))]) := by
  constructor
  · obtain ⟨route', h1, _⟩ := handleOneRoute_command p route r hpoa hint hinv [] []
    rw [List.append_nil] at h1
    exact ⟨route', h1⟩
  · have hl := routeText_length r hint
    rw [routeSendControl_eq r hint]
    simp only [List.flatten, List.append_nil]
    have ht : (encodeInt (((routeText r).length : Int) + 1) ++ (routeText r ++ [0])).take (4 + i)
        = encodeInt (((routeText r).length : Int) + 1) ++ (routeText r ++ [0]).take i := by
      rw [List.take_append_eq_append_take, encodeInt_length]
      simp only [Nat.add_sub_cancel_left]
      rw [List.take_of_length_le (by rw [encodeInt_length]; omega)]
    rw [ht]
    apply handleOneRoute_short_body
    · omega
    · omega
    · intro h
      have := congrArg List.length h
      simp only [List.length_take, List.length_append, List.length_singleton,
        List.length_nil] at this
      omega
    · simp only [List.length_take, List.length_append, List.length_singleton]
      omega

theorem handleOneRoute_split_frame_witness :
    (∃ route', handleOneRoute {} (routeInitialize zeroTable)
        [.data (routeSendControl openCommand).flatten]
        = some (0, { ({} : Process) with routeCount := ({} : Process).routeCount + 1 },
            route', [])) ∧
    handleOneRoute {} (routeInitialize zeroTable)
        [.data ((routeSendControl openCommand).flatten.take (4 + 10)),
         .data ((routeSendControl openCommand).flatten.drop (4 + 10))]
      = some (1, {}, routeInitialize zeroTable,
          [.data ((routeSendControl openCommand).flatten.drop (4 + 10))]) :=
  handleOneRoute_split_frame {} (routeInitialize zeroTable) openCommand 10 (by decide)
    (by decide) (routeInitialize_inv zeroTable) (by decide) openCommand_text_length

/-- C14: for every route `r` with `poa` in `[50000, 53840)`, index
`poa - 50000`, open true and a port from 0 up to the largest `int`, and any ip
and mac bytes: `routeToString` with a buffer of 999 bytes succeeds, and parsing
the string with `routeFromString`, opening the parsed route with `routeOpen`
and looking up `r.poa` with `routeFromPortOfArrival` returns a route equal to
`r` in index, poa, dst.port, dst.ip, dst.mac and, as a truth value, open. -/
theorem route_string_roundtrip (route : RouteTable) (r : Route) (hinv : TableInv route)
    (hpoa : InRange r.poa) (hidx : r.index = r.poa - PORTOFFSET) (hopen : r.«open» ≠ 0)
    (hport : 0 ≤ r.dst.port) (hint : r.dst.port < 2147483648) :
    (routeToString r 999).1 > 0 ∧
    ∃ rt route', routeFromString (cString (routeToString r 999).2) = some rt ∧
      routeOpen route rt = some route' ∧
      (routeFromPortOfArrival route' r.poa).index = r.index ∧
      (routeFromPortOfArrival route' r.poa).poa = r.poa ∧
      (routeFromPortOfArrival route' r.poa).dst.port = r.dst.port ∧
      (routeFromPortOfArrival route' r.poa).dst.ip = r.dst.ip ∧
      (routeFromPortOfArrival route' r.poa).dst.mac = r.dst.mac ∧
      ((routeFromPortOfArrival route' r.poa).«open» ≠ 0 ↔ r.«open» ≠ 0) := by
  have hf : IntFields r := by
    unfold IntFields
    unfold InRange at hpoa
    simp only [PORTOFFSET] at hpoa
    omega
  have hl := routeText_length r hf
  rw [routeToString_eq r hf]
  simp only [cString_routeText, routeFromString_routeText]
  refine ⟨by omega, command r, ?_⟩
  obtain ⟨t', h1, h2⟩ := routeOpen_get route (command r) hpoa
  have hslot := hinv _ hpoa.toNat_lt
  have hn : ((r.poa - PORTOFFSET).toNat : Int) = r.poa - PORTOFFSET := by
    unfold InRange at hpoa; omega
  have hlook : routeFromPortOfArrival t' r.poa
      = { route.get (r.poa - PORTOFFSET).toNat with dst := r.dst, «open» := 1 } := by
    have hget := h2 (r.poa - PORTOFFSET).toNat
    have hc : (command r).poa = r.poa := rfl
    rw [hc, if_pos rfl] at hget
    unfold routeFromPortOfArrival
    simp only [decide_eq_true_eq]
    rw [if_pos hpoa.guard, hget, if_pos]
    · rfl
    · simp only []
      rw [hslot.2, hn]
      omega
  refine ⟨t', rfl, h1, ?_⟩
  rw [hlook]
  refine ⟨?_, ?_, rfl, rfl, rfl, ?_⟩
  · simp only []
    rw [hslot.1, hn, hidx]
  · simp only []
    rw [hslot.2, hn]
    omega
  · simp only []
    exact ⟨fun _ => hopen, fun _ => by decide⟩

theorem route_string_roundtrip_witness :
    (routeToString openCommand 999).1 > 0 ∧
    ∃ rt route', routeFromString (cString (routeToString openCommand 999).2) = some rt ∧
      routeOpen (routeInitialize zeroTable) rt = some route' ∧
      (routeFromPortOfArrival route' openCommand.poa).index = openCommand.index ∧
      (routeFromPortOfArrival route' openCommand.poa).poa = openCommand.poa ∧
      (routeFromPortOfArrival route' openCommand.poa).dst.port = openCommand.dst.port ∧
      (routeFromPortOfArrival route' openCommand.poa).dst.ip = openCommand.dst.ip ∧
      (routeFromPortOfArrival route' openCommand.poa).dst.mac = openCommand.dst.mac ∧
      ((routeFromPortOfArrival route' openCommand.poa).«open» ≠ 0 ↔ openCommand.«open» ≠ 0) :=
  route_string_roundtrip (routeInitialize zeroTable) openCommand
    (routeInitialize_inv zeroTable) (by decide) (by decide) (by decide) (by decide) (by decide)

theorem controlStream_frames (rs : List Route) :
    controlStream rs = commandFrames rs ++ stopSwitch.flatten := rfl

theorem commandFrames_cons (r : Route) (rs : List Route) :
    commandFrames (r :: rs) = (routeSendControl r).flatten ++ commandFrames rs := by
  simp [commandFrames, List.flatten]

theorem commandFrames_append (pre post : List Route) :
    commandFrames (pre ++ post) = commandFrames pre ++ commandFrames post := by
  simp [commandFrames]

/-- The control loop handles the frames of the commands `pre` at the start of
a chunk one by one and goes on with what follows them in the chunk. -/
theorem controlLoop_frames (pre : List Route) :
    ∀ (rounds : Nat) (p : Process) (route route' : RouteTable) (more : List UChar)
      (rest : ReadFd),
      (∀ r ∈ pre, IntFields r) → more ≠ [] →
      runCalls route (pre.map controlCall) = some route' →
      controlLoop (pre.length + rounds) p route (.data (commandFrames pre ++ more) :: rest)
        = controlLoop rounds { p with routeCount := p.routeCount + pre.length } route'
            (.data more :: rest) := by
  induction pre with
  | nil =>
    intro rounds p route route' more rest _ _ hrun
    simp only [List.map_nil, runCalls, Option.some.injEq] at hrun
    subst hrun
    simp [commandFrames]
  | cons r pre ih =>
    intro rounds p route route' more rest hf hne hrun
    simp only [List.map_cons, runCalls] at hrun
    rw [commandFrames_cons, List.append_assoc, List.length_cons,
      show pre.length + 1 + rounds = (pre.length + rounds) + 1 by omega]
    simp only [controlLoop]
    rw [handleOneRoute_routeSendControl p route r (hf r (List.mem_cons_self _ _)),
      applyCommand_command]
    cases hc : (controlCall r).run route with
    | none => rw [hc] at hrun; simp at hrun
    | some r1 =>
      rw [hc] at hrun
      simp only [] at hrun ⊢
      have hu : unread (commandFrames pre ++ more) rest
          = .data (commandFrames pre ++ more) :: rest := by
        unfold unread
        rw [if_neg (by simp [hne])]
      rw [hu]
      simp only [ne_eq, not_true_eq_false, if_false]
      rw [ih rounds _ r1 route' more rest (fun r hr => hf r (List.mem_cons_of_mem _ hr)) hne hrun]
      simp only [List.length_cons, Nat.cast_add, Nat.cast_one]
      congr 2
      ring

theorem routeSendControl_take (r : Route) (h : IntFields r) (i : Nat) :
    (routeSendControl r).flatten.take (4 + i)
      = encodeInt (((routeText r).length : Int) + 1) ++ (routeText r ++ [0]).take i := by
  rw [routeSendControl_eq r h]
  simp only [List.flatten, List.append_nil]
  rw [List.take_append_eq_append_take, encodeInt_length]
  simp only [Nat.add_sub_cancel_left]
  rw [List.take_of_length_le (by rw [encodeInt_length]; omega)]

theorem routeSendControl_length (r : Route) (h : IntFields r) :
    (routeSendControl r).flatten.length = 4 + ((routeText r).length + 1) := by
  rw [routeSendControl_eq r h]
  simp only [List.flatten, List.append_nil, List.length_append, encodeInt_length,
    List.length_singleton]

/-- The control loop on the stream of the commands `pre ++ r :: post` when
the first chunk ends `i` bytes into the body of the frame of `r`: the commands
`pre` are handled and the loop ends at the frame of `r`. -/
theorem controlLoop_split (pre post : List Route) (r : Route) (i rounds : Nat) (p : Process)
    (route route' : RouteTable) (hf : ∀ c ∈ pre ++ r :: post, IntFields c)
    (hrun : runCalls route (pre.map controlCall) = some route')
    (hrounds : pre.length < rounds) (h0 : 0 < i) (hi : i ≤ (routeText r).length) :
    controlLoop rounds p route
        [.data ((controlStream (pre ++ r :: post)).take ((commandFrames pre).length + (4 + i))),
         .data ((controlStream (pre ++ r :: post)).drop ((commandFrames pre).length + (4 + i)))]
      = .returned ({ p with routeCount := p.routeCount + pre.length }, route',
          [.data ((controlStream (pre ++ r :: post)).drop
            ((commandFrames pre).length + (4 + i)))]) := by
  have hr : IntFields r := hf r (by simp)
  have hl := routeText_length r hr
  have hlen := routeSendControl_length r hr
  have htake : (controlStream (pre ++ r :: post)).take ((commandFrames pre).length + (4 + i))
      = commandFrames pre
        ++ (encodeInt (((routeText r).length : Int) + 1) ++ (routeText r ++ [0]).take i) := by
    rw [controlStream_frames, commandFrames_append, commandFrames_cons, List.append_assoc,
      List.take_append, List.append_assoc,
      List.take_append_of_le_length (by rw [hlen]; omega), routeSendControl_take r hr]
  obtain ⟨m, rfl⟩ : ∃ m, rounds = pre.length + (m + 1) := ⟨rounds - pre.length - 1, by omega⟩
  generalize (controlStream (pre ++ r :: post)).drop ((commandFrames pre).length + (4 + i))
    = tail at *
  rw [htake, controlLoop_frames pre (m + 1) p route route' _ _
    (fun c hc => hf c (List.mem_append_left _ hc)) (by simp [encodeInt]) hrun]
  simp only [controlLoop]
  rw [handleOneRoute_short_body _ _ _ _ _ (by omega) (by omega) (by
      intro h
      have := congrArg List.length h
      simp only [List.length_take, List.length_append, List.length_singleton,
        List.length_nil] at this
      omega) (by
      simp only [List.length_take, List.length_append, List.length_singleton]
      omega)]
  simp

/-- The stream arriving in one piece: for every list of route commands with
`from` in range, `controlRoutes` started with `routeCount == 0` returns their
number and leaves the table that the calls of `routeOpen` and `routeClose`
give, and `handleOneRoute` on the zero-length frame returns 1 and changes
neither the route table nor the count. -/
theorem controlRoutes_whole_stream (rs : List Route) (p : Process) (route : RouteTable)
    (rounds : Nat) (hwf : ∀ r ∈ rs, InRange r.poa ∧ IntFields r) (hinv : TableInv route)
    (hcount : p.routeCount = 0) (hrounds : rs.length < rounds) :
    (∃ route', runCalls route (rs.map controlCall) = some route' ∧
      controlRoutes rounds p route (some [.data (controlStream rs)])
        = .returned ((rs.length : Int), route')) ∧
    ∀ (q : Process) (t : RouteTable),
      handleOneRoute q t [.data stopSwitch.flatten] = some (1, q, t, []) := by
  constructor
  · obtain ⟨route', h1, _⟩ := runCalls_inv (rs.map controlCall) route (by
      intro c hc
      rw [List.mem_map] at hc
      obtain ⟨r, hr, rfl⟩ := hc
      have := (hwf r hr).1
      unfold controlCall
      split <;> exact this) hinv
    refine ⟨route', h1, ?_⟩
    unfold controlRoutes
    simp only []
    have hs := controlLoop_stream rs rounds p route route' [] [] (fun r hr => (hwf r hr).2)
      hrounds h1
    rw [List.append_nil] at hs
    rw [hs]
    simp only [hcount, zero_add]
  · intro q t
    have hz := handleOneRoute_zero q t [] []
    rw [List.append_nil] at hz
    exact hz

/-- C15: `controlRoutes` returns the number of commands of a control byte
stream only when every body arrives by one `read`.  For the stream made of the
frames that `routeSendControl` writes for the route commands
`pre ++ r :: post` with `from` in range, followed by the zero-length frame that
`stopSwitch` writes: arriving in one piece, `controlRoutes` started with
`routeCount == 0` returns the number `k` of the commands and leaves the table
that the `k` calls of `routeOpen` and `routeClose` give; with the same bytes
arriving in two pieces, the first ending `i` bytes into the body of the frame
of `r`, it returns the number of the commands `pre`, which is less than `k`,
and leaves the table that only those commands give. -/
theorem controlRoutes_split_stream (pre post : List Route) (r : Route) (i : Nat) (p : Process)
    (route : RouteTable) (rounds : Nat)
    (hwf : ∀ c ∈ pre ++ r :: post, InRange c.poa ∧ IntFields c) (hinv : TableInv route)
    (hcount : p.routeCount = 0) (hrounds : (pre ++ r :: post).length < rounds)
    (h0 : 0 < i) (hi : i ≤ (routeText r).length) :
    (∃ route', runCalls route ((pre ++ r :: post).map controlCall) = some route' ∧
      controlRoutes rounds p route (some [.data (controlStream (pre ++ r :: post))])
        = .returned (((pre ++ r :: post).length : Int), route')) ∧
    (∃ route', runCalls route (pre.map controlCall) = some route' ∧
      controlRoutes rounds p route (some
        [.data ((controlStream (pre ++ r :: post)).take ((commandFrames pre).length + (4 + i))),
         .data ((controlStream (pre ++ r :: post)).drop ((commandFrames pre).length + (4 + i)))])
        = .returned ((pre.length : Int), route')) ∧
    (pre.length : Int) < ((pre ++ r :: post).length : Int) := by
  refine ⟨(controlRoutes_whole_stream _ p route rounds hwf hinv hcount hrounds).1, ?_, ?_⟩
  · obtain ⟨route', h1, _⟩ := runCalls_inv (pre.map controlCall) route (by
      intro c hc
      rw [List.mem_map] at hc
      obtain ⟨c, hc, rfl⟩ := hc
      have := (hwf c (List.mem_append_left _ hc)).1
      unfold controlCall
      split <;> exact this) hinv
    refine ⟨route', h1, ?_⟩
    unfold controlRoutes
    simp only []
    rw [controlLoop_split pre post r i rounds p route route' (fun c hc => (hwf c hc).2) h1
      (by simp only [List.length_append, List.length_cons] at hrounds; omega) h0 hi]
    simp only [hcount, zero_add]
  · simp only [List.length_append, List.length_cons]
    omega

theorem controlRoutes_split_stream_witness :
    (∃ route', runCalls (routeInitialize zeroTable)
        (([closeCommand] ++ openCommand :: [portZeroCommand]).map controlCall) = some route' ∧
      controlRoutes 4 {} (routeInitialize zeroTable)
          (some [.data (controlStream ([closeCommand] ++ openCommand :: [portZeroCommand]))])
        = .returned (3, route')) ∧
    (∃ route', runCalls (routeInitialize zeroTable) ([closeCommand].map controlCall)
        = some route' ∧
      controlRoutes 4 {} (routeInitialize zeroTable) (some
        [.data ((controlStream ([closeCommand] ++ openCommand :: [portZeroCommand])).take
            ((commandFrames [closeCommand]).length + (4 + 10))),
         .data ((controlStream ([closeCommand] ++ openCommand :: [portZeroCommand])).drop
            ((commandFrames [closeCommand]).length + (4 + 10)))])
        = .returned (1, route')) := by
  obtain ⟨h1, h2, _⟩ := controlRoutes_split_stream [closeCommand] [portZeroCommand] openCommand
    10 {} (routeInitialize zeroTable) 4 (by decide) (routeInitialize_inv zeroTable) rfl
    (by decide) (by decide) openCommand_text_length
  exact ⟨h1, h2⟩

/-! ## The forwarding counters and the TAP path: claims C19 and C20 -/

theorem bump_balanced (recv send drop : Nat → Nat) (k : Nat)
    (h : ∀ i, recv i = (send i + drop i) % 18446744073709551616) :
    (∀ i, bump recv k i = (bump send k i + drop i) % 18446744073709551616) ∧
    (∀ i, bump recv k i = (send i + bump drop k i) % 18446744073709551616) := by
  constructor <;> intro i <;> have := h i <;> simp only [bump, incr64] <;> split <;> omega

theorem routeFromPortOfArrival_index (route : RouteTable) (poa : Int) (hinv : TableInv route)
    (hpoa : InRange poa) : ¬ (routeFromPortOfArrival route poa).index < 0 := by
  have hslot := hinv _ hpoa.toNat_lt
  have hn : ((poa - PORTOFFSET).toNat : Int) = poa - PORTOFFSET := by
    unfold InRange at hpoa; omega
  unfold routeFromPortOfArrival
  simp only [decide_eq_true_eq]
  rw [if_pos hpoa.guard, if_pos (by rw [hslot.2, hn]; omega), hslot.1]
  omega

/-- One call of `forwardPacketOnQueueOrDrop` returns and keeps the counters
balanced. -/
theorem forwardPacketOnQueueOrDrop_balanced (e : ForwardEvent) (t : Thread)
    (hinv : TableInv e.route) (hpoa : InRange e.pi.poa) (hnic : (sendLoop e.answers).isSome)
    (hbal : Balanced t) :
    ∃ result t' mem, forwardPacketOnQueueOrDrop e.route e.answers t e.mem e.pi
        = .returned (result, t', mem) ∧ Balanced t' := by
  have hidx := routeFromPortOfArrival_index e.route e.pi.poa hinv hpoa
  have hb := bump_balanced t.recv t.send t.drop
    (routeFromPortOfArrival e.route e.pi.poa).index.toNat hbal
  obtain ⟨err, herr⟩ := Option.isSome_iff_exists.mp hnic
  unfold forwardPacketOnQueueOrDrop
  simp only []
  rw [if_neg hidx, herr]
  split
  · split
    · simp only []
      split
      · exact ⟨_, _, _, rfl, hb.1⟩
      · exact ⟨_, _, _, rfl, hb.2⟩
    · exact ⟨_, _, _, rfl, hb.2⟩
  · exact ⟨_, _, _, rfl, hb.2⟩

theorem forwardAll_balanced (events : List ForwardEvent) :
    ∀ (t : Thread),
      (∀ e ∈ events, TableInv e.route ∧ InRange e.pi.poa ∧ (sendLoop e.answers).isSome) →
      Balanced t → ∃ t', forwardAll t events = .returned t' ∧ Balanced t' := by
  induction events with
  | nil => intro t _ hb; exact ⟨t, rfl, hb⟩
  | cons e es ih =>
    intro t h hb
    have he := h e (List.mem_cons_self _ _)
    obtain ⟨result, t1, mem, h1, hb1⟩ :=
      forwardPacketOnQueueOrDrop_balanced e t he.1 he.2.1 he.2.2 hb
    obtain ⟨t2, h2, hb2⟩ := ih t1 (fun e he => h e (List.mem_cons_of_mem _ he)) hb1
    exact ⟨t2, by simp only [forwardAll, h1, h2], hb2⟩

/-- C19: for a forward worker whose counters start at zero, any sequence of
packets with `poa` in `[50000, 53840)` handled by `forwardPacketOnQueueOrDrop`
on route tables that satisfy the table invariant, whatever the status of the
packets, the state of the routes and the answers of the NIC as long as it does
not answer `NETIO_QUEUE_FULL` for ever, is handled to the end, and afterwards
every route index `i` satisfies `recv[i] == send[i] + drop[i]`. -/
theorem forward_counters_balance (events : List ForwardEvent)
    (h : ∀ e ∈ events, TableInv e.route ∧ InRange e.pi.poa ∧ (sendLoop e.answers).isSome) :
    ∃ t, forwardAll {} events = .returned t ∧
      ∀ i, t.recv i = (t.send i + t.drop i) % 18446744073709551616 :=
  forwardAll_balanced events {} h (fun _ => rfl)

theorem forward_counters_balance_witness :
    ∃ t, forwardAll {} exampleEvents = .returned t ∧
      ∀ i, t.recv i = (t.send i + t.drop i) % 18446744073709551616 :=
  forward_counters_balance exampleEvents (by
    intro e he
    simp only [exampleEvents, List.mem_cons, List.mem_singleton, List.not_mem_nil,
      or_false] at he
    rcases he with rfl | rfl | rfl
    · exact ⟨routeInitialize_inv zeroTable, by decide, by decide⟩
    · exact ⟨openTable_inv, by decide, by decide⟩
    · exact ⟨openTable_inv, by decide, by decide⟩)

/-- C20: for every frame that is not UDP-for-us, `forwardPacketOnQueueOrTap`
calls `write` once, on the TAP descriptor, with the `l2Length` bytes of the
frame from the L2 pointer on, increments the worker's tap counter by one,
leaves recv, send and drop of every route and the packet unchanged, and
returns 1. -/
theorem forwardPacketOnQueueOrTap_taps (p : Process) (route : RouteTable)
    (answers : List NetioError) (t : Thread) (pkt : NetioPkt)
    (h : (parsePacket p pkt).isUdpForMe = false) :
    ∃ t' w, forwardPacketOnQueueOrTap p route answers t pkt
        = .returned (1, t', pkt.mem, some w) ∧
      w.fd = p.tap ∧ w.bytes.length = pkt.l2Length ∧
      (∀ i (hi : i < w.bytes.length), w.bytes.get ⟨i, hi⟩ = pkt.mem i) ∧
      t'.tap = (t.tap + 1) % 18446744073709551616 ∧
      t'.recv = t.recv ∧ t'.send = t.send ∧ t'.drop = t.drop := by
  have hl2 : (parsePacket p pkt).l2Data = 0 := by
    unfold parsePacket; simp only []; split <;> rfl
  have hlen : (parsePacket p pkt).l2Length = pkt.l2Length := by
    unfold parsePacket; simp only []; split <;> rfl
  unfold forwardPacketOnQueueOrTap
  simp only [h, hl2, hlen, Bool.false_eq_true, if_false]
  refine ⟨_, _, rfl, rfl, by simp, ?_, rfl, rfl, rfl, rfl⟩
  intro i hi
  simp

theorem forwardPacketOnQueueOrTap_taps_witness :
    ∃ t' w, forwardPacketOnQueueOrTap exampleProcess (routeInitialize zeroTable) [] {} arpPkt
        = .returned (1, t', arpPkt.mem, some w) ∧
      w.fd = exampleProcess.tap ∧ w.bytes.length = arpPkt.l2Length ∧
      (∀ i (hi : i < w.bytes.length), w.bytes.get ⟨i, hi⟩ = arpPkt.mem i) ∧
      t'.tap = (({} : Thread).tap + 1) % 18446744073709551616 ∧
      t'.recv = ({} : Thread).recv ∧ t'.send = ({} : Thread).send ∧
      t'.drop = ({} : Thread).drop :=
  forwardPacketOnQueueOrTap_taps exampleProcess (routeInitialize zeroTable) [] {} arpPkt
    (by decide)

/-! ## The pseudo-header seed: claim C30 -/

theorem sourceWord_eq (x y : UChar) :
    (0xffff &&& (x.val <<< 8)) ||| (y.val <<< 0) = x.val * 256 + y.val := by
  have hx := x.isLt
  have h1 : 0xffff &&& (x.val <<< 8) = x.val <<< 8 := by
    rw [and_ffff_left, Nat.shiftLeft_eq]
    apply Nat.mod_eq_of_lt
    norm_num
    omega
  rw [h1, shl8_or _ _ y.isLt]

theorem specWord_eq (x y : UChar) : specWord x y = x.val * 256 + y.val := by
  have hx := x.isLt
  have hy := y.isLt
  unfold specWord
  rw [shl8_or _ _ y.isLt, and_ffff_right]
  omega

theorem foldLoop_small (rounds seed : Nat) (h : seed < 65536) : foldLoop rounds seed = seed := by
  cases rounds with
  | zero => rfl
  | succ r =>
    simp only [foldLoop, shr16]
    rw [if_neg]
    simp only [ne_eq, not_not]
    omega

theorem foldLoop_eq (rounds seed : Nat) (h : seed < 4294967296)
    (hr : 65536 ≤ seed → 2 ≤ rounds) : foldLoop rounds seed = foldCarries seed := by
  by_cases hs : seed < 65536
  · rw [foldLoop_small rounds seed hs]
    unfold foldCarries
    simp only []
    omega
  · obtain ⟨r, rfl⟩ : ∃ r, rounds = r + 2 := ⟨rounds - 2, by omega⟩
    have h1 : seed >>> 16 ≠ 0 := by rw [shr16]; omega
    rw [foldLoop, if_pos h1, shr16, and_ffff_left]
    unfold foldCarries
    simp only []
    by_cases hy : seed / 65536 + seed % 65536 < 65536
    · rw [foldLoop_small _ _ hy]
      omega
    · have h2 : (seed / 65536 + seed % 65536) >>> 16 ≠ 0 := by rw [shr16]; omega
      rw [foldLoop, if_pos h2, shr16, and_ffff_left, foldLoop_small _ _ (by omega)]
      omega

theorem Folds.unique {a b S : Nat} (ha : Folds a S) (hb : Folds b S) : a = b := by
  obtain ⟨k, h1, h2, h3⟩ := ha
  obtain ⟨l, g1, g2, g3⟩ := hb
  omega

/-- C30: for every source and destination endpoint, `udpCsumIpPseudoHeaderSeed`
returns the fully folded 16-bit one's-complement sum, not complemented, of the
pseudo-header words `(src.ip[0]<<8 | src.ip[1])`, `(src.ip[2]<<8 | src.ip[3])`,
`(dst.ip[0]<<8 | dst.ip[1])`, `(dst.ip[2]<<8 | dst.ip[3])`, 0x0011 and the UDP
size 1324; and the source expression `0xffff & (x << 8) | y` has the value of
`((x << 8) | y) & 0xffff` for all bytes `x` and `y`. -/
theorem udpCsumIpPseudoHeaderSeed_refines (dst src : Endpoint) :
    udpCsumIpPseudoHeaderSeed dst src = pseudoHeaderSum dst src ∧
    ∀ x y : UChar, (0xffff &&& (x.val <<< 8)) ||| (y.val <<< 0) = specWord x y := by
  refine ⟨?_, fun x y => by rw [sourceWord_eq, specWord_eq]⟩
  have s0 := (src.ip 0).isLt
  have s1 := (src.ip 1).isLt
  have s2 := (src.ip 2).isLt
  have s3 := (src.ip 3).isLt
  have d0 := (dst.ip 0).isLt
  have d1 := (dst.ip 1).isLt
  have d2 := (dst.ip 2).isLt
  have d3 := (dst.ip 3).isLt
  have hspec : Folds (pseudoHeaderSum dst src)
      ((src.ip 0).val * 256 + (src.ip 1).val + ((src.ip 2).val * 256 + (src.ip 3).val)
        + ((dst.ip 0).val * 256 + (dst.ip 1).val) + ((dst.ip 2).val * 256 + (dst.ip 3).val)
        + 0x0011 + 1324) := by
    unfold pseudoHeaderSum
    simp only [specWord_eq]
    exact (((((Folds.refl _ (by omega)).onesAdd (by omega)).onesAdd (by omega)).onesAdd
      (by omega)).onesAdd (by omega)).onesAdd (by omega)
  have hcode : Folds (udpCsumIpPseudoHeaderSeed dst src)
      ((src.ip 0).val * 256 + (src.ip 1).val + ((src.ip 2).val * 256 + (src.ip 3).val)
        + ((dst.ip 0).val * 256 + (dst.ip 1).val) + ((dst.ip 2).val * 256 + (dst.ip 3).val)
        + 0x0011 + 1324) := by
    have hsum : ∀ a b c d : Nat, a < 65536 → b < 65536 → c < 65536 → d < 65536 →
        add32 (add32 (add32 (add32 (add32 17 1324) a) b) c) d
          = a + b + c + d + 17 + 1324 := by
      intro a b c d _ _ _ _
      simp only [add32]
      omega
    have hz : ((0x00 <<< 8) ||| (0x11 <<< 0) : Nat) = 17 := by decide
    have hu : UDPHEADERSIZE + UDPPAYLOADSIZE = 1324 := rfl
    unfold udpCsumIpPseudoHeaderSeed
    simp only [sourceWord_eq]
    rw [hz, hu, hsum _ _ _ _ (by omega) (by omega) (by omega) (by omega)]
    generalize hS : (src.ip 0).val * 256 + (src.ip 1).val
        + ((src.ip 2).val * 256 + (src.ip 3).val)
        + ((dst.ip 0).val * 256 + (dst.ip 1).val) + ((dst.ip 2).val * 256 + (dst.ip 3).val)
        + 17 + 1324 = S
    rw [foldLoop_eq S S (by omega) (by omega), and_ffff_left]
    have hf := foldCarries_folds S (by omega)
    have hlt : foldCarries S % 65536 = foldCarries S := by
      obtain ⟨k, _, h2, _⟩ := hf
      omega
    rw [hlt]
    exact hf
  exact hcode.unique hspec

/-! ## The bucket map: claims C21 and C29 -/

theorem initializeNetio_eq (p : Process) (h : p.netioThreadCount ≠ 0) :
    initializeNetio p = some ((List.range 512).map
      (fun (n : Nat) => p.netioThreadIndex + Int.tmod (n : Int) p.netioThreadCount)) := by
  have hc : (1 <<< (NETIO_LOG2_NUM_BUCKETS - 1) : Nat) = 512 := by decide
  unfold initializeNetio
  simp only []
  rw [if_neg h, hc]

/-- The bucket map of a process with at least one forward worker whose worker
queues are among the `MAXCPUCOUNT` threads behind `main` and the TAP worker:
it has 512 entries, `b2q[b] == netioThreadIndex + (b mod netioThreadCount)`,
and every entry lies in
`[netioThreadIndex, netioThreadIndex + netioThreadCount)`. -/
theorem initializeNetio_striped (p : Process) (hcnt : 1 ≤ p.netioThreadCount)
    (hidx : 2 ≤ p.netioThreadIndex)
    (hmax : p.netioThreadIndex + p.netioThreadCount ≤ (MAXCPUCOUNT : Int)) :
    ∃ b2q, initializeNetio p = some b2q ∧ b2q.length = 512 ∧
      ∀ b : Nat, b < 512 → ∃ q, b2q[b]? = some q ∧
        q = p.netioThreadIndex + (b : Int) % p.netioThreadCount ∧
        p.netioThreadIndex ≤ q ∧ q < p.netioThreadIndex + p.netioThreadCount ∧
        q < (MAXCPUCOUNT : Int) ∧ q ≠ 0 ∧ q ≠ 1 := by
  refine ⟨_, initializeNetio_eq p (by omega), by simp, fun b hb => ?_⟩
  have hm : Int.tmod (b : Int) p.netioThreadCount = (b : Int) % p.netioThreadCount :=
    Int.tmod_eq_emod (by omega) (by omega)
  have h1 := Int.emod_nonneg (b : Int) (show p.netioThreadCount ≠ 0 by omega)
  have h2 := Int.emod_lt_of_pos (b : Int) (show 0 < p.netioThreadCount by omega)
  refine ⟨p.netioThreadIndex + (b : Int) % p.netioThreadCount, ?_, rfl, ?_, ?_, ?_, ?_, ?_⟩
  · rw [List.getElem?_map, List.getElem?_range hb, Option.map_some', hm]
  all_goals omega

theorem processInitialize_eq (controlIp : Fin 4 → UChar) (cpus : Int) (h0 : 0 ≤ cpus)
    (h1 : cpus < 64) :
    processInitialize controlIp cpus
      = some { control := { port := CONTROLPORT, ip := controlIp }, threadCount := cpus,
               netioThreadIndex := 2, netioThreadCount := cpus - 2 } := by
  unfold processInitialize
  simp only [MAXCPUCOUNT]
  rw [if_pos ⟨h0, by simpa using h1⟩]

/-- C29: `processInitialize` accepts every count of online CPUs in `[0, 64)`
and sets `netioThreadCount == threadCount - 2` with no lower bound: the bucket
map computation `n % netioThreadCount` of `initializeNetio` divides by zero
exactly when the count is 2, and for the counts 0, 1 and 2 `netioThreadCount`
is below 1. -/
theorem processInitialize_netioThreadCount (controlIp : Fin 4 → UChar) (cpus : Int)
    (h0 : 0 ≤ cpus) (h1 : cpus < 64) :
    ∃ p, processInitialize controlIp cpus = some p ∧ p.threadCount = cpus ∧
      p.netioThreadCount = cpus - 2 ∧ (1 ≤ p.netioThreadCount ↔ 3 ≤ cpus) ∧
      (initializeNetio p = none ↔ cpus = 2) := by
  refine ⟨_, processInitialize_eq controlIp cpus h0 h1, rfl, rfl, ?_, ?_⟩
  · simp only []
    omega
  · unfold initializeNetio
    simp only []
    constructor
    · intro h
      by_contra hne
      rw [if_neg (by omega)] at h
      exact absurd h (by simp)
    · intro h
      rw [if_pos (by omega)]

theorem processInitialize_netioThreadCount_witness :
    ∃ p, processInitialize ![10, 0, 0, 9] 2 = some p ∧ p.threadCount = 2 ∧
      p.netioThreadCount = 2 - 2 ∧ (1 ≤ p.netioThreadCount ↔ (3 : Int) ≤ 2) ∧
      (initializeNetio p = none ↔ (2 : Int) = 2) :=
  processInitialize_netioThreadCount ![10, 0, 0, 9] 2 (by decide) (by decide)

/-- C21: `processInitialize` accepts every count of online CPUs in `[0, 64)`,
and on the process it sets up the bucket map of `initializeNetio` has the
stated property (512 entries with
`b2q[b] == netioThreadIndex + (b mod netioThreadCount)`, every one of them a
queue in `[netioThreadIndex, netioThreadIndex + netioThreadCount)` and neither
queue 0 nor queue 1) exactly when there are at least 3 CPUs.  On 0, 1 or 2
CPUs it fails. -/
theorem initializeNetio_bucket_map (controlIp : Fin 4 → UChar) (cpus : Int)
    (h0 : 0 ≤ cpus) (h1 : cpus < 64) :
    ∃ p, processInitialize controlIp cpus = some p ∧
      ((∃ b2q, initializeNetio p = some b2q ∧ b2q.length = 512 ∧
          ∀ b : Nat, b < 512 → ∃ q, b2q[b]? = some q ∧
            q = p.netioThreadIndex + (b : Int) % p.netioThreadCount ∧
            p.netioThreadIndex ≤ q ∧ q < p.netioThreadIndex + p.netioThreadCount ∧
            q ≠ 0 ∧ q ≠ 1) ↔ 3 ≤ cpus) := by
  refine ⟨_, processInitialize_eq controlIp cpus h0 h1, ?_, ?_⟩
  · rintro ⟨b2q, _, _, hall⟩
    obtain ⟨q, _, _, hlo, hhi, _⟩ := hall 0 (by decide)
    simp only [] at hlo hhi
    omega
  · intro h3
    obtain ⟨b2q, hb, hlen, hall⟩ := initializeNetio_striped
      { control := { port := CONTROLPORT, ip := controlIp }, threadCount := cpus,
        netioThreadIndex := 2, netioThreadCount := cpus - 2 }
      (by simp only []; omega) (by simp only []; omega)
      (by simp only [MAXCPUCOUNT]; omega)
    refine ⟨b2q, hb, hlen, fun b hlt => ?_⟩
    obtain ⟨q, hq, he, hlo, hhi, _, hz, ho⟩ := hall b hlt
    exact ⟨q, hq, he, hlo, hhi, hz, ho⟩

theorem initializeNetio_bucket_map_witness :
    ∃ p, processInitialize ![10, 0, 0, 9] 1 = some p ∧
      ¬ ∃ b2q, initializeNetio p = some b2q ∧ b2q.length = 512 ∧
          ∀ b : Nat, b < 512 → ∃ q, b2q[b]? = some q ∧
            q = p.netioThreadIndex + (b : Int) % p.netioThreadCount ∧
            p.netioThreadIndex ≤ q ∧ q < p.netioThreadIndex + p.netioThreadCount ∧
            q ≠ 0 ∧ q ≠ 1 := by
  obtain ⟨p, hp, h⟩ := initializeNetio_bucket_map ![10, 0, 0, 9] 1 (by decide) (by decide)
  exact ⟨p, hp, fun hx => absurd (h.mp hx) (by decide)⟩

/-- On one CPU `processInitialize` sets `netioThreadCount` to -1 and the
bucket map sends every bucket to queue 2, which is outside the empty range
`[2, 1)` and is the queue of no thread. -/
theorem initializeNetio_one_cpu (controlIp : Fin 4 → UChar) :
    ∃ p, processInitialize controlIp 1 = some p ∧ p.threadCount = 1 ∧
      p.netioThreadIndex = 2 ∧ p.netioThreadCount = -1 ∧
      initializeNetio p = some (List.replicate 512 2) := by
  refine ⟨_, processInitialize_eq controlIp 1 (by decide) (by decide), rfl, rfl, rfl, ?_⟩
  rw [initializeNetio_eq _ (show ((1 : Int) - 2) ≠ 0 by decide)]
  apply congrArg some
  rw [List.eq_replicate_iff]
  refine ⟨by rw [List.length_map, List.length_range], fun b hb => ?_⟩
  rw [List.mem_map] at hb
  obtain ⟨n, _, rfl⟩ := hb
  show 2 + Int.tmod (n : Int) (1 - 2) = 2
  rw [show ((1 : Int) - 2) = -1 by decide, Int.tmod_neg, Int.tmod_one]
  rfl

/-! ## The forward path: claims C25 and C26 -/

theorem routeFromPortOfArrival_out_of_range (route : RouteTable) (poa : Int)
    (h : ¬ InRange poa) : routeFromPortOfArrival route poa = { index := -1, poa := poa } := by
  have hg : ¬ (poa - PORTOFFSET ≥ 0 ∧ poa - PORTOFFSET < (routeLimit : Int)) :=
    fun hg => h (InRange.of_guard hg)
  unfold routeFromPortOfArrival
  simp only [decide_eq_true_eq]
  rw [if_neg hg]

/-- C25: a failed route lookup on the forward path is caused by every frame
that `parsePacket` classifies as UDP-for-us and whose destination port lies
outside `[50000, 53840)`: on every table `routeFromPortOfArrival(pi.poa)`
returns index -1 and the assertion `rt.index >= 0` in
`forwardPacketOnQueueOrDrop` fails. -/
theorem forwardPacketOnQueueOrTap_stray_port (p : Process) (route : RouteTable)
    (answers : List NetioError) (t : Thread) (pkt : NetioPkt)
    (hudp : (parsePacket p pkt).isUdpForMe = true)
    (hout : ¬ InRange (parsePacket p pkt).poa) :
    (routeFromPortOfArrival route (parsePacket p pkt).poa).index = -1 ∧
    forwardPacketOnQueueOrTap p route answers t pkt = .assertFailed := by
  have hr := routeFromPortOfArrival_out_of_range route _ hout
  refine ⟨by rw [hr], ?_⟩
  unfold forwardPacketOnQueueOrTap forwardPacketOnQueueOrDrop
  simp only [hudp, if_true, hr]
  rfl

theorem forwardPacketOnQueueOrTap_stray_port_witness :
    (routeFromPortOfArrival (routeInitialize zeroTable)
      (parsePacket exampleProcess strayPkt).poa).index = -1 ∧
    forwardPacketOnQueueOrTap exampleProcess (routeInitialize zeroTable)
      [.NETIO_NO_ERROR] {} strayPkt = .assertFailed :=
  forwardPacketOnQueueOrTap_stray_port exampleProcess (routeInitialize zeroTable)
    [.NETIO_NO_ERROR] {} strayPkt (by decide) (by decide)

theorem routeFromPortOfArrival_in_range (route : RouteTable) (poa : Int)
    (hinv : TableInv route) (hpoa : InRange poa) :
    routeFromPortOfArrival route poa = route.get (poa - PORTOFFSET).toNat ∧
    (routeFromPortOfArrival route poa).index = poa - PORTOFFSET := by
  have hslot := hinv _ hpoa.toNat_lt
  have hn : ((poa - PORTOFFSET).toNat : Int) = poa - PORTOFFSET := by
    unfold InRange at hpoa; omega
  have h : routeFromPortOfArrival route poa = route.get (poa - PORTOFFSET).toNat := by
    unfold routeFromPortOfArrival
    simp only [decide_eq_true_eq]
    rw [if_pos hpoa.guard, if_pos (by rw [hslot.2, hn]; omega)]
  exact ⟨h, by rw [h, hslot.1, hn]⟩

theorem sendLoop_answers (k : Nat) (err : NetioError) (more : List NetioError)
    (h : err ≠ .NETIO_QUEUE_FULL) :
    sendLoop (List.replicate k .NETIO_QUEUE_FULL ++ err :: more) = some err := by
  induction k with
  | zero => simp [sendLoop, h]
  | succ k ih =>
    rw [List.replicate_succ, List.cons_append, sendLoop, if_pos rfl, ih]

/-- C26: for every packet with `poa` in `[50000, 53840)`, on a table with the
table invariant, when `netio_send_packet` answers `NETIO_QUEUE_FULL` `k` times
and then `err`: `forwardPacketOnQueueOrDrop` counts the packet in
`recv[index]`; when the status is OK and the route is open it rewrites the
packet and, if `err` is `NETIO_NO_ERROR`, returns 0 and increments
`send[index]`, otherwise returns 1 and increments `drop[index]`; when the
status is not OK or the route is closed it returns 1 and increments
`drop[index]` with the packet bytes unchanged.  So it returns 0 if and only if
the status is OK, the route is open and the NIC finally answers
`NETIO_NO_ERROR`. -/
theorem forwardPacketOnQueueOrDrop_cases (route : RouteTable) (k : Nat) (err : NetioError)
    (more : List NetioError) (t : Thread) (mem : Memory) (pi : PacketInfo)
    (hinv : TableInv route) (hpoa : InRange pi.poa) (herr : err ≠ .NETIO_QUEUE_FULL) :
    (routeFromPortOfArrival route pi.poa).index = pi.poa - PORTOFFSET ∧
    forwardPacketOnQueueOrDrop route (List.replicate k .NETIO_QUEUE_FULL ++ err :: more) t mem pi
      = .returned
          (if pi.status = NETIO_PKT_STATUS_OK ∧
              (routeFromPortOfArrival route pi.poa).«open» ≠ 0 then
            if err = .NETIO_NO_ERROR then
              (0, { t with recv := bump t.recv (pi.poa - PORTOFFSET).toNat,
                           send := bump t.send (pi.poa - PORTOFFSET).toNat },
                updateUdpPacket mem pi (routeFromPortOfArrival route pi.poa) pi.poa)
            else
              (1, { t with recv := bump t.recv (pi.poa - PORTOFFSET).toNat,
                           drop := bump t.drop (pi.poa - PORTOFFSET).toNat },
                updateUdpPacket mem pi (routeFromPortOfArrival route pi.poa) pi.poa)
          else
            (1, { t with recv := bump t.recv (pi.poa - PORTOFFSET).toNat,
                         drop := bump t.drop (pi.poa - PORTOFFSET).toNat }, mem)) ∧
    ((∃ t' mem', forwardPacketOnQueueOrDrop route
          (List.replicate k .NETIO_QUEUE_FULL ++ err :: more) t mem pi
        = .returned (0, t', mem')) ↔
      (pi.status = NETIO_PKT_STATUS_OK ∧ (routeFromPortOfArrival route pi.poa).«open» ≠ 0 ∧
        err = .NETIO_NO_ERROR)) := by
  have hidx := (routeFromPortOfArrival_in_range route pi.poa hinv hpoa).2
  have hnn : ¬ (routeFromPortOfArrival route pi.poa).index < 0 := by
    rw [hidx]; unfold InRange at hpoa; omega
  have hnn2 : ¬ pi.poa - PORTOFFSET < 0 := by
    unfold InRange at hpoa; omega
  have hsl := sendLoop_answers k err more herr
  have heq : forwardPacketOnQueueOrDrop route
      (List.replicate k .NETIO_QUEUE_FULL ++ err :: more) t mem pi
      = .returned
          (if pi.status = NETIO_PKT_STATUS_OK ∧
              (routeFromPortOfArrival route pi.poa).«open» ≠ 0 then
            if err = .NETIO_NO_ERROR then
              (0, { t with recv := bump t.recv (pi.poa - PORTOFFSET).toNat,
                           send := bump t.send (pi.poa - PORTOFFSET).toNat },
                updateUdpPacket mem pi (routeFromPortOfArrival route pi.poa) pi.poa)
            else
              (1, { t with recv := bump t.recv (pi.poa - PORTOFFSET).toNat,
                           drop := bump t.drop (pi.poa - PORTOFFSET).toNat },
                updateUdpPacket mem pi (routeFromPortOfArrival route pi.poa) pi.poa)
          else
            (1, { t with recv := bump t.recv (pi.poa - PORTOFFSET).toNat,
                         drop := bump t.drop (pi.poa - PORTOFFSET).toNat }, mem)) := by
    unfold forwardPacketOnQueueOrDrop
    simp only [if_neg hnn, hidx, if_neg hnn2, hsl]
    by_cases hs : pi.status = NETIO_PKT_STATUS_OK
    · by_cases ho : (routeFromPortOfArrival route pi.poa).«open» ≠ 0
      · by_cases he : err = .NETIO_NO_ERROR
        · simp [hs, ho, he]
        · simp [hs, ho, he]
      · simp [hs, ho]
    · simp [hs]
  refine ⟨hidx, heq, ?_⟩
  rw [heq]
  constructor
  · rintro ⟨t', mem', h⟩
    by_cases hc : pi.status = NETIO_PKT_STATUS_OK ∧
        (routeFromPortOfArrival route pi.poa).«open» ≠ 0
    · rw [if_pos hc] at h
      by_cases he : err = .NETIO_NO_ERROR
      · exact ⟨hc.1, hc.2, he⟩
      · rw [if_neg he] at h
        simp at h
    · rw [if_neg hc] at h
      simp at h
  · rintro ⟨hs, ho, he⟩
    rw [if_pos ⟨hs, ho⟩, if_pos he]
    exact ⟨_, _, rfl⟩

theorem goodPkt_route_open :
    (parsePacket exampleProcess goodPkt).status = NETIO_PKT_STATUS_OK ∧
    (routeFromPortOfArrival openTable (parsePacket exampleProcess goodPkt).poa).«open» ≠ 0 := by
  have hp : (parsePacket exampleProcess goodPkt).poa = 50000 := by decide
  refine ⟨by decide, ?_⟩
  rw [hp, (routeFromPortOfArrival_in_range openTable 50000 openTable_inv (by decide)).1]
  exact openTable_slot

theorem goodPkt_route_closed :
    (routeFromPortOfArrival (routeInitialize zeroTable)
      (parsePacket exampleProcess goodPkt).poa).«open» = 0 := by
  have hp : (parsePacket exampleProcess goodPkt).poa = 50000 := by decide
  rw [hp, (routeFromPortOfArrival_in_range (routeInitialize zeroTable) 50000
    (routeInitialize_inv zeroTable) (by decide)).1, routeInitialize_get _ _ (by decide)]

theorem forwardPacketOnQueueOrDrop_cases_witness :
    forwardPacketOnQueueOrDrop openTable [.NETIO_QUEUE_FULL, .NETIO_NO_ERROR] {} goodPkt.mem
        (parsePacket exampleProcess goodPkt)
      = .returned (0,
          { ({} : Thread) with
            recv := bump ({} : Thread).recv
              ((parsePacket exampleProcess goodPkt).poa - PORTOFFSET).toNat,
            send := bump ({} : Thread).send
              ((parsePacket exampleProcess goodPkt).poa - PORTOFFSET).toNat },
          updateUdpPacket goodPkt.mem (parsePacket exampleProcess goodPkt)
            (routeFromPortOfArrival openTable (parsePacket exampleProcess goodPkt).poa)
            (parsePacket exampleProcess goodPkt).poa) ∧
    forwardPacketOnQueueOrDrop openTable [.NETIO_QUEUE_FULL, .other 5] {} goodPkt.mem
        (parsePacket exampleProcess goodPkt)
      = .returned (1,
          { ({} : Thread) with
            recv := bump ({} : Thread).recv
              ((parsePacket exampleProcess goodPkt).poa - PORTOFFSET).toNat,
            drop := bump ({} : Thread).drop
              ((parsePacket exampleProcess goodPkt).poa - PORTOFFSET).toNat },
          updateUdpPacket goodPkt.mem (parsePacket exampleProcess goodPkt)
            (routeFromPortOfArrival openTable (parsePacket exampleProcess goodPkt).poa)
            (parsePacket exampleProcess goodPkt).poa) ∧
    forwardPacketOnQueueOrDrop (routeInitialize zeroTable) [.NETIO_NO_ERROR] {} goodPkt.mem
        (parsePacket exampleProcess goodPkt)
      = .returned (1,
          { ({} : Thread) with
            recv := bump ({} : Thread).recv
              ((parsePacket exampleProcess goodPkt).poa - PORTOFFSET).toNat,
            drop := bump ({} : Thread).drop
              ((parsePacket exampleProcess goodPkt).poa - PORTOFFSET).toNat },
          goodPkt.mem) := by
  have h1 := (forwardPacketOnQueueOrDrop_cases openTable 1 .NETIO_NO_ERROR [] {} goodPkt.mem
    (parsePacket exampleProcess goodPkt) openTable_inv (by decide) (by decide)).2.1
  have h2 := (forwardPacketOnQueueOrDrop_cases openTable 1 (.other 5) [] {} goodPkt.mem
    (parsePacket exampleProcess goodPkt) openTable_inv (by decide) (by decide)).2.1
  have h3 := (forwardPacketOnQueueOrDrop_cases (routeInitialize zeroTable) 0 .NETIO_NO_ERROR []
    {} goodPkt.mem (parsePacket exampleProcess goodPkt) (routeInitialize_inv zeroTable)
    (by decide) (by decide)).2.1
  rw [if_pos goodPkt_route_open, if_pos rfl] at h1
  rw [if_pos goodPkt_route_open, if_neg (by decide)] at h2
  rw [if_neg (fun h => h.2 goodPkt_route_closed)] at h3
  exact ⟨h1, h2, h3⟩

/-! ## Reads outside the packet and the one-field route string: claims C27 and C28 -/

/-- Every frame has the bytes at L3 offsets 22 and 23 read, before any test of
its length. -/
theorem parsePacketReads_port (p : Process) (pkt : NetioPkt) :
    22 ∈ parsePacketReads p pkt ∧ 23 ∈ parsePacketReads p pkt := by
  unfold parsePacketReads
  simp only []
  constructor <;> (repeat' split) <;> simp

theorem parsePacketReads_udp (p : Process) (pkt : NetioPkt)
    (hudp : (parsePacket p pkt).isUdpForMe = true) :
    parsePacketReads p pkt
      = [22, 23, 9, 0, 0, (parsePacket p pkt).ipHeaderSize + 2,
          (parsePacket p pkt).ipHeaderSize + 2 + 1] := by
  have h4 := parsePacket_ipHeaderSize p pkt hudp
  rw [parsePacket_isUdpForMe_eq] at hudp
  simp only [Bool.and_eq_true, decide_eq_true_eq, Nat.add_zero] at hudp
  obtain ⟨⟨⟨h1, h2⟩, h3⟩, hm⟩ := hudp
  unfold parsePacketReads
  simp only [Nat.add_zero]
  rw [if_pos h1, if_pos h2, if_pos h3, if_pos hm, h4]
  simp only [Nat.shiftRight_zero, and_0f_left, ihl, List.cons_append, List.nil_append]

/-- C27: `parsePacket` reads destination-port bytes outside the packet.  For
every frame classified UDP-for-us whose L3 length is at most
`ipHeaderSize + 3`, the byte at L3 offset `ipHeaderSize + 3` is read although
it lies at or behind `l3Length`; nothing in `parsePacket` bounds
`ipHeaderSize` by the length. -/
theorem parsePacket_reads_beyond_packet (p : Process) (pkt : NetioPkt)
    (hudp : (parsePacket p pkt).isUdpForMe = true)
    (hshort : pkt.l3Length ≤ (parsePacket p pkt).ipHeaderSize + 3) :
    (parsePacket p pkt).ipHeaderSize + 3 ∈ parsePacketReads p pkt ∧
    ¬ (∀ off ∈ parsePacketReads p pkt, off < pkt.l3Length) ∧
    ¬ ((parsePacket p pkt).ipHeaderSize + 8 ≤ pkt.l3Length) := by
  have hmem : (parsePacket p pkt).ipHeaderSize + 3 ∈ parsePacketReads p pkt := by
    rw [parsePacketReads_udp p pkt hudp]
    simp
  refine ⟨hmem, fun h => ?_, by omega⟩
  have := h _ hmem
  omega

theorem parsePacket_reads_beyond_packet_witness :
    (parsePacket exampleProcess ihl15Pkt).ipHeaderSize + 3
      ∈ parsePacketReads exampleProcess ihl15Pkt ∧
    ¬ (∀ off ∈ parsePacketReads exampleProcess ihl15Pkt, off < ihl15Pkt.l3Length) ∧
    ¬ ((parsePacket exampleProcess ihl15Pkt).ipHeaderSize + 8 ≤ ihl15Pkt.l3Length) :=
  parsePacket_reads_beyond_packet exampleProcess ihl15Pkt (by decide) (by decide)

/-- C28: a route string in which the route format matches only the field
`from` does not close the route: for every such string (scan count 1) and
every value of `from`, the assertion
`result.poa >= PORTOFFSET && result.poa < routeLimit` of `routeFromString`
fails, because `routeLimit` is 3840 and no value is at least 50000 and below
3840. -/
theorem routeFromString_from_only_asserts (s : List UChar)
    (hc : (sscanf s JSONROUTEFMT).count = 1) :
    (sscanf s JSONROUTEFMT).vals.length = 1 ∧
    ¬ ((sscanf s JSONROUTEFMT).vals.getD 0 (-1) ≥ PORTOFFSET ∧
       (sscanf s JSONROUTEFMT).vals.getD 0 (-1) < (routeLimit : Int)) ∧
    routeFromString s = none := by
  have hcount := sscanfLoop_count (parseFormat (cstr JSONROUTEFMT)) s []
  have hno : ∀ v : Int, ¬ (v ≥ PORTOFFSET ∧ v < (routeLimit : Int)) := by
    intro v
    rw [routeLimit_eq]
    simp only [PORTOFFSET]
    omega
  unfold routeFromString
  unfold sscanf at hc ⊢
  generalize sscanfLoop (parseFormat (cstr JSONROUTEFMT)) s [] = sc at hcount hc ⊢
  obtain ⟨count, vals⟩ := sc
  simp only at hcount hc ⊢
  subst hc
  rcases hcount with h | ⟨h, _⟩
  · refine ⟨by omega, hno _, ?_⟩
    simp [hno]
  · omega

theorem routeFromString_from_only_asserts_witness :
    (sscanf fromOnly JSONROUTEFMT).vals.length = 1 ∧
    ¬ ((sscanf fromOnly JSONROUTEFMT).vals.getD 0 (-1) ≥ PORTOFFSET ∧
       (sscanf fromOnly JSONROUTEFMT).vals.getD 0 (-1) < (routeLimit : Int)) ∧
    routeFromString fromOnly = none :=
  routeFromString_from_only_asserts fromOnly (by decide)

/-! ## The tester's packets: claims C22 and C23 -/

theorem fillBuffer_apply (mem : Memory) (buffer size n a : Nat) :
    fillBuffer mem buffer size n a =
      if buffer ≤ a ∧ a < buffer + size then toUChar (n >>> (8 * ((a - buffer) % 8)))
      else mem a := by
  unfold fillBuffer
  induction size with
  | zero =>
    simp only [List.range_zero, List.foldl_nil]
    rw [if_neg (by omega)]
  | succ k ih =>
    rw [List.range_succ, List.foldl_append, List.foldl_cons, List.foldl_nil, store_apply, ih]
    by_cases h1 : a = buffer + k
    · subst h1
      rw [if_pos rfl, if_pos (by omega)]
      simp
    · rw [if_neg h1]
      by_cases h2 : buffer ≤ a ∧ a < buffer + k
      · rw [if_pos h2, if_pos (by omega)]
      · rw [if_neg h2, if_neg (by omega)]

/-- The writes of `buildPacket`, with the bytes that only depend on the
sizes left abstract. -/
theorem buildPacket_writes (mem : Memory) (l2Length n : Nat) (dst src : Endpoint) :
    ∃ v15 v16 v17 v20 v21 v22 v24 v25 v38 v39 v40 v41 : UChar, ∃ ty id : Fin 2 → UChar,
      buildPacket mem l2Length n dst src =
        fillBuffer
          (store (store (store (store (store (store (store (store
            (memcpy (memcpy
              (store (store (store (store (store (store
                (memcpy
                  (store (store (store (store
                    (memcpy (memcpy (memcpy mem 0 dst.mac) 6 src.mac) 12 ty)
                    14 (toUChar 0x45)) 15 v15) 16 v16) 17 v17)
                  18 id)
                20 v20) 21 v21) 22 v22) 23 (toUChar 0x11)) 24 v24) 25 v25)
              26 src.ip) 30 dst.ip)
            34 (toUChar (0xff &&& toUnsigned (src.port >>> (8 : Nat)))))
            35 (toUChar (0xff &&& toUnsigned (src.port >>> (0 : Nat)))))
            36 (toUChar (0xff &&& toUnsigned (dst.port >>> (8 : Nat)))))
            37 (toUChar (0xff &&& toUnsigned (dst.port >>> (0 : Nat)))))
            38 v38) 39 v39) 40 v40) 41 v41)
          42 (0 + l2Length - 42) n :=
  ⟨_, _, _, _, _, _, _, _, _, _, _, _, _, _, rfl⟩

theorem store_ne (mem : Memory) (p : Nat) (v : UChar) (a : Nat) (h : a ≠ p) :
    store mem p v a = mem a := by
  rw [store_apply, if_neg h]

theorem memcpy_out {k : Nat} (mem : Memory) (dst : Nat) (src : Fin k → UChar) (a : Nat)
    (h : a < dst ∨ dst + k ≤ a) : memcpy mem dst src a = mem a := by
  rw [memcpy_apply, dif_neg (by omega)]

theorem fillBuffer_out (mem : Memory) (buffer size n a : Nat) (h : a < buffer) :
    fillBuffer mem buffer size n a = mem a := by
  rw [fillBuffer_apply, if_neg (by omega)]

theorem buildPacket_dstMac (mem : Memory) (l2Length n : Nat) (dst src : Endpoint) (i : Fin 6) :
    buildPacket mem l2Length n dst src i.val = dst.mac i := by
  have hi := i.isLt
  obtain ⟨v15, v16, v17, v20, v21, v22, v24, v25, v38, v39, v40, v41, ty, id, h⟩ :=
    buildPacket_writes mem l2Length n dst src
  rw [h, fillBuffer_out _ _ _ _ _ (by omega)]
  simp (disch := omega) only [store_ne, memcpy_out]
  have := memcpy_at mem 0 dst.mac i
  rw [Nat.zero_add] at this
  exact this

theorem buildPacket_dstIp (mem : Memory) (l2Length n : Nat) (dst src : Endpoint) (i : Fin 4) :
    buildPacket mem l2Length n dst src (30 + i.val) = dst.ip i := by
  have hi := i.isLt
  obtain ⟨v15, v16, v17, v20, v21, v22, v24, v25, v38, v39, v40, v41, ty, id, h⟩ :=
    buildPacket_writes mem l2Length n dst src
  rw [h, fillBuffer_out _ _ _ _ _ (by omega)]
  simp (disch := omega) only [store_ne]
  exact memcpy_at _ 30 dst.ip i

theorem buildPacket_srcMac (mem : Memory) (l2Length n : Nat) (dst src : Endpoint) (i : Fin 6) :
    buildPacket mem l2Length n dst src (6 + i.val) = src.mac i := by
  have hi := i.isLt
  obtain ⟨v15, v16, v17, v20, v21, v22, v24, v25, v38, v39, v40, v41, ty, id, h⟩ :=
    buildPacket_writes mem l2Length n dst src
  rw [h, fillBuffer_out _ _ _ _ _ (by omega)]
  simp (disch := omega) only [store_ne, memcpy_out]
  exact memcpy_at _ 6 src.mac i

theorem buildPacket_srcIp (mem : Memory) (l2Length n : Nat) (dst src : Endpoint) (i : Fin 4) :
    buildPacket mem l2Length n dst src (26 + i.val) = src.ip i := by
  have hi := i.isLt
  obtain ⟨v15, v16, v17, v20, v21, v22, v24, v25, v38, v39, v40, v41, ty, id, h⟩ :=
    buildPacket_writes mem l2Length n dst src
  rw [h, fillBuffer_out _ _ _ _ _ (by omega)]
  simp (disch := omega) only [store_ne, memcpy_out]
  exact memcpy_at _ 26 src.ip i

theorem buildPacket_fixed (mem : Memory) (l2Length n : Nat) (dst src : Endpoint) :
    buildPacket mem l2Length n dst src 14 = toUChar 0x45 ∧
    buildPacket mem l2Length n dst src 23 = toUChar 0x11 ∧
    buildPacket mem l2Length n dst src 36
      = toUChar (0xff &&& toUnsigned (dst.port >>> (8 : Nat))) ∧
    buildPacket mem l2Length n dst src 37
      = toUChar (0xff &&& toUnsigned (dst.port >>> (0 : Nat))) := by
  obtain ⟨v15, v16, v17, v20, v21, v22, v24, v25, v38, v39, v40, v41, ty, id, h⟩ :=
    buildPacket_writes mem l2Length n dst src
  rw [h]
  refine ⟨?_, ?_, ?_, ?_⟩ <;> rw [fillBuffer_out _ _ _ _ _ (by omega)] <;>
    simp (disch := omega) only [store_ne, memcpy_out] <;> rw [store_apply, if_pos rfl]

theorem buildPacket_payload (mem : Memory) (l2Length n : Nat) (dst src : Endpoint) (j : Nat)
    (hj : 42 + j < l2Length) :
    buildPacket mem l2Length n dst src (42 + j) = toUChar (n >>> (8 * (j % 8))) := by
  obtain ⟨v15, v16, v17, v20, v21, v22, v24, v25, v38, v39, v40, v41, ty, id, h⟩ :=
    buildPacket_writes mem l2Length n dst src
  rw [h, fillBuffer_apply, if_pos (by omega), Nat.add_sub_cancel_left]

theorem portBytes_tester (port : Int) (h0 : 0 ≤ port) (h1 : port ≤ 65535) :
    (((toUChar (0xff &&& toUnsigned (port >>> (8 : Nat)))).val * 256
      + (toUChar (0xff &&& toUnsigned (port >>> (0 : Nat)))).val : Nat) : Int) = port := by
  rw [int_shr8, int_shr0]
  simp only [toUChar, toUnsigned, Nat.and_comm 0xff, and_ff_right]
  omega

/-- C23: every packet that `packetSendOne` builds for a route `rt` with a
port of arrival in `[0, 65535]` carries `rt.poa` as its UDP destination port,
but it is addressed to the endpoint `process.control`, not to
`process.forward`: its destination MAC (L2 bytes 0..5) is
`process.control.mac` and its destination IP (L3 bytes 16..19) is
`process.control.ip`, while `process.forward.mac` and `process.forward.ip` are
its source MAC (L2 bytes 6..11) and source IP (L3 bytes 12..15). -/
theorem packetSendOne_addresses (p : Process) (answers : List NetioError) (buf : Memory)
    (packetCount : Nat → Nat) (t : Thread) (rt : Route)
    (hnic : sendLoop answers = some .NETIO_NO_ERROR) (h0 : 0 ≤ rt.poa) (h1 : rt.poa ≤ 65535) :
    ∃ t' mem, packetSendOne p answers buf packetCount t rt = .returned (t', some mem) ∧
      (∀ i : Fin 6, mem i.val = p.control.mac i) ∧
      (∀ i : Fin 4, mem (14 + 16 + i.val) = p.control.ip i) ∧
      (∀ i : Fin 6, mem (6 + i.val) = p.forward.mac i) ∧
      (∀ i : Fin 4, mem (14 + 12 + i.val) = p.forward.ip i) ∧
      (((mem (14 + 20 + 2)).val * 256 + (mem (14 + 20 + 3)).val : Nat) : Int) = rt.poa ∧
      (p.control.mac ≠ p.forward.mac → ¬ ∀ i : Fin 6, mem i.val = p.forward.mac i) ∧
      (p.control.ip ≠ p.forward.ip → ¬ ∀ i : Fin 4, mem (14 + 16 + i.val) = p.forward.ip i) := by
  unfold packetSendOne
  simp only [hnic, if_true]
  refine ⟨_, _, rfl, ?_, ?_, ?_, ?_, ?_, ?_, ?_⟩
  · intro i; exact buildPacket_dstMac _ _ _ _ _ i
  · intro i
    rw [show 14 + 16 + i.val = 30 + i.val by omega]
    exact buildPacket_dstIp _ _ _ _ _ i
  · intro i; exact buildPacket_srcMac _ _ _ _ _ i
  · intro i
    rw [show 14 + 12 + i.val = 26 + i.val by omega]
    exact buildPacket_srcIp _ _ _ _ _ i
  · have hf := buildPacket_fixed buf PACKETSIZE (packetCount rt.index.toNat)
      { p.control with port := rt.poa } { p.forward with port := rt.poa }
    rw [hf.2.2.1, hf.2.2.2]
    exact portBytes_tester rt.poa h0 h1
  · intro hne hall
    apply hne
    funext i
    have h := hall i
    rw [buildPacket_dstMac] at h
    exact h
  · intro hne hall
    apply hne
    funext i
    have h := hall i
    rw [show 14 + 16 + i.val = 30 + i.val by omega, buildPacket_dstIp] at h
    exact h

theorem packetSendOne_addresses_witness :
    ∃ t' mem, packetSendOne testerProcess [.NETIO_NO_ERROR] (fun _ => 0) (fun _ => 0) {}
        (routeTo 50000 ![172, 18, 11, 200]) = .returned (t', some mem) ∧
      (∀ i : Fin 6, mem i.val = testerProcess.control.mac i) ∧
      (∀ i : Fin 4, mem (14 + 16 + i.val) = testerProcess.control.ip i) ∧
      (∀ i : Fin 6, mem (6 + i.val) = testerProcess.forward.mac i) ∧
      (∀ i : Fin 4, mem (14 + 12 + i.val) = testerProcess.forward.ip i) ∧
      (((mem (14 + 20 + 2)).val * 256 + (mem (14 + 20 + 3)).val : Nat) : Int)
        = (routeTo 50000 ![172, 18, 11, 200]).poa ∧
      (testerProcess.control.mac ≠ testerProcess.forward.mac →
        ¬ ∀ i : Fin 6, mem i.val = testerProcess.forward.mac i) ∧
      (testerProcess.control.ip ≠ testerProcess.forward.ip →
        ¬ ∀ i : Fin 4, mem (14 + 16 + i.val) = testerProcess.forward.ip i) :=
  packetSendOne_addresses testerProcess [.NETIO_NO_ERROR] (fun _ => 0) (fun _ => 0) {}
    (routeTo 50000 ![172, 18, 11, 200]) (by decide) (by decide) (by decide)

/-- The packet that `packetSendOne` builds for `testerProcess` is not
addressed to the forwarding endpoint: its destination MAC is all zero. -/
theorem testerProcess_destination :
    testerProcess.control.mac ≠ testerProcess.forward.mac ∧
    testerProcess.control.ip ≠ testerProcess.forward.ip := by
  decide

theorem or_byte (x : Nat) (b : UChar) :
    ((x <<< 8) % 18446744073709551616) ||| b.val
      = 256 * (x % 72057594037927936) + b.val := by
  have h1 : (x <<< 8) % 18446744073709551616 = 2 ^ 8 * (x % 72057594037927936) := by
    rw [Nat.shiftLeft_eq, Nat.mul_comm x,
      show (18446744073709551616 : Nat) = 2 ^ 8 * 72057594037927936 by norm_num,
      Nat.mul_mod_mul_left]
  rw [h1, ← Nat.mul_add_lt_is_or (by simp)]

theorem packetNumber_filled (mem : Memory) (pN n : Nat) (hn : n < 18446744073709551616)
    (hb : ∀ j, j < 8 → mem (pN + j) = toUChar (n >>> (8 * j))) :
    packetNumber mem pN = n := by
  unfold packetNumber
  simp only [List.foldl, or_byte]
  rw [hb 7 (by omega), hb 6 (by omega), hb 5 (by omega), hb 4 (by omega), hb 3 (by omega),
    hb 2 (by omega), hb 1 (by omega), hb 0 (by omega)]
  simp only [toUChar, Nat.shiftRight_eq_div_pow]
  norm_num
  omega

theorem incr64_lt (k : Nat) (hk : k + 1 < 18446744073709551616) : incr64 k = k + 1 := by
  unfold incr64
  omega

/-- One round of the tester on a packet that came back on route `i` carrying
the number `k`, when the count of the route is `k`. -/
theorem packetReceiveAndSend_step (p : Process) (route : RouteTable)
    (answers : List NetioError) (buf : Memory) (packetCount : Nat → Nat) (t : Thread)
    (rcvd : NetioPkt) (i k : Nat) (sent : Memory)
    (hinv : TableInv route) (hi : i < 3840) (hret : Returns p i sent rcvd)
    (hsent : ∀ j, j < 8 → sent (UDPPAYLOADOFFSET + j) = toUChar (k >>> (8 * j)))
    (hk : k + 1 < 18446744073709551616) (hpc : packetCount i = k)
    (hnic : sendLoop answers = some .NETIO_NO_ERROR)
    (h0 : 0 ≤ p.packetCount) (h1 : p.packetCount < 18446744073709551616) :
    packetNumber rcvd.mem ((parsePacket p rcvd).l2Data + (parsePacket p rcvd).allHeadersSize)
      = k ∧
    ∃ t' packetCount', packetReceiveAndSend p route answers buf packetCount t rcvd
        = .returned (t', packetCount',
            (if k < p.packetCount.toNat then some (testerPacket p buf i (k + 1)) else none),
            none) ∧
      t'.drop = t.drop ∧ t'.recv = bump t.recv i ∧
      t'.send = (if k < p.packetCount.toNat then bump t.send i else t.send) ∧
      packetCount' i = k + 1 ∧ ∀ j, j ≠ i → packetCount' j = packetCount j := by
  obtain ⟨hudp, hpoa, hpay⟩ := hret
  have hin : InRange (parsePacket p rcvd).poa := by
    rw [hpoa]; unfold InRange; simp only [PORTOFFSET]; omega
  obtain ⟨hrt, hidx⟩ := routeFromPortOfArrival_in_range route _ hinv hin
  have hn : ((parsePacket p rcvd).poa - PORTOFFSET).toNat = i := by
    rw [hpoa]; omega
  have hslot := hinv i (by rw [routeLimit_eq]; exact hi)
  have hnum : packetNumber rcvd.mem
      ((parsePacket p rcvd).l2Data + (parsePacket p rcvd).allHeadersSize) = k := by
    apply packetNumber_filled _ _ _ (by omega)
    intro j hj
    rw [parsePacket_l2Data, Nat.zero_add, hpay j hj, hsent j hj]
  refine ⟨hnum, ?_⟩
  have hidx0 : ¬ (routeFromPortOfArrival route (parsePacket p rcvd).poa).index < 0 := by
    rw [hidx, hpoa]; omega
  have hidxn : (routeFromPortOfArrival route (parsePacket p rcvd).poa).index.toNat = i := by
    rw [hidx]; exact hn
  have hlim : (p.packetCount % 18446744073709551616).toNat = p.packetCount.toNat := by
    omega
  have hrpoa : (routeFromPortOfArrival route (parsePacket p rcvd).poa).poa
      = PORTOFFSET + (i : Int) := by
    rw [hrt, hn]; exact hslot.2
  unfold packetReceiveAndSend
  simp only [hudp, if_true, if_neg hidx0, hidxn, hnum, hpc, ne_eq, not_true_eq_false, if_false,
    hlim]
  by_cases hlt : k < p.packetCount.toNat
  · have hb : bump (fun j => if j = i then k else packetCount j) i i = k + 1 := by
      simp only [bump, if_true]
      exact incr64_lt k hk
    simp only [if_pos hlt, packetSendOne, hnic, if_true, hidxn, hrpoa, hb, testerPacket]
    refine ⟨⟨t.drop, bump t.recv i, bump t.send i,
      bump t.status (parsePacket p rcvd).status, t.tap⟩,
      bump (fun j => if j = i then k else packetCount j) i, rfl, rfl, rfl, rfl, hb, ?_⟩
    intro j hj
    simp only [bump, if_neg hj]
  · simp only [if_neg hlt]
    refine ⟨⟨t.drop, bump t.recv i, t.send,
      bump t.status (parsePacket p rcvd).status, t.tap⟩,
      bump (fun j => if j = i then k else packetCount j) i, rfl, rfl, rfl, rfl, ?_, ?_⟩
    · simp only [bump, if_true]
      exact incr64_lt k hk
    · intro j hj
      simp only [bump, if_neg hj]

theorem testerPacket_payload (p : Process) (buf : Memory) (i k j : Nat) (hj : j < 8) :
    testerPacket p buf i k (UDPPAYLOADOFFSET + j) = toUChar (k >>> (8 * j)) := by
  have h := buildPacket_payload buf PACKETSIZE k
    { p.control with port := PORTOFFSET + (i : Int) }
    { p.forward with port := PORTOFFSET + (i : Int) } j
    (by simp only [PACKETSIZE, UDPPAYLOADOFFSET, UDPHEADERSIZE, MINIPHEADERSIZE,
      ETHERNETHEADERSIZE, UDPPAYLOADSIZE]; omega)
  rw [Nat.mod_eq_of_lt hj] at h
  exact h

/-- The run of the tester on route `i` from the packet numbered `k` on, when
the network brings every packet back. -/
theorem testerRun_from (p : Process) (route : RouteTable) (answers : List NetioError)
    (buf : Memory) (network : Memory → NetioPkt) (i packets : Nat)
    (hinv : TableInv route) (hi : i < 3840)
    (hlimit : p.packetCount = (packets : Int)) (hpk : packets < 2147483648)
    (hnic : sendLoop answers = some .NETIO_NO_ERROR)
    (hnet : ∀ k, Returns p i (testerPacket p buf i k) (network (testerPacket p buf i k))) :
    ∀ (m k rounds : Nat) (t : Thread) (packetCount : Nat → Nat),
      k + m = packets → packetCount i = k → m < rounds →
      ∃ t' packetCount',
        testerRun p route answers buf network rounds t packetCount
            (network (testerPacket p buf i k))
          = .returned (List.range' k (m + 1), t', packetCount') ∧
        t'.drop = t.drop ∧ packetCount' i = packets + 1 := by
  intro m
  induction m with
  | zero =>
    intro k rounds t packetCount hkm hpc hr
    obtain ⟨r, rfl⟩ : ∃ r, rounds = r + 1 := ⟨rounds - 1, by omega⟩
    obtain ⟨hnum, t', pc', hstep, hdrop, _, _, hpc', _⟩ :=
      packetReceiveAndSend_step p route answers buf packetCount t
        (network (testerPacket p buf i k)) i k (testerPacket p buf i k) hinv hi (hnet k)
        (fun j hj => testerPacket_payload p buf i k j hj) (by omega) hpc hnic
        (by omega) (by omega)
    rw [if_neg (by omega)] at hstep
    refine ⟨t', pc', ?_, hdrop, by omega⟩
    simp only [testerRun, hstep, hnum]
    rfl
  | succ m ih =>
    intro k rounds t packetCount hkm hpc hr
    obtain ⟨r, rfl⟩ : ∃ r, rounds = r + 1 := ⟨rounds - 1, by omega⟩
    obtain ⟨hnum, t', pc', hstep, hdrop, _, _, hpc', _⟩ :=
      packetReceiveAndSend_step p route answers buf packetCount t
        (network (testerPacket p buf i k)) i k (testerPacket p buf i k) hinv hi (hnet k)
        (fun j hj => testerPacket_payload p buf i k j hj) (by omega) hpc hnic
        (by omega) (by omega)
    rw [if_pos (by omega)] at hstep
    obtain ⟨t'', pc'', hrun, hdrop', hfin⟩ := ih (k + 1) r t' pc' (by omega) hpc' (by omega)
    refine ⟨t'', pc'', ?_, by rw [hdrop', hdrop], hfin⟩
    simp only [testerRun, hstep, hnum, hrun]
    rfl

theorem primeOne_eq (p : Process) (route : RouteTable) (answers : List NetioError)
    (buf : Memory) (packetCount : Nat → Nat) (t : Thread) (i : Nat)
    (hinv : TableInv route) (hi : i < 3840) (hopen : (route.get i).«open» ≠ 0)
    (hnic : sendLoop answers = some .NETIO_NO_ERROR) :
    primeOne p route answers buf packetCount t i
      = .returned ({ t with send := bump t.send i },
          some (testerPacket p buf i (packetCount i))) := by
  have hin : InRange (PORTOFFSET + (i : Int)) := by
    unfold InRange; simp only [PORTOFFSET]; omega
  obtain ⟨hrt, hidx⟩ := routeFromPortOfArrival_in_range route _ hinv hin
  have hn : (PORTOFFSET + (i : Int) - PORTOFFSET).toNat = i := by omega
  have hslot := hinv i (by rw [routeLimit_eq]; exact hi)
  rw [hn] at hrt
  unfold primeOne
  simp only [hrt, ne_eq, hopen, not_false_eq_true, if_true, packetSendOne, hnic, hslot.1,
    hslot.2, Int.toNat_ofNat, testerPacket]

/-- C22: in a run in which the network brings every tester packet of the
route with index `i` back in order and without loss, starting from the primed
packet numbered 0 with the limit `packets`: `packetsPrimePipeline` sends the
packet numbered 0, `packetReceiveAndSend` reads exactly the numbers
0, 1, ..., `packets` in this order, never increments `drop` for the route, and
in each round, on the packet numbered `k`, sets `packetCount[i]` to `k + 1`
and sends the packet numbered `k + 1` exactly when `k < packets`; at the end
`packetCount[i]` is `packets + 1`. -/
theorem tester_sequence (p : Process) (route : RouteTable) (answers : List NetioError)
    (buf : Memory) (network : Memory → NetioPkt) (i packets rounds : Nat) (t : Thread)
    (packetCount : Nat → Nat)
    (hinv : TableInv route) (hi : i < 3840) (hopen : (route.get i).«open» ≠ 0)
    (hlimit : p.packetCount = (packets : Int)) (hpk : packets < 2147483648)
    (hnic : sendLoop answers = some .NETIO_NO_ERROR)
    (hnet : ∀ k, Returns p i (testerPacket p buf i k) (network (testerPacket p buf i k)))
    (hpc : packetCount i = 0) (hr : packets < rounds) :
    (∃ t0, primeOne p route answers buf packetCount t i
        = .returned (t0, some (testerPacket p buf i 0)) ∧ t0.drop = t.drop ∧
      ∃ t' packetCount',
        testerRun p route answers buf network rounds t0 packetCount
            (network (testerPacket p buf i 0))
          = .returned (List.range (packets + 1), t', packetCount') ∧
        t'.drop = t.drop ∧ packetCount' i = packets + 1) ∧
    ∀ (k : Nat) (t1 : Thread) (count : Nat → Nat), k ≤ packets → count i = k →
      packetNumber (network (testerPacket p buf i k)).mem
        ((parsePacket p (network (testerPacket p buf i k))).l2Data
          + (parsePacket p (network (testerPacket p buf i k))).allHeadersSize) = k ∧
      ∃ t' count', packetReceiveAndSend p route answers buf count t1
          (network (testerPacket p buf i k))
        = .returned (t', count',
            (if k < packets then some (testerPacket p buf i (k + 1)) else none), none) ∧
        t'.drop = t1.drop ∧ count' i = k + 1 := by
  constructor
  · have hp := primeOne_eq p route answers buf packetCount t i hinv hi hopen hnic
    rw [hpc] at hp
    refine ⟨_, hp, rfl, ?_⟩
    obtain ⟨t', pc', hrun, hdrop, hfin⟩ :=
      testerRun_from p route answers buf network i packets hinv hi hlimit hpk hnic hnet
        packets 0 rounds { t with send := bump t.send i } packetCount (by omega) hpc hr
    rw [List.range_eq_range']
    exact ⟨t', pc', hrun, hdrop, hfin⟩
  · intro k t1 count hk hc
    obtain ⟨hnum, t', pc', hstep, hdrop, _, _, hpc', _⟩ :=
      packetReceiveAndSend_step p route answers buf count t1
        (network (testerPacket p buf i k)) i k (testerPacket p buf i k) hinv hi (hnet k)
        (fun j hj => testerPacket_payload p buf i k j hj) (by omega) hc hnic
        (by omega) (by omega)
    have hl : p.packetCount.toNat = packets := by omega
    rw [hl] at hstep
    exact ⟨hnum, t', pc', hstep, hdrop, hpc'⟩

/-- The network `loopback` brings every packet of route 0 back to
`testerProcess`. -/
theorem loopback_returns (buf : Memory) (k : Nat) :
    Returns testerProcess 0 (testerPacket testerProcess buf 0 k)
      (loopback (testerPacket testerProcess buf 0 k)) := by
  have hf := buildPacket_fixed buf PACKETSIZE k
    { testerProcess.control with port := PORTOFFSET + ((0 : Nat) : Int) }
    { testerProcess.forward with port := PORTOFFSET + ((0 : Nat) : Int) }
  have hout : ∀ a, 6 ≤ a → (loopback (testerPacket testerProcess buf 0 k)).mem a
      = testerPacket testerProcess buf 0 k a := by
    intro a ha
    simp only [loopback]
    rw [memcpy_out _ _ _ _ (by omega)]
  have hudp : (parsePacket testerProcess (loopback (testerPacket testerProcess buf 0 k))).isUdpForMe
      = true := by
    rw [parsePacket_isUdpForMe_eq]
    have h14 := hout 14 (by omega)
    have h23 := hout 23 (by omega)
    have hmac : memcmpEq (loopback (testerPacket testerProcess buf 0 k)).mem 0
        testerProcess.forward.mac = true := by
      simp only [memcmpEq, decide_eq_true_eq]
      intro j
      exact memcpy_at _ 0 testerProcess.forward.mac j
    simp only [Bool.and_eq_true, decide_eq_true_eq, hmac, and_true]
    have e1 : (loopback (testerPacket testerProcess buf 0 k)).l3Offset = 14 := rfl
    have e2 : (loopback (testerPacket testerProcess buf 0 k)).l3Length = 1344 := rfl
    rw [e1, e2, h23, h14]
    simp only [testerPacket]
    rw [hf.1, hf.2.1]
    decide
  have hihl : ihl (loopback (testerPacket testerProcess buf 0 k)) = 5 := by
    unfold ihl
    have e1 : (loopback (testerPacket testerProcess buf 0 k)).l3Offset = 14 := rfl
    rw [e1, hout 14 (by omega)]
    simp only [testerPacket]
    rw [hf.1]
    decide
  refine ⟨hudp, ?_, ?_⟩
  · rw [parsePacket_poa _ _ hudp, hihl]
    have e1 : (loopback (testerPacket testerProcess buf 0 k)).l3Offset = 14 := rfl
    rw [e1]
    unfold word16
    rw [hout _ (by omega), hout _ (by omega)]
    simp only [testerPacket]
    rw [hf.2.2.1, hf.2.2.2]
    decide
  · intro j hj
    rw [parsePacket_allHeadersSize _ _ hudp, hihl]
    have e1 : (loopback (testerPacket testerProcess buf 0 k)).l3Offset = 14 := rfl
    rw [e1, if_neg (by omega), hout _ (by omega)]
    rfl

theorem tester_sequence_witness :
    (∃ t0, primeOne testerProcess openTable [.NETIO_NO_ERROR] (fun _ => 0) (fun _ => 0) {} 0
        = .returned (t0, some (testerPacket testerProcess (fun _ => 0) 0 0)) ∧
      t0.drop = ({} : Thread).drop ∧
      ∃ t' packetCount',
        testerRun testerProcess openTable [.NETIO_NO_ERROR] (fun _ => 0) loopback 4 t0
            (fun _ => 0) (loopback (testerPacket testerProcess (fun _ => 0) 0 0))
          = .returned (List.range (3 + 1), t', packetCount') ∧
        t'.drop = ({} : Thread).drop ∧ packetCount' 0 = 3 + 1) ∧
    ∀ (k : Nat) (t1 : Thread) (count : Nat → Nat), k ≤ 3 → count 0 = k →
      packetNumber (loopback (testerPacket testerProcess (fun _ => 0) 0 k)).mem
        ((parsePacket testerProcess
            (loopback (testerPacket testerProcess (fun _ => 0) 0 k))).l2Data
          + (parsePacket testerProcess
            (loopback (testerPacket testerProcess (fun _ => 0) 0 k))).allHeadersSize) = k ∧
      ∃ t' count', packetReceiveAndSend testerProcess openTable [.NETIO_NO_ERROR]
          (fun _ => 0) count t1 (loopback (testerPacket testerProcess (fun _ => 0) 0 k))
        = .returned (t', count',
            (if k < 3 then some (testerPacket testerProcess (fun _ => 0) 0 (k + 1)) else none),
            none) ∧
        t'.drop = t1.drop ∧ count' 0 = k + 1 :=
  tester_sequence testerProcess openTable [.NETIO_NO_ERROR] (fun _ => 0) loopback 0 3 4 {}
    (fun _ => 0) openTable_inv (by decide) openTable_slot rfl (by decide) rfl
    (loopback_returns (fun _ => 0)) rfl (by decide)

/-! ## The thread monitor: claim C24 -/

/-- The schedule of the example is fair, and the cohort of the example has two
threads. -/
theorem switchThreads_fair :
    Fair { threadCount := 4 } switchThreads (some .forwardStart) [[2, 3], [3, 2]] ∧
    cohort { threadCount := 4 } switchThreads (some .forwardStart) = [2, 3] := by
  have hc : cohort { threadCount := 4 } switchThreads (some .forwardStart) = [2, 3] := by
    decide
  refine ⟨⟨[2, 3], [3, 2], [], rfl, ?_⟩, hc⟩
  rw [hc]
  decide

end UdpSwitch
